import Mathlib

/-!
Verification development for the markdown-backed task manager
(`internal/task` and `internal/server` of the Go source tree).

Strings are modelled as lists of characters (`Str`).  Go `int` (64-bit) is
modelled as `Int`, with the 64-bit range check made explicit where the code
parses integers (`strconv.Atoi`).  Timestamps (`time.Time`) are modelled as
natural numbers; every function that calls `time.Now()` in the source takes
an explicit `now : Nat` argument.  Concurrency (mutexes, the evaluation
semaphore, goroutines) is not modelled: each operation is embedded as the
pure state transformer it performs on the store's contents.
-/

deriving instance DecidableEq for Except

namespace TaskMd

abbrev Str := List Char

/-- Whitespace as trimmed by Go's `strings.TrimSpace` (ASCII part of
`unicode.IsSpace`: space, \t, \n, \v, \f, \r). -/
def goIsSpace (c : Char) : Bool :=
  c = ' ' || c = '\t' || c = '\n' || c = (Char.ofNat 11) || c = (Char.ofNat 12) || c = '\r'

/-- Whitespace as matched by RE2's `\s` character class: [\t\n\f\r ]. -/
def reIsSpace (c : Char) : Bool :=
  c = ' ' || c = '\t' || c = '\n' || c = (Char.ofNat 12) || c = '\r'

def isDigitCh (c : Char) : Bool := '0' ≤ c && c ≤ '9'

/-- RE2 `\w`: [0-9A-Za-z_]. -/
def isWordCh (c : Char) : Bool :=
  isDigitCh c || ('a' ≤ c && c ≤ 'z') || ('A' ≤ c && c ≤ 'Z') || c = '_'

/-- `strings.TrimSpace` (left part). -/
def trimLeft (s : Str) : Str := s.dropWhile goIsSpace

/-- `strings.TrimSpace`. -/
def goTrimSpace (s : Str) : Str := trimLeft ((trimLeft s.reverse).reverse)

/-- `strings.HasPrefix`. -/
def hasPre : Str → Str → Bool
  | [], _ => true
  | _ :: _, [] => false
  | p :: ps, c :: cs => p = c && hasPre ps cs

/-- `strings.TrimPrefix`. -/
def trimPre (p s : Str) : Str := if hasPre p s then s.drop p.length else s

/-- `strings.Contains` for a single-character separator. -/
def containsCh (c : Char) : Str → Bool
  | [] => false
  | x :: xs => x = c || containsCh c xs

/-- `strings.Split(s, "\n")`: Go returns one (possibly empty) piece per
newline-separated segment; `Split("", "\n") = [""]`. -/
def splitNl : Str → List Str
  | [] => [[]]
  | c :: rest =>
    if c = '\n' then [] :: splitNl rest
    else
      match splitNl rest with
      | [] => [[c]]
      | l :: ls => (c :: l) :: ls

/-- `strings.SplitN(s, ":", 2)`: the part before the first ':' and the rest.
Returns `none` when there is no ':' (Go would return a 1-element slice). -/
def splitN2Colon : Str → Option (Str × Str)
  | [] => none
  | c :: rest =>
    if c = ':' then some ([], rest)
    else (splitN2Colon rest).map (fun p => (c :: p.1, p.2))

/-- Decimal digits, with explicit fuel so that the definition is
structurally recursive (and hence kernel-computable). -/
def natToStrAux : Nat → Nat → Str
  | 0, _ => []
  | fuel + 1, n =>
    if n < 10 then [Char.ofNat (48 + n)]
    else natToStrAux fuel (n / 10) ++ [Char.ofNat (48 + n % 10)]

/-- Decimal digits of a natural number (Go `strconv` formatting).  Fuel
`n + 1` always suffices because the argument shrinks at least tenfold per
step. -/
def natToStr (n : Nat) : Str := natToStrAux (n + 1) n

/-- Go `fmt.Sprintf("%d", i)` / `strconv.Itoa` for a (64-bit) integer. -/
def intToStr (i : Int) : Str :=
  if i < 0 then '-' :: natToStr (-i).toNat else natToStr i.toNat

/-- Numeric value of a nonempty all-digit string, `none` otherwise. -/
def digitsVal : Str → Option Nat
  | [] => none
  | [c] => if isDigitCh c then some (c.toNat - 48) else none
  | c :: rest =>
    if isDigitCh c then
      (digitsVal rest).map (fun v => (c.toNat - 48) * 10 ^ rest.length + v)
    else none

/-- `strconv.Atoi` (base 10, 64-bit `int`): optional sign, nonempty digit
run, range check against int64. -/
def goAtoi (s : Str) : Option Int :=
  match s with
  | '-' :: rest =>
    (digitsVal rest).bind (fun v => if v ≤ 2 ^ 63 then some (-(v : Int)) else none)
  | '+' :: rest =>
    (digitsVal rest).bind (fun v => if v ≤ 2 ^ 63 - 1 then some ((v : Int)) else none)
  | _ =>
    (digitsVal s).bind (fun v => if v ≤ 2 ^ 63 - 1 then some ((v : Int)) else none)

/-! ## Domain model (`internal/task/types.go`)

Go's `TaskStatus`, `TaskCategory`, `TaskPriority`, `TaskComplexity` are
string types; they are modelled as `Str` with the same constants. -/

abbrev TaskStatus := Str

def StatusTodo : TaskStatus := "todo".data
def StatusInProgress : TaskStatus := "in_progress".data
def StatusDone : TaskStatus := "done".data
def StatusBlocked : TaskStatus := "blocked".data

def CategoryMVP : Str := "[MVP]".data
def CategoryAI : Str := "[AI]".data
def CategoryUX : Str := "[UX]".data
def CategoryInfra : Str := "[INFRA]".data

def PriorityP0 : Str := "P0".data
def PriorityP1 : Str := "P1".data
def PriorityP2 : Str := "P2".data
def PriorityP3 : Str := "P3".data

def ComplexityLow : Str := "low".data
def ComplexityMedium : Str := "medium".data
def ComplexityHigh : Str := "high".data

structure Choice where
  id : Str
  question : Str
  options : List Str
  selected : Str
  reasoning : Str
  createdAt : Nat
  resolvedAt : Option Nat
deriving DecidableEq, Repr

structure Subtask where
  title : Str
  description : Str
  status : TaskStatus
  estimatedHours : Int
  complexity : Str
  choices : List Choice
  createdAt : Nat
  updatedAt : Nat
deriving DecidableEq, Repr

structure Task where
  id : Int
  title : Str
  description : Str
  category : Str
  priority : Str
  status : TaskStatus
  complexity : Str
  estimatedHours : Int
  dependencies : List Int
  subtasks : List Subtask
  choices : List Choice
  createdAt : Nat
  updatedAt : Nat
deriving DecidableEq, Repr

structure Project where
  name : Str
  description : Str
  tasks : List Task
  createdAt : Nat
  updatedAt : Nat
deriving DecidableEq, Repr

/-- `Task.IsCompleted`. -/
def Task.isCompleted (t : Task) : Bool := t.status == StatusDone

/-- `Task.IsFullyCompleted`: the task is done and (if it has subtasks) all
of them are done. -/
def Task.isFullyCompleted (t : Task) : Bool :=
  if t.status ≠ StatusDone then false
  else t.subtasks.all (fun s => s.status == StatusDone)

/-- `Task.CanBeMarkedComplete`: no subtasks, or all subtasks done. -/
def Task.canBeMarkedComplete (t : Task) : Bool :=
  t.subtasks.all (fun s => s.status == StatusDone)

/-- `Task.GetCompletedSubtaskCount`. -/
def Task.completedSubtaskCount (t : Task) : Nat :=
  (t.subtasks.filter (fun s => s.status == StatusDone)).length

/-! ## Validation and defaults (`internal/task/validation.go`) -/

/-- `ValidateTaskStatus`. -/
def validateTaskStatus (status : Str) : Except Str TaskStatus :=
  if status = StatusTodo ∨ status = StatusInProgress ∨ status = StatusDone ∨
      status = StatusBlocked then
    .ok status
  else
    .error ("invalid task status: ".data ++ status)

/-- `ValidateProjectName`: nonempty after trimming, and free of
filesystem-hostile characters. -/
def validateProjectName (name : Str) : Except Str Unit :=
  if goTrimSpace name = [] then .error "project name cannot be empty".data
  else if ['/', '\\', ':', '*', '?', '"', '<', '>', '|'].any
      (fun c => containsCh c name) then
    .error "project name contains invalid character".data
  else .ok ()

/-- `DefaultTaskPriority`. -/
def defaultTaskPriority : Str := PriorityP2

/-- `DefaultTaskStatus`. -/
def defaultTaskStatus : TaskStatus := StatusTodo

/-- `GenerateChoiceID`: "choice_" plus the current time
(`time.Now().UnixNano()` modelled by `now`). -/
def generateChoiceID (now : Nat) : Str := "choice_".data ++ natToStr now

/-! ## Markdown generation (`internal/task/markdown.go`) -/

def nl : Str := ['\n']

/-- `generateChoiceMarkdown`. -/
def generateChoiceMarkdown (c : Choice) : Str :=
  "**Choice:** ".data ++ c.question ++ nl ++
  "Options:".data ++ nl ++
  (c.options.map (fun o =>
    "- [".data ++ (if c.selected == o then "x".data else " ".data) ++ "] ".data ++ o ++ nl)).flatten ++
  (if c.reasoning ≠ [] then "Reasoning: ".data ++ c.reasoning ++ nl else []) ++
  nl

/-- `generateTaskMarkdown`. -/
def generateTaskMarkdown (t : Task) : Str :=
  let category := if t.category = [] then "[GENERAL]".data else t.category
  let priority := if t.priority = [] then "P2".data else t.priority
  let status := if t.status = [] then "todo".data else t.status
  "## Task ".data ++ intToStr t.id ++ ": ".data ++ category ++ " ".data ++ t.title ++
    " (".data ++ priority ++ ") [".data ++ status ++ "]".data ++ nl ++ nl ++
  (if t.description ≠ [] then t.description ++ nl ++ nl else []) ++
  (if t.dependencies ≠ [] then
    "### Dependencies:".data ++ nl ++
    (t.dependencies.map (fun d => "- Task ".data ++ intToStr d ++ nl)).flatten ++ nl
  else []) ++
  (if t.complexity ≠ [] ∨ t.estimatedHours > 0 then
    (if t.complexity ≠ [] then "### Complexity: ".data ++ t.complexity ++ nl else []) ++
    (if t.estimatedHours > 0 then "Estimated hours: ".data ++ intToStr t.estimatedHours ++ nl
     else []) ++ nl
  else []) ++
  (if t.choices ≠ [] then
    "### Choices:".data ++ nl ++ (t.choices.map generateChoiceMarkdown).flatten ++ nl
  else []) ++
  (if t.subtasks ≠ [] then
    "### Subtasks:".data ++ nl ++ nl ++
    (t.subtasks.map (fun s =>
      "- [".data ++ (if s.status == StatusDone then "x".data else " ".data) ++ "] ".data ++
        s.title ++ nl ++
      ((s.choices.map (fun c => "  ".data ++ generateChoiceMarkdown c)).flatten))).flatten ++ nl
  else [])

/-- `shouldGenerateDiagram`. -/
def shouldGenerateDiagram (p : Project) : Bool :=
  let taskCount : Nat := p.tasks.length
  let totalItems : Nat := (p.tasks.map (fun t => 1 + t.subtasks.length)).sum
  if taskCount ≥ 5 then true
  else if totalItems ≥ 10 then true
  else (p.tasks.filter (fun t => t.dependencies ≠ [])).length ≥ 2

/-- Decimal text of `num/den*100` with one digit after the point, rounding
half to even.  Models the `%.1f` formatting of the progress ratios; the Go
source goes through `float64`, whose rounding can differ from the exact
rational in edge cases — the text is only ever embedded in table lines that
the decoder skips, so the difference is parse-inert. -/
def pctStr (num den : Nat) : Str :=
  let q := num * 1000 / den
  let r := num * 1000 % den
  let t := if 2 * r < den then q
           else if 2 * r > den then q + 1
           else if q % 2 = 0 then q else q + 1
  natToStr (t / 10) ++ ".".data ++ natToStr (t % 10)

/-- `generateMermaidDiagram`. -/
def generateMermaidDiagram (p : Project) : Str :=
  let totalTasks := p.tasks.length
  let completedTasks := (p.tasks.filter (fun t => t.status == StatusDone)).length
  let inProgressTasks := (p.tasks.filter (fun t => t.status == StatusInProgress)).length
  let blockedTasks := (p.tasks.filter (fun t => t.status == StatusBlocked)).length
  let totalItems := (p.tasks.map (fun t => 1 + t.subtasks.length)).sum
  let completedItems :=
    (p.tasks.map (fun t =>
      (if t.status == StatusDone then 1 else 0) + t.completedSubtaskCount)).sum
  "```mermaid".data ++ nl ++
  "pie title Project Progress".data ++ nl ++
  (if completedItems > 0 then
    "    \"Completed\" : ".data ++ natToStr completedItems ++ nl else []) ++
  (if totalItems - completedItems > 0 then
    "    \"Remaining\" : ".data ++ natToStr (totalItems - completedItems) ++ nl else []) ++
  "```".data ++ nl ++ nl ++
  "### Progress Summary".data ++ nl ++ nl ++
  "| Metric | Count | Percentage |".data ++ nl ++
  "|--------|-------|------------|".data ++ nl ++
  (if totalTasks > 0 then
    "| Tasks Completed | ".data ++ natToStr completedTasks ++ "/".data ++
      natToStr totalTasks ++ " | ".data ++ pctStr completedTasks totalTasks ++ "% |".data ++ nl
  else []) ++
  (if totalItems > 0 then
    "| Overall Progress | ".data ++ natToStr completedItems ++ "/".data ++
      natToStr totalItems ++ " | ".data ++ pctStr completedItems totalItems ++ "% |".data ++ nl
  else []) ++
  (if inProgressTasks > 0 then
    "| In Progress | ".data ++ natToStr inProgressTasks ++ " | - |".data ++ nl else []) ++
  (if blockedTasks > 0 then
    "| Blocked | ".data ++ natToStr blockedTasks ++ " | - |".data ++ nl else []) ++
  nl

/-- `generateMarkdown`. -/
def generateMarkdown (p : Project) : Str :=
  "# Project Tasks".data ++ nl ++ nl ++
  (if p.description ≠ [] then p.description ++ nl ++ nl else []) ++
  (if shouldGenerateDiagram p then
    "## Project Overview".data ++ nl ++ nl ++ generateMermaidDiagram p ++ nl
  else []) ++
  "## Categories".data ++ nl ++
  "- [MVP] Core functionality tasks".data ++ nl ++
  "- [AI] AI-related features".data ++ nl ++
  "- [UX] User experience improvements".data ++ nl ++
  "- [INFRA] Infrastructure and setup".data ++ nl ++ nl ++
  "## Priority Levels".data ++ nl ++
  "- P0: Blocker/Critical".data ++ nl ++
  "- P1: High Priority".data ++ nl ++
  "- P2: Medium Priority".data ++ nl ++
  "- P3: Low Priority".data ++ nl ++ nl ++
  (p.tasks.map (fun t => generateTaskMarkdown t ++ nl ++ "---".data ++ nl ++ nl)).flatten

/-! ## The task-heading pattern

`parseMarkdown` recognises task boundaries with the anchored Go regexp

  `^##\s+Task\s+(\d+):\s*(\[[\w]+\])?\s*(.+?)\s*\(([^)]+)\)\s*(?:\[([^\]]+)\])?$`

Go's regexp engine returns the match a Perl-style backtracking search would
find first.  The pattern is implemented below stage by stage.  The stages up
to the `:` are deterministic (each greedy run is followed by a character the
run's class excludes, so only the maximal run can succeed).  The remaining
choice points — the two `\s*` runs, the optional category group, and the
lazy `(.+?)` — are enumerated in preference order (greedy: longest first;
optional: present first; lazy: shortest first) and the first alternative
whose continuation succeeds is taken. -/

/-- Capture groups 1–5 of the task-heading pattern.  `category` includes its
brackets (as in the Go capture); `status` does not. -/
structure HeaderCaps where
  digits : Str
  category : Option Str
  title : Str
  priority : Str
  status : Option Str
deriving DecidableEq, Repr

/-- Alternatives for a greedy `\s*`, longest first. -/
def wsAlts (s : Str) : List Str :=
  let n := (s.takeWhile reIsSpace).length
  (List.range (n + 1)).map (fun i => s.drop (n - i))

/-- Alternatives for `(\[[\w]+\])?`, present first. -/
def catAlts (s : Str) : List (Option Str × Str) :=
  (match s with
   | '[' :: r =>
     let w := r.takeWhile isWordCh
     (match w, r.drop w.length with
      | _ :: _, ']' :: r2 => [(some ('[' :: (w ++ [']'])), r2)]
      | _, _ => [])
   | _ => []) ++ [(none, s)]

/-- The deterministic tail `\s*\(([^)]+)\)\s*(?:\[([^\]]+)\])?$`. -/
def tailMatch (s : Str) : Option (Str × Option Str) :=
  match s.dropWhile reIsSpace with
  | '(' :: r =>
    let pr := r.takeWhile (fun c => c ≠ ')')
    (match pr, r.drop pr.length with
     | _ :: _, ')' :: r2 =>
       (match r2.dropWhile reIsSpace with
        | [] => some (pr, none)
        | '[' :: r3 =>
          let stx := r3.takeWhile (fun c => c ≠ ']')
          (match stx, r3.drop stx.length with
           | _ :: _, [']'] => some (pr, some stx)
           | _, _ => none)
        | _ => none)
     | _, _ => none)
  | _ => none

/-- The lazy `(.+?)` followed by `tailMatch`: prefixes are tried shortest
first; `.` does not match a newline. -/
def lazyScan (acc : Str) : Str → Option (Str × Str × Option Str)
  | [] => none
  | c :: rest =>
    if c = '\n' then none
    else
      match tailMatch rest with
      | some (pr, stx) => some (acc ++ [c], pr, stx)
      | none => lazyScan (acc ++ [c]) rest

/-- The full anchored heading match (`FindStringSubmatch` against the
pattern above; `some` exactly when the regexp matches the whole line). -/
def matchTaskHeader (line : Str) : Option HeaderCaps :=
  match line with
  | '#' :: '#' :: r0 =>
    let w1 := r0.takeWhile reIsSpace
    if w1 = [] then none
    else
      let r1 := r0.drop w1.length
      if hasPre "Task".data r1 then
        let r2 := r1.drop 4
        let w2 := r2.takeWhile reIsSpace
        if w2 = [] then none
        else
          let r3 := r2.drop w2.length
          let ds := r3.takeWhile isDigitCh
          if ds = [] then none
          else
            match r3.drop ds.length with
            | ':' :: r4 =>
              (wsAlts r4).findSome? (fun r5 =>
                (catAlts r5).findSome? (fun ca =>
                  (wsAlts ca.2).findSome? (fun r6 =>
                    (lazyScan [] r6).map (fun m =>
                      ⟨ds, ca.1, m.1, m.2.1, m.2.2⟩))))
            | _ => none
      else none
  | _ => none

/-- The checkbox pattern `^-\s*\[(.)\]\s*(.+)$` (used for subtask lines and
choice-option lines).  The two `\s*` runs are deterministic: the first is
followed by `[`, the second by a greedy `(.+)` that must keep at least one
character, so it yields everything after the maximal space run, or the last
character when only spaces remain. -/
def matchCheckbox (line : Str) : Option (Char × Str) :=
  match line with
  | '-' :: r =>
    (match r.dropWhile reIsSpace with
     | '[' :: c :: ']' :: rest =>
       if c = '\n' then none
       else if containsCh '\n' rest then none
       else if rest = [] then none
       else
         let t := rest.dropWhile reIsSpace
         some (c, if t = [] then rest.drop (rest.length - 1) else t)
     | _ => none)
  | _ => none

/-! ## Markdown decoding (`parseMarkdown`) -/

/-- The parser's line-scan state: tasks finalised so far, the open task, the
open choice, and the two section flags. -/
structure PState where
  tasks : List Task
  cur : Option Task
  curChoice : Option Choice
  inSubtasks : Bool
  inChoices : Bool
deriving DecidableEq, Repr

/-- Finalise the in-progress task, if any. -/
def pushCur (st : PState) : List Task :=
  match st.cur with
  | some t => st.tasks ++ [t]
  | none => st.tasks

/-- One iteration of `parseMarkdown`'s line loop, with the branches in
source order.  The only error is an unparsable task ID in a recognised
heading line. -/
def processLine (now : Nat) (st : PState) (raw : Str) : Except Str PState :=
  let line := goTrimSpace raw
  if line = [] then .ok st
  else
    match matchTaskHeader line with
    | some caps =>
      match goAtoi caps.digits with
      | none => .error ("invalid task ID: ".data ++ caps.digits)
      | some tid =>
        let t : Task :=
          { id := tid
            title := goTrimSpace caps.title
            description := []
            category := match caps.category with | some c => c | none => []
            priority := caps.priority
            status := match caps.status with
              | some s =>
                (match validateTaskStatus s with
                 | .ok v => v
                 | .error _ => StatusTodo)
              | none => StatusTodo
            complexity := []
            estimatedHours := 0
            dependencies := []
            subtasks := []
            choices := []
            createdAt := now
            updatedAt := now }
        .ok { tasks := pushCur st, cur := some t, curChoice := st.curChoice,
              inSubtasks := false, inChoices := false }
    | none =>
      if hasPre "### ".data line then
        let sec := trimPre "### ".data line
        if hasPre "Subtasks".data sec then
          .ok { st with inSubtasks := true, inChoices := false }
        else if hasPre "Choices".data sec then
          .ok { st with inChoices := true, inSubtasks := false }
        else if hasPre "Complexity".data sec then
          (match st.cur, splitN2Colon sec with
           | some t, some parts =>
             .ok { st with cur := some { t with complexity := goTrimSpace parts.2 },
                           inSubtasks := false, inChoices := false }
           | _, _ => .ok { st with inSubtasks := false, inChoices := false })
        else .ok { st with inSubtasks := false, inChoices := false }
      else if hasPre "Estimated hours:".data line && st.cur.isSome then
        let hoursStr := goTrimSpace (trimPre "Estimated hours:".data line)
        .ok { st with cur := st.cur.map (fun t =>
          match goAtoi hoursStr with
          | some h => { t with estimatedHours := h }
          | none => t) }
      else if hasPre "- Task ".data line && !st.inSubtasks && !st.inChoices &&
          st.cur.isSome then
        let depStr := goTrimSpace (trimPre "- Task ".data line)
        .ok { st with cur := st.cur.map (fun t =>
          match goAtoi depStr with
          | some d => { t with dependencies := t.dependencies ++ [d] }
          | none => t) }
      else if st.inSubtasks && hasPre "- [".data line && st.cur.isSome then
        (match matchCheckbox line with
         | some m =>
           let sub : Subtask :=
             { title := goTrimSpace m.2
               description := []
               status := if m.1 = 'x' then StatusDone else StatusTodo
               estimatedHours := 0
               complexity := []
               choices := []
               createdAt := now
               updatedAt := now }
           .ok { st with cur := st.cur.map (fun t =>
             { t with subtasks := t.subtasks ++ [sub] }) }
         | none => .ok st)
      else if hasPre "**Choice:**".data line && st.cur.isSome then
        let question := goTrimSpace (trimPre "**Choice:**".data line)
        .ok { st with curChoice := some (
          { id := generateChoiceID now, question := question, options := []
            selected := [], reasoning := [], createdAt := now, resolvedAt := none }) }
      else if st.curChoice.isSome && hasPre "- [".data line then
        (match matchCheckbox line with
         | some m =>
           let option := goTrimSpace m.2
           .ok { st with curChoice := st.curChoice.map (fun ch =>
             let ch2 := { ch with options := ch.options ++ [option] }
             if m.1 = 'x' then { ch2 with selected := option, resolvedAt := some now }
             else ch2) }
         | none => .ok st)
      else if st.curChoice.isSome && hasPre "Reasoning:".data line then
        (match st.curChoice with
         | some ch =>
           let ch2 := { ch with reasoning := goTrimSpace (trimPre "Reasoning:".data line) }
           .ok { st with
             cur := st.cur.map (fun t => { t with choices := t.choices ++ [ch2] })
             curChoice := none }
         | none => .ok st)
      else if st.cur.isSome && !st.inSubtasks && !st.inChoices && st.curChoice.isNone &&
          !hasPre "#".data line && !hasPre "-".data line &&
          !hasPre "Estimated hours:".data line && line ≠ "---".data then
        .ok { st with cur := st.cur.map (fun t =>
          { t with description := if t.description = [] then line
                                  else t.description ++ '\n' :: line }) }
      else .ok st

/-- Fold `processLine` over a list of lines. -/
def runLines (now : Nat) : PState → List Str → Except Str PState
  | st, [] => .ok st
  | st, l :: ls =>
    match processLine now st l with
    | .error e => .error e
    | .ok st' => runLines now st' ls

def initPState : PState :=
  { tasks := [], cur := none, curChoice := none, inSubtasks := false, inChoices := false }

/-- `parseMarkdown`: split on newlines, scan, finalise the last open task.
The decoded project has empty name and description and `now` timestamps
(`LoadProject` re-stamps the name afterwards). -/
def parseMarkdown (content : Str) (now : Nat) : Except Str Project :=
  (runLines now initPState (splitNl content)).map (fun st =>
    { name := [], description := [], tasks := pushCur st,
      createdAt := now, updatedAt := now })

/-! ## Manager operations (`internal/task/manager.go`)

`LoadProject`/`SaveProject` move whole project documents between memory and
one file per project.  The store's contents are modelled as the `Project`
value itself; `SaveProject` validates the name and stamps `UpdatedAt`. -/

/-- `SaveProject` (its effect on the stored document). -/
def saveProject (p : Project) (now : Nat) : Except Str Project :=
  match validateProjectName p.name with
  | .error e => .error e
  | .ok _ => .ok { p with updatedAt := now }

/-- Inner loop of `UpdateTaskStatus`'s subtask branch: set the status of the
first subtask with the given title; `none` when no title matches. -/
def updateSubtasksGo (now : Nat) (subtaskTitle : Str) (status : TaskStatus) :
    List Subtask → Option (List Subtask)
  | [] => none
  | s :: ss =>
    if s.title = subtaskTitle then
      some ({ s with status := status, updatedAt := now } :: ss)
    else
      (updateSubtasksGo now subtaskTitle status ss).map (s :: ·)

/-- `UpdateTaskStatus`'s work on the located task: the main-task branch
(cascading all subtasks to done when the new status is done) or the
subtask branch (with the bottom-up auto-promotion check). -/
def processTaskUpdate (now : Nat) (subtaskTitle : Str) (status : TaskStatus)
    (t : Task) : Except Str Task :=
  if subtaskTitle = [] then
    let t1 :=
      if status = StatusDone then
        { t with subtasks := t.subtasks.map (fun s =>
            if s.status ≠ StatusDone then { s with status := StatusDone, updatedAt := now }
            else s) }
      else t
    .ok { t1 with status := status, updatedAt := now }
  else
    match updateSubtasksGo now subtaskTitle status t.subtasks with
    | none => .error ("subtask not found: ".data ++ subtaskTitle)
    | some subs =>
      let t1 := { t with subtasks := subs, updatedAt := now }
      if status = StatusDone ∧ t1.status ≠ StatusDone ∧ t1.canBeMarkedComplete then
        .ok { t1 with status := StatusDone, updatedAt := now }
      else .ok t1

/-- Outer loop of `UpdateTaskStatus`: process the first task whose title
matches, error when none does. -/
def updateTasksGo (now : Nat) (taskTitle subtaskTitle : Str) (status : TaskStatus) :
    List Task → Except Str (List Task)
  | [] => .error ("task not found: ".data ++ taskTitle)
  | t :: ts =>
    if t.title = taskTitle then
      (processTaskUpdate now subtaskTitle status t).map (· :: ts)
    else
      (updateTasksGo now taskTitle subtaskTitle status ts).map (t :: ·)

/-- `UpdateTaskStatus` on a loaded project: locate, update, save. -/
def updateTaskStatus (p : Project) (taskTitle subtaskTitle : Str)
    (status : TaskStatus) (now : Nat) : Except Str Project :=
  match updateTasksGo now taskTitle subtaskTitle status p.tasks with
  | .error e => .error e
  | .ok ts => saveProject { p with tasks := ts } now

/-- The stored document after an `UpdateTaskStatus` call: the method saves
only on the success path, so an error leaves the file as it was. -/
def updateTaskStatusStore (p : Project) (taskTitle subtaskTitle : Str)
    (status : TaskStatus) (now : Nat) : Project :=
  match updateTaskStatus p taskTitle subtaskTitle status now with
  | .ok p' => p'
  | .error _ => p

/-- `GetNextTask`'s scan over the task list. -/
def getNextTaskGo : List Task → Except Str (Task × Option Subtask)
  | [] => .error "all tasks completed".data
  | t :: ts =>
    if !t.isFullyCompleted then
      match t.subtasks.find? (fun s => !(s.status == StatusDone)) with
      | some s => .ok (t, some s)
      | none => if t.status ≠ StatusDone then .ok (t, none) else getNextTaskGo ts
    else getNextTaskGo ts

/-- `GetNextTask` on a loaded project. -/
def getNextTask (p : Project) : Except Str (Task × Option Subtask) :=
  getNextTaskGo p.tasks

/-! ## Auto-update sweep and attention scan (`internal/task/validation.go`) -/

/-- `ShouldAutoMarkTaskDone`: some subtasks exist and all are done. -/
def shouldAutoMarkTaskDone (t : Task) : Bool :=
  if t.subtasks ≠ [] then t.subtasks.all (fun s => s.status == StatusDone) else false

/-- `autoUpdateSubtaskCompletion`: a done task forces all its subtasks to
done, one change description per forced subtask. -/
def autoUpdateSubtaskCompletion (t : Task) (now : Nat) : Task × List Str :=
  if t.status = StatusDone then
    ({ t with subtasks := t.subtasks.map (fun s =>
        if s.status ≠ StatusDone then { s with status := StatusDone, updatedAt := now }
        else s) },
     (t.subtasks.filter (fun s => s.status ≠ StatusDone)).map (fun s =>
       "Auto-completed subtask '".data ++ s.title ++ "' (main task done)".data))
  else (t, [])

/-- One task's step of `AutoUpdateTaskStatuses`: bottom-up promotion, then
the top-down subtask force. -/
def autoUpdateOneTask (t : Task) (now : Nat) : Task × List Str :=
  let step1 :=
    if t.status ≠ StatusDone ∧ shouldAutoMarkTaskDone t then
      ({ t with status := StatusDone, updatedAt := now },
       ["Auto-completed task '".data ++ t.title ++ "' (all subtasks done)".data])
    else (t, [])
  let step2 := autoUpdateSubtaskCompletion step1.1 now
  (step2.1, step1.2 ++ step2.2)

/-- `AutoUpdateTaskStatuses`.  In the source `hasChanges` is set exactly
when at least one change description was recorded, so it is returned as the
nonemptiness of the description list. -/
def autoUpdateTaskStatuses (p : Project) (now : Nat) : Project × List Str × Bool :=
  let stepped := p.tasks.map (fun t => autoUpdateOneTask t now)
  let updates := (stepped.map (·.2)).flatten
  ({ p with tasks := stepped.map (·.1) }, updates, !updates.isEmpty)

def nsPerHour : Nat := 3600 * 1000000000

/-- `ShouldPromptForCompletion`.  Durations are nanoseconds; the source's
`float64` hour/day comparisons are modelled by the exact equivalent integer
comparisons. -/
def shouldPromptForCompletion (now : Nat) (t : Task) : Bool :=
  if t.status = StatusDone ∨ t.status = StatusBlocked then false
  else if t.status = StatusInProgress ∧ t.estimatedHours > 0 ∧
      ((now : Int) - t.updatedAt > t.estimatedHours * nsPerHour) then true
  else if t.status = StatusInProgress ∧ (now : Int) - t.updatedAt > 7 * 24 * nsPerHour then
    true
  else if t.status = StatusTodo ∧ t.subtasks = [] ∧
      (now : Int) - t.createdAt > 14 * 24 * nsPerHour then true
  else false

/-- `fmt`'s `%.1f` of the exact ratio `a / b` (see `pctStr` for the float
caveat; these strings are data carried in attention reasons, never parsed). -/
def fp1Str (a b : Nat) : Str := pctStr a (100 * b)

/-- `getAttentionReason`. -/
def getAttentionReason (now : Nat) (t : Task) : Str :=
  if t.status = StatusInProgress ∧ t.estimatedHours > 0 ∧
      ((now : Int) - t.updatedAt > t.estimatedHours * nsPerHour) then
    "Task has been in progress for ".data ++ fp1Str (now - t.updatedAt) nsPerHour ++
      " hours (estimated: ".data ++ intToStr t.estimatedHours ++ " hours)".data
  else if t.status = StatusInProgress ∧ (now : Int) - t.updatedAt > 7 * 24 * nsPerHour then
    "Task has been in progress for ".data ++ fp1Str (now - t.updatedAt) (24 * nsPerHour) ++
      " days without updates".data
  else if t.status = StatusTodo ∧ t.subtasks = [] ∧
      (now : Int) - t.createdAt > 14 * 24 * nsPerHour then
    "Task has been todo for ".data ++ fp1Str (now - t.createdAt) (24 * nsPerHour) ++
      " days - might need breakdown or action".data
  else "Task needs review".data

def AttentionTypeCompletion : Str := "completion".data
def AttentionTypeStale : Str := "stale".data

structure TaskAttention where
  task : Task
  subtask : Option Subtask
  reason : Str
  atype : Str
  severity : Int
deriving DecidableEq, Repr

/-- `GetTasksNeedingAttention` (read-only heuristic scan). -/
def getTasksNeedingAttention (p : Project) (now : Nat) : List TaskAttention :=
  (p.tasks.map (fun t =>
    (if shouldPromptForCompletion now t then
       [{ task := t, subtask := none, reason := getAttentionReason now t,
          atype := AttentionTypeCompletion, severity := 0 : TaskAttention }]
     else []) ++
    (t.subtasks.filterMap (fun s =>
      if s.status = StatusInProgress ∧ (now : Int) - s.updatedAt > 5 * 24 * nsPerHour then
        some { task := t, subtask := some s,
               reason := "Subtask '".data ++ s.title ++ "' has been in progress for ".data ++
                 fp1Str (now - s.updatedAt) (24 * nsPerHour) ++ " days".data,
               atype := AttentionTypeStale, severity := 0 }
      else none)))).flatten

/-! ## Dependency-cycle detection (`internal/server/server.go`) -/

/-- The ID → task index built by `detectCircularDependencies`.  The Go map
is filled in slice order, so a duplicated ID resolves to the last task
bearing it. -/
def tmFind (ts : List Task) (id : Int) : Option Task :=
  (ts.filter (fun t => t.id == id)).getLast?

/-- `hasCycle`: depth-first search over dependency edges with a visited set
and a recursion stack, both mutated in place in Go and therefore threaded
through every call and fold step here.  The Go version recurses without
fuel; it terminates because each nested call is on a previously unvisited
ID which it immediately marks, so the recursion depth is bounded by the
number of distinct IDs plus one.  `fuel` makes the same bound explicit:
callers pass `ts.length + 1`, which the same argument shows is never
exhausted.  Both marks are set before the `taskMap` lookup, and the
`!exists` early return skips the `recStack[taskID] = false` cleanup, so a
missing dependency ID stays on the recursion stack forever; only the
fall-through `return false` at the end removes the current ID (the
`filter`).  Go's early `return true` in the dependency loop (which also
skips the cleanup) is rendered by the fold keeping an acc whose verdict,
once true, freezes it, and by returning `r` unfiltered when its verdict is
true. -/
def hasCycleAux (ts : List Task) :
    Nat → Int → List Int → List Int → Bool × List Int × List Int
  | 0, _, visited, recStack => (false, visited, recStack)
  | fuel + 1, tid, visited, recStack =>
    let visited1 := tid :: visited
    let recStack1 := tid :: recStack
    match tmFind ts tid with
    | none => (false, visited1, recStack1)
    | some t =>
      let r := t.dependencies.foldl (fun acc d =>
        if acc.1 then acc
        else if d ∈ acc.2.1 then
          (if d ∈ acc.2.2 then (true, acc.2) else (false, acc.2))
        else hasCycleAux ts fuel d acc.2.1 acc.2.2) (false, visited1, recStack1)
      if r.1 then r else (false, r.2.1, r.2.2.filter (fun x => x ≠ tid))

/-- The loop body of `hasCycle`, named so the unfolding lemmas below can
speak about the fold. -/
def cycleStep (ts : List Task) (fuel : Nat)
    (acc : Bool × List Int × List Int) (d : Int) : Bool × List Int × List Int :=
  if acc.1 then acc
  else if d ∈ acc.2.1 then
    (if d ∈ acc.2.2 then (true, acc.2) else (false, acc.2))
  else hasCycleAux ts fuel d acc.2.1 acc.2.2

/-- `detectCircularDependencies`: one fresh DFS per task, reporting titles. -/
def detectCircularDependencies (p : Project) : List Str :=
  p.tasks.filterMap (fun t =>
    if (hasCycleAux p.tasks (p.tasks.length + 1) t.id [] []).1 then some t.title
    else none)

/-- The dependency edge relation searched by `hasCycle`: `a` depends on `b`
through the ID index. -/
def DepEdge (p : Project) (a b : Int) : Prop :=
  ∃ t, tmFind p.tasks a = some t ∧ b ∈ t.dependencies

/-! ## Evaluation cache middleware (`internal/server/middleware.go`)

The middleware's mutable state is its memo cache (a Go map, modelled as an
association list with replace-or-append assignment).  The semaphore and the
background expiry goroutine are concurrency mechanisms outside the pure
model; `evaluateProject` is embedded as its effect on one call: it returns
the evaluation result, the new cache, the new store contents, and whether
the store was read. -/

structure AutoEvaluationConfig where
  enabled : Bool
  cacheTimeout : Nat
  maxConcurrent : Int
  skipReadOnlyTools : Bool
  verboseLogging : Bool
deriving DecidableEq, Repr

/-- `DefaultAutoEvaluationConfig` (5 minutes, in nanoseconds). -/
def defaultAutoEvaluationConfig : AutoEvaluationConfig :=
  { enabled := true, cacheTimeout := 5 * 60 * 1000000000, maxConcurrent := 3,
    skipReadOnlyTools := true, verboseLogging := false }

structure EvaluationResult where
  projectName : Str
  updatesApplied : List Str
  attentionItems : List TaskAttention
  evaluationTime : Nat
  processingTime : Nat
  cacheHit : Bool
deriving DecidableEq, Repr

abbrev Cache := List (Str × EvaluationResult)

def cacheLookup (cache : Cache) (name : Str) : Option EvaluationResult :=
  (cache.find? (fun e => e.1 == name)).map (·.2)

/-- Go map assignment `m.cache[projectName] = result`. -/
def cacheInsert (cache : Cache) (name : Str) (r : EvaluationResult) : Cache :=
  if (cache.find? (fun e => e.1 == name)).isSome then
    cache.map (fun e => if e.1 == name then (name, r) else e)
  else cache ++ [(name, r)]

/-- `getCachedResult`: a memoized result younger than the TTL, returned as
a copy marked as a cache hit.  `time.Since` is `now - evaluationTime`
(truncated subtraction; an entry stamped in the future reads as age 0). -/
def getCachedResult (cache : Cache) (name : Str) (timeout now : Nat) :
    Option EvaluationResult :=
  match cacheLookup cache name with
  | some cached =>
    if now - cached.evaluationTime < timeout then some { cached with cacheHit := true }
    else none
  | none => none

/-- `evaluateProject`.  The returned tuple is (result, cache after the
call, store after the call, whether the store was read).  `processingTime`
is 0: the pure model is instantaneous.  Semaphore acquisition (and its
cancellation path) always succeeds in the single-call model. -/
def evaluateProject (cfg : AutoEvaluationConfig) (cache : Cache)
    (store : Option Project) (name : Str) (now : Nat) :
    Except Str (EvaluationResult × Cache × Option Project × Bool) :=
  match getCachedResult cache name cfg.cacheTimeout now with
  | some r => .ok (r, cache, store, false)
  | none =>
    match store with
    | none => .error ("project ".data ++ name ++ " does not exist".data)
    | some p =>
      let swept := autoUpdateTaskStatuses p now
      if swept.2.2 then
        match saveProject swept.1 now with
        | .error e => .error ("failed to save project updates: ".data ++ e)
        | .ok ps =>
          let res : EvaluationResult :=
            { projectName := name, updatesApplied := swept.2.1,
              attentionItems := getTasksNeedingAttention ps now,
              evaluationTime := now, processingTime := 0, cacheHit := false }
          .ok (res, cacheInsert cache name res, some ps, true)
      else
        let res : EvaluationResult :=
          { projectName := name, updatesApplied := swept.2.1,
            attentionItems := getTasksNeedingAttention swept.1 now,
            evaluationTime := now, processingTime := 0, cacheHit := false }
        .ok (res, cacheInsert cache name res, some p, true)

/-! ## The format-expressible class of projects

The round-trip theorem for the serialization engine holds on the class of
projects whose field values the markdown format can carry: enum-valued
category/priority/status, titles free of the heading line's delimiters,
description lines that no parser branch treats as structure, subtasks in
the two states a checkbox can express with none of the fields the format
omits, and no choices (choice IDs and resolution stamps are regenerated on
decode).  Values are 64-bit as in Go. -/

def trimmedStr (s : Str) : Bool := goTrimSpace s == s

def goodTitle (s : Str) : Bool :=
  !s.isEmpty && trimmedStr s && s.all (fun c => c ≠ '(' && c ≠ ')' && c ≠ '\n')

def goodDescLine (l : Str) : Bool :=
  !l.isEmpty && trimmedStr l && l.head? ≠ some '#' && l.head? ≠ some '-' &&
  !hasPre "Estimated hours:".data l && !hasPre "**Choice:**".data l

def goodDesc (d : Str) : Bool := d.isEmpty || (splitNl d).all goodDescLine

def goodSubtask (s : Subtask) : Bool :=
  !s.title.isEmpty && trimmedStr s.title && !containsCh '\n' s.title &&
  (s.status == StatusTodo || s.status == StatusDone) &&
  s.description.isEmpty && s.estimatedHours == 0 && s.complexity.isEmpty &&
  s.choices.isEmpty

def enumCategory (c : Str) : Bool :=
  c == CategoryMVP || c == CategoryAI || c == CategoryUX || c == CategoryInfra

def enumPriority (c : Str) : Bool :=
  c == PriorityP0 || c == PriorityP1 || c == PriorityP2 || c == PriorityP3

def enumStatus (c : Str) : Bool :=
  c == StatusTodo || c == StatusInProgress || c == StatusDone || c == StatusBlocked

def enumComplexityOpt (c : Str) : Bool :=
  c.isEmpty || c == ComplexityLow || c == ComplexityMedium || c == ComplexityHigh

def int64Range (i : Int) : Bool := decide (-(2 ^ 63) ≤ i) && decide (i < 2 ^ 63)

def goodTask (t : Task) : Bool :=
  decide (0 ≤ t.id) && decide (t.id < 2 ^ 63) &&
  goodTitle t.title && goodDesc t.description &&
  enumCategory t.category && enumPriority t.priority && enumStatus t.status &&
  enumComplexityOpt t.complexity &&
  decide (0 ≤ t.estimatedHours) && decide (t.estimatedHours < 2 ^ 63) &&
  t.dependencies.all int64Range &&
  t.subtasks.all goodSubtask && t.choices.isEmpty

def goodProjDesc (d : Str) : Bool :=
  (splitNl d).all (fun l => (goTrimSpace l).head? ≠ some '#')

def goodProject (p : Project) : Bool :=
  goodProjDesc p.description && p.tasks.all goodTask

/-- Decoding stamps every timestamp with the decode time. -/
def reclockSubtask (now : Nat) (s : Subtask) : Subtask :=
  { s with createdAt := now, updatedAt := now }

def reclockTask (now : Nat) (t : Task) : Task :=
  { t with subtasks := t.subtasks.map (reclockSubtask now),
           createdAt := now, updatedAt := now }

/-- A line on which `parseMarkdown` fails: a recognised task heading whose
ID does not parse as a (64-bit) integer. -/
def badLine (l : Str) : Bool :=
  match matchTaskHeader (goTrimSpace l) with
  | some caps => (goAtoi caps.digits).isNone
  | none => false

/-! ## Concrete instances used by witnesses and counterexamples -/

/-- A project inside the format-expressible class. -/
def rtSub : Subtask :=
  { title := "a".data, description := [], status := StatusDone,
    estimatedHours := 0, complexity := [], choices := [], createdAt := 0, updatedAt := 0 }

def rtTask : Task :=
  { id := 1, title := "T".data, description := "d".data,
    category := CategoryMVP, priority := PriorityP1, status := StatusTodo, complexity := [],
    estimatedHours := 0, dependencies := [2], subtasks := [rtSub], choices := [],
    createdAt := 3, updatedAt := 4 }

def rtProject : Project :=
  { name := "demo".data, description := [], tasks := [rtTask],
    createdAt := 3, updatedAt := 4 }

/-- A constraint-respecting project the format does not express faithfully:
its name and description, its task's empty category, and its subtask's
`in_progress` status are all altered or dropped by an encode/decode trip. -/
def lossySub : Subtask :=
  { title := "a".data, description := [],
    status := StatusInProgress, estimatedHours := 0, complexity := [], choices := [],
    createdAt := 2, updatedAt := 2 }

def lossyTask : Task :=
  { id := 1, title := "T".data, description := [], category := [],
    priority := PriorityP2, status := StatusTodo, complexity := [], estimatedHours := 0,
    dependencies := [], subtasks := [lossySub], choices := [], createdAt := 2, updatedAt := 2 }

def lossyProject : Project :=
  { name := "demo".data, description := "Hi".data,
    tasks := [lossyTask], createdAt := 3, updatedAt := 4 }

/-- What an encode/decode trip actually returns for `lossyProject`. -/
def lossyDecoded : Project :=
  { name := [], description := [],
    tasks := [{ id := 1, title := "T".data, description := [],
                category := "[GENERAL]".data, priority := PriorityP2,
                status := StatusTodo, complexity := [], estimatedHours := 0,
                dependencies := [],
                subtasks := [{ title := "a".data, description := [], status := StatusTodo,
                               estimatedHours := 0, complexity := [], choices := [],
                               createdAt := 0, updatedAt := 0 }],
                choices := [], createdAt := 0, updatedAt := 0 }],
    createdAt := 0, updatedAt := 0 }

/-- A plain task with only an ID, a title and dependencies. -/
def depTask (i : Int) (title : Str) (deps : List Int) : Task :=
  { id := i, title := title, description := [], category := [], priority := [],
    status := StatusTodo, complexity := [], estimatedHours := 0, dependencies := deps,
    subtasks := [], choices := [], createdAt := 0, updatedAt := 0 }

/-- A → B → C → A. -/
def cyc3Project : Project :=
  { name := "d".data, description := [],
    tasks := [depTask 1 "A".data [2], depTask 2 "B".data [3], depTask 3 "C".data [1]],
    createdAt := 0, updatedAt := 0 }

/-- A ↔ B, and D → A: D lies on no cycle but a cycle is reachable from it. -/
def danglingProject : Project :=
  { name := "d".data, description := [],
    tasks := [depTask 1 "A".data [2], depTask 2 "B".data [1], depTask 4 "D".data [1]],
    createdAt := 0, updatedAt := 0 }

/-- A → B → C, no back edge: an acyclic chain. -/
def chain3Project : Project :=
  { name := "d".data, description := [],
    tasks := [depTask 1 "A".data [2], depTask 2 "B".data [3], depTask 3 "C".data []],
    createdAt := 0, updatedAt := 0 }

/-- A single task A whose dependency list names the missing ID 3 twice:
the graph is acyclic (its one task has no edge back to itself), yet the
leaked recursion-stack entry for ID 3 makes the second edge into it fire
the `recStack` check, so the real code reports "A". -/
def leakProject : Project :=
  { name := "d".data, description := [],
    tasks := [depTask 1 "A".data [3, 3]],
    createdAt := 0, updatedAt := 0 }

/-- A subtask with just a title and a status. -/
def plainSub (title : Str) (st : TaskStatus) : Subtask :=
  { title := title, description := [], status := st, estimatedHours := 0,
    complexity := [], choices := [], createdAt := 0, updatedAt := 0 }

/-- A task with just a title, a status and subtasks. -/
def plainTask (title : Str) (st : TaskStatus) (subs : List Subtask) : Task :=
  { id := 1, title := title, description := [], category := [], priority := [],
    status := st, complexity := [], estimatedHours := 0, dependencies := [],
    subtasks := subs, choices := [], createdAt := 0, updatedAt := 0 }

def oneTaskProject (t : Task) : Project :=
  { name := "w".data, description := [], tasks := [t], createdAt := 0, updatedAt := 0 }

/-- "T" with subtasks a (done) and b (todo): one subtask short of complete. -/
def upTask : Task :=
  plainTask "T".data StatusInProgress
    [plainSub "a".data StatusDone, plainSub "b".data StatusTodo]

def upProject : Project := oneTaskProject upTask

/-- "T" with subtasks a and b both todo. -/
def twoTodoTask : Task :=
  plainTask "T".data StatusInProgress
    [plainSub "a".data StatusTodo, plainSub "b".data StatusTodo]

def twoTodoProject : Project := oneTaskProject twoTodoTask

/-- "T" done with both subtasks done. -/
def allDoneTask : Task :=
  plainTask "T".data StatusDone
    [plainSub "a".data StatusDone, plainSub "b".data StatusDone]

def allDoneProject : Project := oneTaskProject allDoneTask

/-- "T" in progress with subtasks in mixed states. -/
def mixedTask : Task :=
  plainTask "T".data StatusInProgress
    [plainSub "a".data StatusDone, plainSub "b".data StatusInProgress]

def mixedProject : Project := oneTaskProject mixedTask

/-- What the auto-update sweep at time 5 turns `sweepProject`'s first task
into: the done task keeps its status and its subtask is forced to done. -/
def sweptT1 : Task :=
  plainTask "T1".data StatusDone
    [{ plainSub "a".data StatusDone with updatedAt := 5 }]

/-- Two invariant-violating tasks: T1 is done with a todo subtask, T2 is
todo with all (one) subtasks done. -/
def sweepProject : Project :=
  { name := "w".data, description := [],
    tasks := [plainTask "T1".data StatusDone [plainSub "a".data StatusTodo],
              plainTask "T2".data StatusTodo [plainSub "b".data StatusDone]],
    createdAt := 0, updatedAt := 0 }

/-- A cached evaluation result stamped at time 100. -/
def cachedDemo : EvaluationResult :=
  { projectName := "w".data, updatesApplied := [], attentionItems := [],
    evaluationTime := 100, processingTime := 0, cacheHit := false }

/-! ## Helper lemmas -/

theorem splitNl_ne_nil (s : Str) : splitNl s ≠ [] := by
  cases s with
  | nil => simp [splitNl]
  | cons c rest =>
    unfold splitNl
    by_cases hc : c = '\n'
    · simp [hc]
    · simp only [hc, if_false]
      cases splitNl rest <;> simp

theorem splitNl_append (a b : Str) : splitNl (a ++ '\n' :: b) = splitNl a ++ splitNl b := by
  induction a with
  | nil => simp [splitNl]
  | cons c a ih =>
    by_cases hc : c = '\n'
    · subst hc
      simp only [List.cons_append, splitNl, if_true, List.append_eq, ih]
    · simp only [List.cons_append, splitNl, hc, if_false, List.append_eq, ih]
      cases h : splitNl a with
      | nil => exact absurd h (splitNl_ne_nil a)
      | cons l ls => simp

theorem splitNl_nonl (l : Str) (h : '\n' ∉ l) : splitNl l = [l] := by
  induction l with
  | nil => rfl
  | cons c r ih =>
    have hc : c ≠ '\n' := fun hh => h (hh ▸ List.mem_cons_self c r)
    have hr : '\n' ∉ r := fun hh => h (List.mem_cons.2 (Or.inr hh))
    simp only [splitNl, hc, if_false, ih hr]

theorem runLines_append (now : Nat) (xs ys : List Str) : ∀ st : PState,
    runLines now st (xs ++ ys) = (match runLines now st xs with
      | .error e => .error e
      | .ok st' => runLines now st' ys) := by
  induction xs with
  | nil => intro st; simp [runLines]
  | cons l ls ih =>
    intro st
    simp only [List.cons_append, runLines]
    cases processLine now st l with
    | error e => rfl
    | ok st' => exact ih st'

theorem runLines_line (now : Nat) (l rest : Str) (st st' : PState)
    (hnl : '\n' ∉ l) (hp : processLine now st l = .ok st') :
    runLines now st (splitNl (l ++ '\n' :: rest)) = runLines now st' (splitNl rest) := by
  rw [splitNl_append, splitNl_nonl l hnl, runLines_append]
  simp [runLines, hp]

theorem dropWhile_append_of_ne_nil {α : Type} (p : α → Bool) (xs ys : List α)
    (h : xs.dropWhile p ≠ []) : (xs ++ ys).dropWhile p = xs.dropWhile p ++ ys := by
  induction xs with
  | nil => simp [List.dropWhile] at h
  | cons x xs ih =>
    by_cases hx : p x
    · simp only [List.cons_append, List.dropWhile_cons_of_pos hx]
      rw [List.dropWhile_cons_of_pos hx] at h
      exact ih h
    · simp only [List.cons_append, List.dropWhile_cons_of_neg hx]

theorem dropWhile_append_of_all {α : Type} (p : α → Bool) (xs ys : List α)
    (h : ∀ x ∈ xs, p x = true) : (xs ++ ys).dropWhile p = ys.dropWhile p := by
  induction xs with
  | nil => simp
  | cons x xs ih =>
    rw [List.cons_append, List.dropWhile_cons_of_pos (h x (by simp))]
    exact ih (fun y hy => h y (by simp [hy]))

/-- Dropping a leading whitespace character commutes with full trimming. -/
theorem goTrimSpace_cons_space (c : Char) (s : Str) (hc : goIsSpace c = true) :
    goTrimSpace (c :: s) = goTrimSpace s := by
  unfold goTrimSpace trimLeft
  rw [List.reverse_cons]
  by_cases h : s.reverse.dropWhile goIsSpace = []
  · have hall : ∀ x ∈ s.reverse, goIsSpace x = true := by
      intro x hx
      exact List.dropWhile_eq_nil_iff.1 h x hx
    rw [dropWhile_append_of_all goIsSpace s.reverse [c] hall, h]
    simp [List.dropWhile, hc]
  · rw [dropWhile_append_of_ne_nil goIsSpace s.reverse [c] h]
    rw [List.reverse_append]
    simp only [List.reverse_cons, List.reverse_nil, List.nil_append, List.singleton_append]
    rw [List.dropWhile_cons_of_pos hc]

/-- A non-space head survives trimming. -/
theorem goTrimSpace_cons_head (c : Char) (s : Str) (hc : goIsSpace c = false) :
    ∃ r, goTrimSpace (c :: s) = c :: r := by
  unfold goTrimSpace trimLeft
  rw [List.reverse_cons]
  by_cases h : s.reverse.dropWhile goIsSpace = []
  · have hall : ∀ x ∈ s.reverse, goIsSpace x = true := fun x hx =>
      List.dropWhile_eq_nil_iff.1 h x hx
    rw [dropWhile_append_of_all goIsSpace s.reverse [c] hall]
    rw [List.dropWhile_cons_of_neg (by simp [hc])]
    exact ⟨[], by simp [List.dropWhile_cons_of_neg (by simp [hc] : ¬ goIsSpace c = true)]⟩
  · rw [dropWhile_append_of_ne_nil goIsSpace s.reverse [c] h, List.reverse_append]
    simp only [List.reverse_cons, List.reverse_nil, List.nil_append, List.singleton_append]
    rw [List.dropWhile_cons_of_neg (by simp [hc])]
    exact ⟨_, rfl⟩

/-- A string with non-space first and last characters is its own trim. -/
theorem goTrimSpace_eq_self (s : Str) (hh : ∀ c r, s = c :: r → goIsSpace c = false)
    (hl : ∀ c, s.getLast? = some c → goIsSpace c = false) :
    goTrimSpace s = s := by
  unfold goTrimSpace trimLeft
  have hrev : s.reverse.dropWhile goIsSpace = s.reverse := by
    cases hr : s.reverse with
    | nil => rfl
    | cons c r =>
      have : s.getLast? = some c := by
        rw [← List.head?_reverse, hr]
        rfl
      rw [List.dropWhile_cons_of_neg (by simp [hl c this])]
  rw [hrev, List.reverse_reverse]
  cases s with
  | nil => rfl
  | cons c r => rw [List.dropWhile_cons_of_neg (by simp [hh c r rfl])]

theorem matchTaskHeader_none_of_head (l : Str) (h : ∀ r, l ≠ '#' :: r) :
    matchTaskHeader l = none := by
  unfold matchTaskHeader
  split
  · exact absurd rfl (h _)
  · rfl

theorem hasPre_false_of_head (c : Char) (cs : Str) (q : Char) (qs : Str)
    (h : q ≠ c) : hasPre (q :: qs) (c :: cs) = false := by
  simp [hasPre, h]

theorem hasPre_append (p s : Str) : hasPre p (p ++ s) = true := by
  induction p with
  | nil => rfl
  | cons c cs ih => simp [hasPre, ih]

theorem trimPre_append (p s : Str) : trimPre p (p ++ s) = s := by
  unfold trimPre
  rw [hasPre_append]
  simp [List.drop_left]

/-- Lines whose trimmed form does not begin with '#' leave a state with no
open task and no open choice unchanged. -/
theorem processLine_inert (now : Nat) (acc : List Task) (b1 b2 : Bool) (raw : Str)
    (h : ∀ r, goTrimSpace raw ≠ '#' :: r) :
    processLine now ⟨acc, none, none, b1, b2⟩ raw = .ok ⟨acc, none, none, b1, b2⟩ := by
  unfold processLine
  by_cases h0 : goTrimSpace raw = []
  · rw [if_pos h0]
  · rw [if_neg h0]
    rw [matchTaskHeader_none_of_head _ h]
    have hp : hasPre "### ".data (goTrimSpace raw) = false := by
      cases hg : goTrimSpace raw with
      | nil => exact absurd hg h0
      | cons c r =>
        have : c ≠ '#' := fun hh => h r (by rw [hg, hh])
        exact hasPre_false_of_head c r '#' _ (Ne.symm this)
    rw [if_neg (by simp [hp])]
    simp

theorem matchTaskHeader_nil : matchTaskHeader [] = none := rfl

theorem processLine_isOk (now : Nat) (st : PState) (l : Str) :
    (processLine now st l).isOk = !badLine l := by
  unfold processLine badLine
  by_cases h0 : goTrimSpace l = []
  · simp [h0, matchTaskHeader_nil, Except.isOk, Except.toBool]
  · simp only [h0, if_false]
    cases hm : matchTaskHeader (goTrimSpace l) with
    | some caps =>
      cases ha : goAtoi caps.digits <;>
        simp [hm, ha, Except.isOk, Except.toBool, Option.isNone]
    | none =>
      simp only [hm]
      repeat' split
      all_goals simp [Except.isOk, Except.toBool]

theorem runLines_isOk (now : Nat) (lines : List Str) : ∀ st : PState,
    (runLines now st lines).isOk = lines.all (fun l => !badLine l) := by
  induction lines with
  | nil => intro st; simp [runLines, Except.isOk, Except.toBool]
  | cons l ls ih =>
    intro st
    simp only [runLines, List.all_cons]
    cases hp : processLine now st l with
    | error e =>
      have h := processLine_isOk now st l
      rw [hp] at h
      simp [Except.isOk, Except.toBool] at h
      simp [← h, Except.isOk, Except.toBool]
    | ok st' =>
      have h := processLine_isOk now st l
      rw [hp] at h
      simp [Except.isOk, Except.toBool] at h
      simp [← h, ih st']

theorem getNextTaskGo_spec (ts : List Task) :
    getNextTaskGo ts = (match ts.find? (fun t => !t.isFullyCompleted) with
      | none => .error "all tasks completed".data
      | some t => .ok (t, t.subtasks.find? (fun s => !(s.status == StatusDone)))) := by
  induction ts with
  | nil => rfl
  | cons t ts ih =>
    by_cases hf : t.isFullyCompleted
    · rw [getNextTaskGo, List.find?_cons_of_neg _ (by simp [hf]), ih]
      simp [hf]
    · rw [List.find?_cons_of_pos _ (by simp [hf])]
      cases hs : t.subtasks.find? (fun s => !(s.status == StatusDone)) with
      | some s => simp [getNextTaskGo, hf, hs]
      | none =>
        have hstatus : t.status ≠ StatusDone := by
          intro hd
          apply hf
          rw [List.find?_eq_none] at hs
          unfold Task.isFullyCompleted
          rw [if_neg (by simp [hd])]
          rw [List.all_eq_true]
          intro s hsm
          have := hs s hsm
          simpa using this
        simp [getNextTaskGo, hf, hs, hstatus]

theorem find?_decomp {α : Type} {p : α → Bool} {l : List α} {a : α}
    (h : l.find? p = some a) :
    ∃ pre post, l = pre ++ a :: post ∧ ∀ x ∈ pre, p x = false := by
  induction l with
  | nil => simp [List.find?] at h
  | cons x xs ih =>
    by_cases hx : p x
    · rw [List.find?_cons_of_pos _ hx] at h
      cases h
      exact ⟨[], xs, rfl, by simp⟩
    · rw [List.find?_cons_of_neg _ hx] at h
      obtain ⟨pre, post, heq, hall⟩ := ih h
      refine ⟨x :: pre, post, by simp [heq], ?_⟩
      intro y hy
      rcases List.mem_cons.1 hy with rfl | hy
      · simpa using hx
      · exact hall y hy

theorem updateTasksGo_append (now : Nat) (T S : Str) (status : TaskStatus)
    (pre post : List Task) (tk : Task)
    (hpre : ∀ x ∈ pre, ¬ x.title = T) (htk : tk.title = T) :
    updateTasksGo now T S status (pre ++ tk :: post) =
      (processTaskUpdate now S status tk).map (fun t' => pre ++ t' :: post) := by
  induction pre with
  | nil =>
    simp only [List.nil_append, updateTasksGo, htk, if_true]
  | cons x xs ih =>
    have hx : ¬ x.title = T := hpre x (by simp)
    simp only [List.cons_append, updateTasksGo, hx, if_false, List.append_eq]
    rw [ih (fun y hy => hpre y (by simp [hy]))]
    cases processTaskUpdate now S status tk <;> rfl

theorem updateTasksGo_notfound (now : Nat) (T S : Str) (status : TaskStatus)
    (ts : List Task) (hall : ∀ x ∈ ts, ¬ x.title = T) :
    updateTasksGo now T S status ts = .error ("task not found: ".data ++ T) := by
  induction ts with
  | nil => rfl
  | cons x xs ih =>
    have hx : ¬ x.title = T := hall x (by simp)
    simp only [updateTasksGo, hx, if_false]
    rw [ih (fun y hy => hall y (by simp [hy]))]
    rfl

theorem updateSubtasksGo_append (now : Nat) (S : Str) (status : TaskStatus)
    (spre spost : List Subtask) (st : Subtask)
    (hpre : ∀ x ∈ spre, ¬ x.title = S) (hst : st.title = S) :
    updateSubtasksGo now S status (spre ++ st :: spost) =
      some (spre ++ { st with status := status, updatedAt := now } :: spost) := by
  induction spre with
  | nil => simp [updateSubtasksGo, hst]
  | cons x xs ih =>
    have hx : ¬ x.title = S := hpre x (by simp)
    simp only [List.cons_append, updateSubtasksGo, hx, if_false, List.append_eq]
    rw [ih (fun y hy => hpre y (by simp [hy]))]
    rfl

theorem updateSubtasksGo_notfound (now : Nat) (S : Str) (status : TaskStatus)
    (ss : List Subtask) (hall : ∀ x ∈ ss, ¬ x.title = S) :
    updateSubtasksGo now S status ss = none := by
  induction ss with
  | nil => rfl
  | cons x xs ih =>
    have hx : ¬ x.title = S := hall x (by simp)
    simp only [updateSubtasksGo, hx, if_false]
    rw [ih (fun y hy => hall y (by simp [hy]))]
    rfl

theorem find?_append_cons {α : Type} {p : α → Bool} {pre post : List α} {a : α}
    (hpre : ∀ x ∈ pre, p x = false) (ha : p a = true) :
    (pre ++ a :: post).find? p = some a := by
  induction pre with
  | nil => simp [List.find?_cons_of_pos _ ha]
  | cons x xs ih =>
    have hx : p x = false := hpre x (by simp)
    rw [List.cons_append, List.find?_cons_of_neg _ (by simp [hx])]
    exact ih (fun y hy => hpre y (by simp [hy]))

theorem processTaskUpdate_main_done (now : Nat) (t : Task) :
    processTaskUpdate now [] StatusDone t =
      .ok { t with
        subtasks := t.subtasks.map (fun s =>
          if s.status ≠ StatusDone then { s with status := StatusDone, updatedAt := now }
          else s),
        status := StatusDone, updatedAt := now } := by
  simp [processTaskUpdate]

theorem updateTaskStatus_ok_decomp (p : Project) (T S : Str) (status : TaskStatus)
    (now : Nat) (pre post : List Task) (tk tk' : Task)
    (heq : p.tasks = pre ++ tk :: post)
    (hallp : ∀ x ∈ pre, ¬ x.title = T) (htk : tk.title = T)
    (hproc : processTaskUpdate now S status tk = .ok tk')
    (p' : Project) (hok : updateTaskStatus p T S status now = .ok p') :
    p' = { p with tasks := pre ++ tk' :: post, updatedAt := now } := by
  unfold updateTaskStatus at hok
  rw [heq, updateTasksGo_append now T S status pre post tk hallp htk, hproc] at hok
  simp only [Except.map] at hok
  unfold saveProject at hok
  cases hv : validateProjectName p.name with
  | error e => rw [hv] at hok; cases hok
  | ok u => rw [hv] at hok; exact (Except.ok.inj hok).symm

theorem processTaskUpdate_sub (now : Nat) (S : Str) (status : TaskStatus) (t : Task)
    (hS : ¬ S = []) (spre spost : List Subtask) (st : Subtask)
    (hsubs : t.subtasks = spre ++ st :: spost)
    (hpre : ∀ x ∈ spre, ¬ x.title = S) (hst : st.title = S) :
    processTaskUpdate now S status t =
      (let t1 : Task := { t with
         subtasks := spre ++ { st with status := status, updatedAt := now } :: spost,
         updatedAt := now }
       if status = StatusDone ∧ t1.status ≠ StatusDone ∧ t1.canBeMarkedComplete then
         .ok { t1 with status := StatusDone, updatedAt := now }
       else .ok t1) := by
  unfold processTaskUpdate
  rw [if_neg hS, hsubs, updateSubtasksGo_append now S status spre spost st hpre hst]

theorem forced_subtasks_done (now : Nat) (l : List Subtask) :
    ∀ s ∈ l.map (fun s =>
      if s.status ≠ StatusDone then { s with status := StatusDone, updatedAt := now }
      else s), s.status = StatusDone := by
  intro s hs
  simp only [List.mem_map] at hs
  obtain ⟨s0, _, rfl⟩ := hs
  by_cases hd : s0.status = StatusDone <;> simp [hd]

theorem autoUpdateOneTask_invariant (t0 : Task) (now : Nat) :
    ((autoUpdateOneTask t0 now).1.status = StatusDone →
      ∀ s ∈ (autoUpdateOneTask t0 now).1.subtasks, s.status = StatusDone) ∧
    ((autoUpdateOneTask t0 now).1.subtasks ≠ [] →
      (∀ s ∈ (autoUpdateOneTask t0 now).1.subtasks, s.status = StatusDone) →
      (autoUpdateOneTask t0 now).1.status = StatusDone) := by
  by_cases hcond : (¬ t0.status = StatusDone) ∧ shouldAutoMarkTaskDone t0 = true
  · have hres : (autoUpdateOneTask t0 now).1 = { t0 with
        status := StatusDone,
        subtasks := t0.subtasks.map (fun s =>
          if s.status ≠ StatusDone then { s with status := StatusDone, updatedAt := now }
          else s),
        updatedAt := now } := by
      unfold autoUpdateOneTask autoUpdateSubtaskCompletion
      rw [if_pos hcond]
      simp
    rw [hres]
    exact ⟨fun _ => forced_subtasks_done now t0.subtasks, fun _ _ => rfl⟩
  · by_cases hdone : t0.status = StatusDone
    · have hres : (autoUpdateOneTask t0 now).1 = { t0 with
          subtasks := t0.subtasks.map (fun s =>
            if s.status ≠ StatusDone then { s with status := StatusDone, updatedAt := now }
            else s) } := by
        unfold autoUpdateOneTask autoUpdateSubtaskCompletion
        rw [if_neg hcond]
        simp only []
        rw [if_pos hdone]
      rw [hres]
      exact ⟨fun _ => forced_subtasks_done now t0.subtasks, fun _ _ => hdone⟩
    · have hsam : shouldAutoMarkTaskDone t0 = false := by
        cases h : shouldAutoMarkTaskDone t0
        · rfl
        · exact absurd ⟨hdone, h⟩ hcond
      have hres : (autoUpdateOneTask t0 now).1 = t0 := by
        unfold autoUpdateOneTask autoUpdateSubtaskCompletion
        rw [if_neg hcond]
        simp only []
        rw [if_neg hdone]
      rw [hres]
      refine ⟨fun h => absurd h hdone, fun hne hall => ?_⟩
      exfalso
      have : shouldAutoMarkTaskDone t0 = true := by
        unfold shouldAutoMarkTaskDone
        rw [if_pos hne, List.all_eq_true]
        intro s hs
        simp [hall s hs]
      rw [this] at hsam
      cases hsam

theorem getLast?_mem' {α : Type} : ∀ {l : List α} {a : α}, l.getLast? = some a → a ∈ l := by
  intro l
  induction l with
  | nil => intro a h; cases h
  | cons x xs ih =>
    intro a h
    cases xs with
    | nil => simp [List.getLast?] at h; simp [h]
    | cons y ys =>
      rw [List.getLast?_cons_cons] at h
      exact List.mem_cons.2 (Or.inr (ih h))

theorem tmFind_mem {ts : List Task} {id : Int} {t : Task}
    (h : tmFind ts id = some t) : t ∈ ts ∧ t.id = id := by
  unfold tmFind at h
  have hm := getLast?_mem' h
  have := List.mem_filter.1 hm
  exact ⟨this.1, by simpa using this.2⟩

theorem tmFind_isSome_of_mem {ts : List Task} {t : Task} (h : t ∈ ts) :
    (tmFind ts t.id).isSome = true := by
  unfold tmFind
  have hne : ts.filter (fun u => u.id == t.id) ≠ [] := by
    intro hnil
    have hmem : t ∈ ts.filter (fun u => u.id == t.id) := List.mem_filter.2 ⟨h, by simp⟩
    rw [hnil] at hmem
    cases hmem
  rw [List.getLast?_isSome]
  exact hne

theorem hasCycleAux_none {ts : List Task} {tid : Int} (fuel : Nat)
    (visited recStack : List Int) (hT : tmFind ts tid = none) :
    hasCycleAux ts (fuel + 1) tid visited recStack =
      (false, tid :: visited, tid :: recStack) := by
  rw [hasCycleAux, hT]

theorem hasCycleAux_some {ts : List Task} {tid : Int} {t : Task} (fuel : Nat)
    (visited recStack : List Int) (hT : tmFind ts tid = some t) :
    hasCycleAux ts (fuel + 1) tid visited recStack =
      (if (t.dependencies.foldl (cycleStep ts fuel)
            (false, tid :: visited, tid :: recStack)).1 then
        t.dependencies.foldl (cycleStep ts fuel) (false, tid :: visited, tid :: recStack)
      else
        (false,
         (t.dependencies.foldl (cycleStep ts fuel)
           (false, tid :: visited, tid :: recStack)).2.1,
         ((t.dependencies.foldl (cycleStep ts fuel)
           (false, tid :: visited, tid :: recStack)).2.2.filter (fun x => x ≠ tid)))) := by
  rw [hasCycleAux, hT]
  rfl

theorem cycleStep_true (ts : List Task) (fuel : Nat) (m : List Int × List Int) (d : Int) :
    cycleStep ts fuel (true, m) d = (true, m) := rfl

theorem cycleStep_false (ts : List Task) (fuel : Nat) (v rs : List Int) (d : Int) :
    cycleStep ts fuel (false, v, rs) d =
      if d ∈ v then (if d ∈ rs then (true, v, rs) else (false, v, rs))
      else hasCycleAux ts fuel d v rs := rfl

theorem hasCycleAux_sound (p : Project) : ∀ (fuel : Nat) (tid : Int)
    (visited recStack : List Int) (root : Int),
    Relation.ReflTransGen (DepEdge p) root tid →
    (∀ r ∈ recStack, Relation.ReflTransGen (DepEdge p) r tid ∨
      (tmFind p.tasks r = none ∧ Relation.ReflTransGen (DepEdge p) root r)) →
    ((hasCycleAux p.tasks fuel tid visited recStack).1 = true →
      (∃ c, Relation.ReflTransGen (DepEdge p) root c ∧
        Relation.TransGen (DepEdge p) c c) ∨
      (∃ m, tmFind p.tasks m = none ∧ Relation.ReflTransGen (DepEdge p) root m)) ∧
    ((hasCycleAux p.tasks fuel tid visited recStack).1 = false →
      ∀ r ∈ (hasCycleAux p.tasks fuel tid visited recStack).2.2,
        r ∈ recStack ∨
          (tmFind p.tasks r = none ∧ Relation.ReflTransGen (DepEdge p) root r)) := by
  intro fuel
  induction fuel with
  | zero =>
    intro tid visited recStack root _ _
    exact ⟨(fun h => nomatch h), fun _ r hr => Or.inl hr⟩
  | succ fuel ih =>
    intro tid visited recStack root hroot hrec
    cases hT : tmFind p.tasks tid with
    | none =>
      rw [hasCycleAux_none fuel visited recStack hT]
      refine ⟨(fun h => nomatch h), fun _ r hr => ?_⟩
      rcases List.mem_cons.1 hr with rfl | hr'
      · exact Or.inr ⟨hT, hroot⟩
      · exact Or.inl hr'
    | some t =>
      rw [hasCycleAux_some fuel visited recStack hT]
      have hedges : ∀ d ∈ t.dependencies, DepEdge p tid d := fun d hd => ⟨t, hT, hd⟩
      have hQP : ∀ r, (r ∈ tid :: recStack ∨
          (tmFind p.tasks r = none ∧ Relation.ReflTransGen (DepEdge p) root r)) →
          Relation.ReflTransGen (DepEdge p) r tid ∨
            (tmFind p.tasks r = none ∧ Relation.ReflTransGen (DepEdge p) root r) := by
        intro r hq
        rcases hq with hq | hq
        · rcases List.mem_cons.1 hq with rfl | hq'
          · exact Or.inl Relation.ReflTransGen.refl
          · exact hrec r hq'
        · exact Or.inr hq
      have hfold : ∀ (ds : List Int), (∀ d ∈ ds, DepEdge p tid d) →
          ∀ (b : Bool) (v rs : List Int),
          (b = true →
            (∃ c, Relation.ReflTransGen (DepEdge p) root c ∧
              Relation.TransGen (DepEdge p) c c) ∨
            (∃ m, tmFind p.tasks m = none ∧ Relation.ReflTransGen (DepEdge p) root m)) →
          (b = false → ∀ r ∈ rs, r ∈ tid :: recStack ∨
            (tmFind p.tasks r = none ∧ Relation.ReflTransGen (DepEdge p) root r)) →
          ((ds.foldl (cycleStep p.tasks fuel) (b, v, rs)).1 = true →
            (∃ c, Relation.ReflTransGen (DepEdge p) root c ∧
              Relation.TransGen (DepEdge p) c c) ∨
            (∃ m, tmFind p.tasks m = none ∧ Relation.ReflTransGen (DepEdge p) root m)) ∧
          ((ds.foldl (cycleStep p.tasks fuel) (b, v, rs)).1 = false →
            ∀ r ∈ (ds.foldl (cycleStep p.tasks fuel) (b, v, rs)).2.2,
              r ∈ tid :: recStack ∨
                (tmFind p.tasks r = none ∧ Relation.ReflTransGen (DepEdge p) root r)) := by
        intro ds
        induction ds with
        | nil => intro _ b v rs hb hb2; exact ⟨hb, hb2⟩
        | cons d ds' ihds =>
          intro hds b v rs hb hb2
          rw [List.foldl_cons]
          cases b with
          | true =>
            rw [cycleStep_true]
            exact ihds (fun x hx => hds x (List.mem_cons.2 (Or.inr hx))) true v rs
              (fun _ => hb rfl) (fun h => nomatch h)
          | false =>
            rw [cycleStep_false]
            have hedged : DepEdge p tid d := hds d (List.mem_cons.2 (Or.inl rfl))
            have hQs : ∀ r ∈ rs, r ∈ tid :: recStack ∨
                (tmFind p.tasks r = none ∧ Relation.ReflTransGen (DepEdge p) root r) :=
              hb2 rfl
            by_cases hdv : d ∈ v
            · rw [if_pos hdv]
              by_cases hdr : d ∈ rs
              · rw [if_pos hdr]
                refine ihds (fun x hx => hds x (List.mem_cons.2 (Or.inr hx))) true v rs
                  (fun _ => ?_) (fun h => nomatch h)
                rcases hQP d (hQs d hdr) with hdt | hm
                · exact Or.inl ⟨d, Relation.ReflTransGen.tail hroot hedged,
                    Relation.TransGen.tail' hdt hedged⟩
                · exact Or.inr ⟨d, hm.1, hm.2⟩
              · rw [if_neg hdr]
                exact ihds (fun x hx => hds x (List.mem_cons.2 (Or.inr hx))) false v rs
                  (fun h => nomatch h) (fun _ => hQs)
            · rw [if_neg hdv]
              have hcall := ih d v rs root (Relation.ReflTransGen.tail hroot hedged)
                (fun r hr => by
                  rcases hQP r (hQs r hr) with hrt | hm
                  · exact Or.inl (Relation.ReflTransGen.tail hrt hedged)
                  · exact Or.inr hm)
              refine ihds (fun x hx => hds x (List.mem_cons.2 (Or.inr hx)))
                (hasCycleAux p.tasks fuel d v rs).1
                (hasCycleAux p.tasks fuel d v rs).2.1
                (hasCycleAux p.tasks fuel d v rs).2.2
                hcall.1 ?_
              intro hf r hr
              rcases hcall.2 hf r hr with hin | hm
              · exact hQs r hin
              · exact Or.inr hm
      have hF := hfold t.dependencies hedges false (tid :: visited) (tid :: recStack)
        (fun h => nomatch h) (fun _ r hr => Or.inl hr)
      generalize hFg : t.dependencies.foldl (cycleStep p.tasks fuel)
        (false, tid :: visited, tid :: recStack) = F
      rw [hFg] at hF
      by_cases hf : F.1 = true
      · rw [if_pos hf]
        refine ⟨fun _ => hF.1 hf, fun hcon => ?_⟩
        rw [hf] at hcon
        cases hcon
      · have hf' : F.1 = false := by simpa using hf
        rw [if_neg hf]
        refine ⟨(fun h => nomatch h), fun _ r hr => ?_⟩
        have hrm := List.mem_filter.1 hr
        have hrne : r ≠ tid := by simpa using hrm.2
        rcases hF.2 hf' r hrm.1 with hin | hm
        · rcases List.mem_cons.1 hin with rfl | hin'
          · exact absurd rfl hrne
          · exact Or.inl hin'
        · exact Or.inr hm

/-! ## Claim theorems -/

/-! ## String, matcher and line-level lemmas for the round trip -/

/-! Numeric correctness: `natToStr` produces a nonempty all-digit string
whose `digitsVal` is the original number, and `goAtoi` inverts `intToStr`
on the int64 range. -/

theorem digit_char_spec (d : Nat) (h : d < 10) :
    isDigitCh (Char.ofNat (48 + d)) = true ∧ (Char.ofNat (48 + d)).toNat = 48 + d := by
  interval_cases d <;> exact ⟨by decide, by decide⟩

theorem digitsVal_cons (c : Char) (rest : Str) (hrest : rest ≠ [])
    (hc : isDigitCh c = true) :
    digitsVal (c :: rest) =
      (digitsVal rest).map (fun v => (c.toNat - 48) * 10 ^ rest.length + v) := by
  cases rest with
  | nil => exact absurd rfl hrest
  | cons c2 r2 =>
    have hstep : digitsVal (c :: c2 :: r2) =
        if isDigitCh c = true then
          (digitsVal (c2 :: r2)).map
            (fun v => (c.toNat - 48) * 10 ^ (c2 :: r2).length + v)
        else none := rfl
    rw [hstep, if_pos hc]

theorem digitsVal_append_digit (ds : Str) (c : Char) (v : Nat)
    (hds : digitsVal ds = some v) (hc : isDigitCh c = true) :
    digitsVal (ds ++ [c]) = some (10 * v + (c.toNat - 48)) := by
  induction ds generalizing v with
  | nil => simp [digitsVal] at hds
  | cons d rest ih =>
    have hd : isDigitCh d = true := by
      by_contra hh
      cases rest <;> simp [digitsVal, hh] at hds
    rw [List.cons_append, digitsVal_cons d (rest ++ [c]) (by simp) hd]
    cases rest with
    | nil =>
      have hv : v = d.toNat - 48 := by
        simp [digitsVal, hd] at hds
        omega
      subst hv
      simp only [List.nil_append]
      rw [show digitsVal [c] = some (c.toNat - 48) by simp [digitsVal, hc]]
      simp only [Option.map_some', List.length_cons, List.length_nil,
        Option.some.injEq]
      ring
    | cons d2 r2 =>
      rw [digitsVal_cons d (d2 :: r2) (by simp) hd] at hds
      cases hv2 : digitsVal (d2 :: r2) with
      | none => rw [hv2] at hds; simp at hds
      | some v2 =>
        rw [hv2] at hds
        simp only [Option.map_some', Option.some.injEq] at hds
        rw [ih v2 hv2]
        simp only [Option.map_some', Option.some.injEq]
        rw [← hds]
        simp only [List.length_append, List.length_cons, List.length_nil]
        ring

theorem natToStrAux_spec (fuel : Nat) : ∀ n, n < fuel →
    natToStrAux fuel n ≠ [] ∧
    (∀ c ∈ natToStrAux fuel n, isDigitCh c = true) ∧
    digitsVal (natToStrAux fuel n) = some n := by
  induction fuel with
  | zero => intro n h; omega
  | succ f ih =>
    intro n h
    by_cases h10 : n < 10
    · unfold natToStrAux
      rw [if_pos h10]
      obtain ⟨hd, ht⟩ := digit_char_spec n h10
      refine ⟨by simp, ?_, ?_⟩
      · intro c hc
        simp at hc
        rw [hc]; exact hd
      · simp [digitsVal, hd, ht]
    · unfold natToStrAux
      rw [if_neg h10]
      have hrec : n / 10 < f := by omega
      obtain ⟨hne, hall, hval⟩ := ih (n / 10) hrec
      obtain ⟨hd, ht⟩ := digit_char_spec (n % 10) (Nat.mod_lt n (by omega))
      refine ⟨by simp, ?_, ?_⟩
      · intro c hc
        rcases List.mem_append.1 hc with hc | hc
        · exact hall c hc
        · simp at hc
          rw [hc]; exact hd
      · rw [digitsVal_append_digit _ _ _ hval hd, ht]
        have : 10 * (n / 10) + (48 + n % 10 - 48) = n := by omega
        rw [this]

theorem natToStr_spec (n : Nat) :
    natToStr n ≠ [] ∧ (∀ c ∈ natToStr n, isDigitCh c = true) ∧
    digitsVal (natToStr n) = some n :=
  natToStrAux_spec (n + 1) n (by omega)

theorem digit_not_special (c : Char) (hc : isDigitCh c = true) :
    c ≠ '\n' ∧ c ≠ '-' ∧ c ≠ '+' ∧ c ≠ '#' ∧ c ≠ '(' ∧ c ≠ ')' ∧
    goIsSpace c = false ∧ reIsSpace c = false := by
  refine ⟨?_, ?_, ?_, ?_, ?_, ?_, ?_, ?_⟩
  · intro h; subst h; exact absurd hc (by decide)
  · intro h; subst h; exact absurd hc (by decide)
  · intro h; subst h; exact absurd hc (by decide)
  · intro h; subst h; exact absurd hc (by decide)
  · intro h; subst h; exact absurd hc (by decide)
  · intro h; subst h; exact absurd hc (by decide)
  · by_contra h
    simp only [Bool.not_eq_false, goIsSpace, Bool.or_eq_true, decide_eq_true_eq] at h
    rcases h with ((((h | h) | h) | h) | h) | h <;>
      (subst h; exact absurd hc (by decide))
  · by_contra h
    simp only [Bool.not_eq_false, reIsSpace, Bool.or_eq_true, decide_eq_true_eq] at h
    rcases h with (((h | h) | h) | h) | h <;>
      (subst h; exact absurd hc (by decide))

theorem goAtoi_natToStr (n : Nat) : goAtoi (natToStr n) = if n ≤ 2 ^ 63 - 1 then some (n : Int) else none := by
  obtain ⟨hne, hall, hval⟩ := natToStr_spec n
  unfold goAtoi
  split
  · rename_i rest heq
    have : isDigitCh '-' = true := by
      have := hall '-' (by rw [heq]; simp)
      exact this
    simp [isDigitCh] at this
  · rename_i rest heq
    have : isDigitCh '+' = true := by
      have := hall '+' (by rw [heq]; simp)
      exact this
    simp [isDigitCh] at this
  · rw [hval]
    rfl

theorem goAtoi_intToStr (i : Int) (hlo : -(2 ^ 63) ≤ i) (hhi : i < 2 ^ 63) :
    goAtoi (intToStr i) = some i := by
  unfold intToStr
  by_cases hneg : i < 0
  · rw [if_pos hneg]
    obtain ⟨hne, hall, hval⟩ := natToStr_spec (-i).toNat
    unfold goAtoi
    split
    · rename_i rest heq
      injection heq with h1 h2
      subst h2
      rw [hval]
      simp only [Option.bind_eq_bind, Option.some_bind]
      rw [if_pos (by omega)]
      congr 1
      omega
    · rename_i rest heq
      injection heq with h1 h2
      exact absurd h1 (by decide)
    · rename_i h1 h2
      exact absurd rfl (h1 _)
  · rw [if_neg hneg]
    rw [goAtoi_natToStr]
    rw [if_pos (by omega)]
    congr 1
    omega

theorem natToStr_no_nl (n : Nat) : '\n' ∉ natToStr n := by
  intro h
  exact (digit_not_special '\n' ((natToStr_spec n).2.1 '\n' h)).1 rfl

theorem intToStr_no_nl (i : Int) : '\n' ∉ intToStr i := by
  unfold intToStr
  split
  · intro h
    rcases List.mem_cons.1 h with h | h
    · exact absurd h.symm (by decide)
    · exact natToStr_no_nl _ h
  · exact natToStr_no_nl _

theorem goTrimSpace_intToStr (i : Int) : goTrimSpace (intToStr i) = intToStr i := by
  have hlast : ∀ c, (intToStr i).getLast? = some c → goIsSpace c = false := by
    intro c hc
    have hmem : c ∈ intToStr i := getLast?_mem' hc
    unfold intToStr at hmem
    have hdig : isDigitCh c = true := by
      split at hmem
      · rcases List.mem_cons.1 hmem with h | h
        · -- c = '-' : but getLast? of '-'::natToStr is in natToStr since natToStr ≠ []
          subst h
          -- need a digit fact; derive from getLast? instead
          exfalso
          unfold intToStr at hc
          rw [if_pos (by assumption)] at hc
          obtain ⟨hne, hall, _⟩ := natToStr_spec (-i).toNat
          cases hnn : natToStr (-i).toNat with
          | nil => exact hne hnn
          | cons d r =>
            rw [hnn] at hc
            have : ('-' :: d :: r).getLast? = (d :: r).getLast? := by
              simp [List.getLast?]
            rw [this] at hc
            have hmem2 : '-' ∈ d :: r := by
              have := getLast?_mem' hc
              exact this
            have := hall '-' (by rw [hnn]; exact hmem2)
            simp [isDigitCh] at this
        · exact (natToStr_spec _).2.1 c h
      · exact (natToStr_spec _).2.1 c hmem
    exact (digit_not_special c hdig).2.2.2.2.2.2.1
  have hhead : ∀ c r, intToStr i = c :: r → goIsSpace c = false := by
    intro c r hc
    unfold intToStr at hc
    split at hc
    · have : c = '-' := by
        injection hc with h1 _
        exact h1.symm
      subst this
      decide
    · have hmem : c ∈ natToStr i.toNat := by rw [hc]; simp
      exact (digit_not_special c ((natToStr_spec _).2.1 c hmem)).2.2.2.2.2.2.1
  exact goTrimSpace_eq_self _ hhead hlast

theorem takeWhile_append_of_all {α : Type} (p : α → Bool) (xs : List α) (y : α)
    (ys : List α) (hall : ∀ x ∈ xs, p x = true) (hy : p y = false) :
    (xs ++ y :: ys).takeWhile p = xs := by
  induction xs with
  | nil => simp [List.takeWhile, hy]
  | cons x xs ih =>
    rw [List.cons_append, List.takeWhile_cons_of_pos (hall x (by simp))]
    rw [ih (fun z hz => hall z (by simp [hz]))]

/-- The deterministic priority/status tail of the heading pattern on the
exact text the generator emits. -/
theorem tailMatch_generated (prio status : Str) (hpne : prio ≠ [])
    (hpall : ∀ c ∈ prio, c ≠ ')') (hsne : status ≠ [])
    (hsall : ∀ c ∈ status, c ≠ ']') :
    tailMatch (' ' :: '(' :: (prio ++ ')' :: ' ' :: '[' :: (status ++ [']']))) =
      some (prio, some status) := by
  unfold tailMatch
  rw [show (' ' :: '(' :: (prio ++ ')' :: ' ' :: '[' :: (status ++ [']']))).dropWhile
        reIsSpace = '(' :: (prio ++ ')' :: ' ' :: '[' :: (status ++ [']'])) from rfl]
  simp only []
  rw [takeWhile_append_of_all (fun c => decide ¬c = ')') prio ')' _
        (fun c hc => by simp [hpall c hc]) (by decide)]
  rw [List.drop_left]
  cases prio with
  | nil => exact absurd rfl hpne
  | cons pc pr =>
    simp only []
    rw [show (' ' :: '[' :: (status ++ [']'])).dropWhile reIsSpace =
          '[' :: (status ++ [']']) from rfl]
    simp only []
    rw [takeWhile_append_of_all (fun c => decide ¬c = ']') status ']' _
          (fun c hc => by simp [hsall c hc]) (by decide)]
    rw [List.drop_left]
    cases status with
    | nil => exact absurd rfl hsne
    | cons sc sr => simp only []

/-- Mid-title suffixes never satisfy the tail pattern: after skipping
spaces the next character is a title character, not `(`. -/
theorem tailMatch_none_mid (b tail : Str) (hb : b ≠ [])
    (hnp : ∀ c ∈ b, c ≠ '(')
    (hlast : ∀ c, b.getLast? = some c → reIsSpace c = false) :
    tailMatch (b ++ tail) = none := by
  have hbne : b.dropWhile reIsSpace ≠ [] := by
    intro hdrop
    have hall : ∀ x ∈ b, reIsSpace x = true := List.dropWhile_eq_nil_iff.1 hdrop
    obtain ⟨l, hl⟩ : ∃ l, b.getLast? = some l := by
      cases hB : b with
      | nil => exact absurd hB hb
      | cons x xs => exact ⟨(x :: xs).getLast (by simp), List.getLast?_eq_getLast _ _⟩
    have hlmem : l ∈ b := getLast?_mem' hl
    exact absurd (hall l hlmem) (by simp [hlast l hl])
  unfold tailMatch
  rw [dropWhile_append_of_ne_nil reIsSpace b tail hbne]
  cases hD : b.dropWhile reIsSpace with
  | nil => exact absurd hD hbne
  | cons d r =>
    have hdb : d ∈ b := by
      have hsub : List.Sublist (b.dropWhile reIsSpace) b := List.dropWhile_sublist reIsSpace
      exact hsub.subset (by rw [hD]; simp)
    have hdp : d ≠ '(' := hnp d hdb
    rw [List.cons_append]
    split
    · rename_i heq
      injection heq with h1 _
      exact absurd h1 hdp
    · rfl

/-- The lazy `(.+?)` finds exactly the generated title: shorter prefixes
fail because the tail pattern cannot start inside the title. -/
theorem lazyScan_spec (title : Str) (tail : Str) (pr : Str) (stx : Option Str)
    (hne : title ≠ []) (hnl : ∀ c ∈ title, c ≠ '\n')
    (hnp : ∀ c ∈ title, c ≠ '(')
    (hlast : ∀ c, title.getLast? = some c → reIsSpace c = false)
    (htail : tailMatch tail = some (pr, stx)) :
    ∀ acc, lazyScan acc (title ++ tail) = some (acc ++ title, pr, stx) := by
  induction title with
  | nil => exact absurd rfl hne
  | cons c rest ih =>
    intro acc
    rw [List.cons_append]
    unfold lazyScan
    rw [if_neg (by exact fun h => hnl c (by simp) h)]
    cases hR : rest with
    | nil =>
      simp only [List.nil_append]
      rw [htail]
    | cons d r =>
      have hrne : rest ≠ [] := by rw [hR]; simp
      have hlast' : ∀ x, rest.getLast? = some x → reIsSpace x = false := by
        intro x hx
        apply hlast x
        subst hR
        rw [List.getLast?_cons_cons]
        exact hx
      have hmid : tailMatch (rest ++ tail) = none :=
        tailMatch_none_mid rest tail hrne (fun x hx => hnp x (by simp [hx])) hlast'
      rw [← hR, hmid]
      have hrec := ih hrne (fun x hx => hnl x (by simp [hx]))
        (fun x hx => hnp x (by simp [hx])) hlast' (acc ++ [c])
      rw [hrec, List.append_assoc]
      rfl

/-- The heading regexp matches the exact line the generator emits, with the
five capture groups falling on the generated fields. -/
theorem matchTaskHeader_generated (ds w title prio status : Str)
    (hds : ds ≠ []) (hdsall : ∀ c ∈ ds, isDigitCh c = true)
    (hw : w ≠ []) (hwall : ∀ c ∈ w, isWordCh c = true)
    (htne : title ≠ []) (htnl : ∀ c ∈ title, c ≠ '\n')
    (htnp : ∀ c ∈ title, c ≠ '(')
    (hthead : ∀ c r, title = c :: r → reIsSpace c = false)
    (htlast : ∀ c, title.getLast? = some c → reIsSpace c = false)
    (hpne : prio ≠ []) (hpall : ∀ c ∈ prio, c ≠ ')')
    (hsne : status ≠ []) (hsall : ∀ c ∈ status, c ≠ ']') :
    matchTaskHeader ('#' :: '#' :: ' ' :: 'T' :: 'a' :: 's' :: 'k' :: ' ' ::
        (ds ++ ':' :: ' ' :: ('[' :: (w ++ ']' :: ' ' ::
          (title ++ ' ' :: '(' :: (prio ++ ')' :: ' ' :: '[' :: (status ++ [']']))))))) =
      some ⟨ds, some ('[' :: (w ++ [']'])), title, prio, some status⟩ := by
  have htail : tailMatch (' ' :: '(' :: (prio ++ ')' :: ' ' :: '[' ::
      (status ++ [']']))) = some (prio, some status) :=
    tailMatch_generated prio status hpne hpall hsne hsall
  cases hD : ds with
  | nil => exact absurd hD hds
  | cons d ds' =>
  subst hD
  have hd0 : isDigitCh d = true := hdsall d (by simp)
  cases hT : title with
  | nil => exact absurd hT htne
  | cons tc tr =>
  subst hT
  have htc : reIsSpace tc = false := hthead tc tr rfl
  generalize hTL : (' ' :: '(' :: (prio ++ ')' :: ' ' :: '[' ::
      (status ++ [']']))) = TL at htail ⊢
  have hlz : lazyScan [] ((tc :: tr) ++ TL) = some (tc :: tr, prio, some status) :=
    lazyScan_spec (tc :: tr) TL prio (some status) (by simp) htnl htnp htlast htail []
  unfold matchTaskHeader
  simp only []
  rw [show (' ' :: 'T' :: 'a' :: 's' :: 'k' :: ' ' ::
        ((d :: ds') ++ ':' :: ' ' :: ('[' :: (w ++ ']' :: ' ' ::
          ((tc :: tr) ++ TL))))).takeWhile reIsSpace = [' '] from rfl]
  rw [if_neg (by decide)]
  simp only [List.length_cons, List.length_nil, List.drop_succ_cons, List.drop_zero]
  rw [show hasPre "Task".data ('T' :: 'a' :: 's' :: 'k' :: ' ' ::
        ((d :: ds') ++ ':' :: ' ' :: ('[' :: (w ++ ']' :: ' ' ::
          ((tc :: tr) ++ TL))))) = true from rfl]
  rw [if_pos rfl]
  rw [show (' ' :: ((d :: ds') ++ ':' :: ' ' :: ('[' :: (w ++ ']' :: ' ' ::
        ((tc :: tr) ++ TL))))).takeWhile reIsSpace = [' '] by
    rw [List.takeWhile_cons_of_pos (by decide), List.cons_append,
        List.takeWhile_cons_of_neg (by
          simp [(digit_not_special d hd0).2.2.2.2.2.2.2])]]
  rw [if_neg (by decide)]
  simp only [List.length_cons, List.length_nil, List.drop_succ_cons, List.drop_zero]
  rw [takeWhile_append_of_all isDigitCh (d :: ds') ':' _ hdsall (by decide)]
  rw [if_neg (by simp)]
  rw [List.drop_left]
  simp only []
  have hws1 : wsAlts (' ' :: ('[' :: (w ++ ']' :: ' ' :: ((tc :: tr) ++ TL)))) =
      ['[' :: (w ++ ']' :: ' ' :: ((tc :: tr) ++ TL)),
       ' ' :: ('[' :: (w ++ ']' :: ' ' :: ((tc :: tr) ++ TL)))] := rfl
  rw [hws1, List.findSome?_cons]
  have hws2 : wsAlts (' ' :: ((tc :: tr) ++ TL)) =
      [(tc :: tr) ++ TL, ' ' :: ((tc :: tr) ++ TL)] := by
    unfold wsAlts
    rw [show (' ' :: ((tc :: tr) ++ TL)).takeWhile reIsSpace = [' '] by
      rw [List.takeWhile_cons_of_pos (by decide), List.cons_append,
          List.takeWhile_cons_of_neg (by simp [htc])]]
    rfl
  have hcat : catAlts ('[' :: (w ++ ']' :: ' ' :: ((tc :: tr) ++ TL))) =
      [(some ('[' :: (w ++ [']'])), ' ' :: ((tc :: tr) ++ TL)),
       (none, '[' :: (w ++ ']' :: ' ' :: ((tc :: tr) ++ TL)))] := by
    unfold catAlts
    simp only []
    rw [takeWhile_append_of_all isWordCh w ']' _ hwall (by decide)]
    rw [List.drop_left]
    cases hW : w with
    | nil => exact absurd hW hw
    | cons wc wr => rfl
  have hf1 : (catAlts ('[' :: (w ++ ']' :: ' ' :: ((tc :: tr) ++ TL)))).findSome?
      (fun ca => (wsAlts ca.2).findSome? (fun r6 =>
        (lazyScan [] r6).map (fun m =>
          (⟨d :: ds', ca.1, m.1, m.2.1, m.2.2⟩ : HeaderCaps)))) =
      some ⟨d :: ds', some ('[' :: (w ++ [']'])), tc :: tr, prio, some status⟩ := by
    rw [hcat, List.findSome?_cons]
    rw [hws2, List.findSome?_cons]
    rw [hlz]
    rfl
  rw [hf1]

theorem dropWhile_head {α : Type} (p : α → Bool) : ∀ (l : List α) (c : α) (r : List α),
    l.dropWhile p = c :: r → p c = false := by
  intro l
  induction l with
  | nil => intro c r h; cases h
  | cons x xs ih =>
    intro c r h
    by_cases hx : p x
    · rw [List.dropWhile_cons_of_pos hx] at h
      exact ih c r h
    · rw [List.dropWhile_cons_of_neg hx] at h
      injection h with h1 _
      subst h1
      simpa using hx

/-- The head of a trimmed string is non-space. -/
theorem trimmed_head (s : Str) (h : goTrimSpace s = s) (c : Char) (r : Str)
    (hs : s = c :: r) : goIsSpace c = false := by
  unfold goTrimSpace trimLeft at h
  rw [hs] at h
  exact dropWhile_head goIsSpace _ c r h

/-- The last character of a trimmed string is non-space. -/
theorem trimmed_last (s : Str) (h : goTrimSpace s = s) (c : Char)
    (hc : s.getLast? = some c) : goIsSpace c = false := by
  by_contra hsp
  simp only [Bool.not_eq_false] at hsp
  obtain ⟨s', hs'⟩ := List.getLast?_eq_some_iff.1 hc
  have hlen : (goTrimSpace s).length < s.length := by
    unfold goTrimSpace trimLeft
    calc ((s.reverse.dropWhile goIsSpace).reverse.dropWhile goIsSpace).length
        ≤ (s.reverse.dropWhile goIsSpace).reverse.length :=
          (List.dropWhile_sublist goIsSpace).length_le
      _ = (s.reverse.dropWhile goIsSpace).length := List.length_reverse _
      _ ≤ s'.length := by
          rw [hs', List.reverse_append]
          simp only [List.reverse_cons, List.reverse_nil, List.nil_append,
            List.singleton_append]
          rw [List.dropWhile_cons_of_pos hsp]
          calc (s'.reverse.dropWhile goIsSpace).length ≤ s'.reverse.length :=
                (List.dropWhile_sublist goIsSpace).length_le
            _ = s'.length := List.length_reverse _
      _ < s.length := by rw [hs']; simp
  rw [h] at hlen
  omega

theorem goIsSpace_false_re (c : Char) (h : goIsSpace c = false) :
    reIsSpace c = false := by
  by_contra hr
  simp only [Bool.not_eq_false, reIsSpace, Bool.or_eq_true, decide_eq_true_eq] at hr
  rcases hr with (((hr | hr) | hr) | hr) | hr <;>
    (subst hr; exact absurd h (by decide))

/-- A nonempty trimmed string has a last character, and it is non-space. -/
theorem trimmed_last_total (s : Str) (h : goTrimSpace s = s) :
    ∀ c, s.getLast? = some c → reIsSpace c = false :=
  fun c hc => goIsSpace_false_re c (trimmed_last s h c hc)

/-- The heading branch of `processLine`, for any line the heading pattern
matches with a present category and status. -/
theorem processLine_header_case (now : Nat) (st : PState) (raw : Str)
    (ds cat ttl pr sts : Str) (tid : Int)
    (hm : matchTaskHeader (goTrimSpace raw) = some ⟨ds, some cat, ttl, pr, some sts⟩)
    (ha : goAtoi ds = some tid) (hv : validateTaskStatus sts = .ok sts) :
    processLine now st raw = .ok ⟨pushCur st, some
      { id := tid, title := goTrimSpace ttl, description := [], category := cat,
        priority := pr, status := sts, complexity := [], estimatedHours := 0,
        dependencies := [], subtasks := [], choices := [],
        createdAt := now, updatedAt := now }, st.curChoice, false, false⟩ := by
  have hne : goTrimSpace raw ≠ [] := by
    intro h0
    rw [h0] at hm
    exact absurd hm (by simp [matchTaskHeader])
  unfold processLine
  simp only []
  rw [if_neg hne, hm]
  simp only []
  rw [ha]
  simp only []
  rw [hv]

set_option maxHeartbeats 1600000 in
/-- Processing a generated task-heading line: the open task is finalised and
a fresh task with the heading's fields is opened. -/
theorem processLine_heading (now : Nat) (acc : List Task) (cur : Option Task)
    (b1 b2 : Bool) (id : Int) (w title prio st2 : Str)
    (hid0 : 0 ≤ id) (hidlt : id < 2 ^ 63)
    (hw : w ≠ []) (hwall : ∀ c ∈ w, isWordCh c = true)
    (htne : title ≠ []) (htr : goTrimSpace title = title)
    (htnl : ∀ c ∈ title, c ≠ '\n') (htnp : ∀ c ∈ title, c ≠ '(')
    (hpne : prio ≠ []) (hpall : ∀ c ∈ prio, c ≠ ')')
    (hsne : st2 ≠ []) (hsall : ∀ c ∈ st2, c ≠ ']')
    (hvst : validateTaskStatus st2 = .ok st2) :
    processLine now ⟨acc, cur, none, b1, b2⟩
      ("## Task ".data ++ intToStr id ++ ": ".data ++ ('[' :: (w ++ [']'])) ++
       " ".data ++ title ++ " (".data ++ prio ++ ") [".data ++ st2 ++ "]".data) =
    .ok ⟨pushCur ⟨acc, cur, none, b1, b2⟩, some
      { id := id, title := title, description := [],
        category := '[' :: (w ++ [']']), priority := prio, status := st2,
        complexity := [], estimatedHours := 0, dependencies := [],
        subtasks := [], choices := [], createdAt := now, updatedAt := now },
      none, false, false⟩ := by
  have hint : intToStr id = natToStr id.toNat := by
    unfold intToStr
    rw [if_neg (by omega)]
  obtain ⟨hdne, hdall, _⟩ := natToStr_spec id.toNat
  have hraw : "## Task ".data ++ intToStr id ++ ": ".data ++ ('[' :: (w ++ [']'])) ++
      " ".data ++ title ++ " (".data ++ prio ++ ") [".data ++ st2 ++ "]".data =
      '#' :: '#' :: ' ' :: 'T' :: 'a' :: 's' :: 'k' :: ' ' ::
        (natToStr id.toNat ++ ':' :: ' ' :: ('[' :: (w ++ ']' :: ' ' ::
          (title ++ ' ' :: '(' :: (prio ++ ')' :: ' ' :: '[' :: (st2 ++ [']'])))))) := by
    rw [hint]
    show ['#', '#', ' ', 'T', 'a', 's', 'k', ' '] ++ natToStr id.toNat ++
        [':', ' '] ++ ('[' :: (w ++ [']'])) ++ [' '] ++ title ++ [' ', '('] ++
        prio ++ [')', ' ', '['] ++ st2 ++ [']'] = _
    simp [List.append_assoc]
  have hm := matchTaskHeader_generated (natToStr id.toNat) w title prio st2
    hdne hdall hw hwall htne htnl htnp
    (fun c r hcr => goIsSpace_false_re c (trimmed_head title htr c r hcr))
    (trimmed_last_total title htr) hpne hpall hsne hsall
  have htrim : goTrimSpace ("## Task ".data ++ intToStr id ++ ": ".data ++
      ('[' :: (w ++ [']'])) ++ " ".data ++ title ++ " (".data ++ prio ++
      ") [".data ++ st2 ++ "]".data) =
      "## Task ".data ++ intToStr id ++ ": ".data ++ ('[' :: (w ++ [']'])) ++
      " ".data ++ title ++ " (".data ++ prio ++ ") [".data ++ st2 ++ "]".data := by
    apply goTrimSpace_eq_self
    · intro c r hcr
      rw [hraw] at hcr
      injection hcr with h1 _
      subst h1
      decide
    · intro c hc
      rw [hraw] at hc
      simp only [List.getLast?_cons_cons, List.getLast?_append, List.getLast?_cons,
        List.getLast?_nil, List.getLast?_singleton, Option.or_some, Option.or_none,
        Option.getD_some, Option.getD_none] at hc
      injection hc with h1
      subst h1
      decide
  have hm2 : matchTaskHeader (goTrimSpace ("## Task ".data ++ intToStr id ++
      ": ".data ++ ('[' :: (w ++ [']'])) ++ " ".data ++ title ++ " (".data ++
      prio ++ ") [".data ++ st2 ++ "]".data)) =
      some ⟨natToStr id.toNat, some ('[' :: (w ++ [']'])), title, prio, some st2⟩ := by
    rw [htrim, hraw]
    exact hm
  have ha : goAtoi (natToStr id.toNat) = some id := by
    rw [goAtoi_natToStr, if_pos (by omega)]
    rw [show ((id.toNat : Int)) = id from Int.toNat_of_nonneg hid0]
  rw [processLine_header_case now ⟨acc, cur, none, b1, b2⟩ _ _ _ _ _ _ id hm2 ha hvst]
  rw [htr]

theorem intToStr_ne_nil (i : Int) : intToStr i ≠ [] := by
  unfold intToStr
  split
  · simp
  · exact (natToStr_spec i.toNat).1

theorem intToStr_head_nospace (i : Int) : ∀ c r, intToStr i = c :: r →
    goIsSpace c = false := by
  intro c r hc
  unfold intToStr at hc
  split at hc
  · have : c = '-' := by injection hc with h1 _; exact h1.symm
    subst this
    decide
  · have hmem : c ∈ natToStr i.toNat := by rw [hc]; simp
    exact (digit_not_special c ((natToStr_spec _).2.1 c hmem)).2.2.2.2.2.2.1

theorem intToStr_last_nospace (i : Int) : ∀ c, (intToStr i).getLast? = some c →
    goIsSpace c = false := by
  intro c hc
  have hdig : isDigitCh c = true := by
    unfold intToStr at hc
    split at hc
    · obtain ⟨hne, hall, _⟩ := natToStr_spec (-i).toNat
      cases hnn : natToStr (-i).toNat with
      | nil => exact absurd hnn hne
      | cons d r =>
        rw [hnn, show ('-' :: d :: r).getLast? = (d :: r).getLast? from
          List.getLast?_cons_cons] at hc
        exact hall c (by rw [hnn]; exact getLast?_mem' hc)
    · exact (natToStr_spec i.toNat).2.1 c (getLast?_mem' hc)
  exact (digit_not_special c hdig).2.2.2.2.2.2.1

theorem containsCh_false (c : Char) (l : Str) (h : c ∉ l) : containsCh c l = false := by
  induction l with
  | nil => rfl
  | cons x xs ih =>
    unfold containsCh
    have hx : ¬ x = c := fun hh => h (by simp [hh])
    simp only [decide_eq_false hx, Bool.false_or]
    exact ih (fun hh => h (by simp [hh]))

/-- Trimming a nonempty-prefix line ending in an integer is the identity. -/
theorem goTrimSpace_pre_int (pre : Str) (i : Int)
    (hpre : ∀ c r, pre = c :: r → goIsSpace c = false) (hprene : pre ≠ []) :
    goTrimSpace (pre ++ intToStr i) = pre ++ intToStr i := by
  apply goTrimSpace_eq_self
  · intro c r hc
    cases hP : pre with
    | nil => exact absurd hP hprene
    | cons pc pr =>
      rw [hP, List.cons_append] at hc
      injection hc with h1 _
      subst h1
      exact hpre pc pr hP
  · intro c hc
    rw [List.getLast?_append] at hc
    cases hI : (intToStr i).getLast? with
    | none =>
      exfalso
      cases hN : intToStr i with
      | nil => exact intToStr_ne_nil i hN
      | cons x xs =>
        rw [hN] at hI
        simp [List.getLast?_eq_none_iff] at hI
    | some d =>
      rw [hI] at hc
      simp only [Option.or_some, Option.some.injEq] at hc
      subst hc
      exact intToStr_last_nospace i d hI

theorem processLine_blank (now : Nat) (st : PState) : processLine now st [] = .ok st := rfl

/-- `---` separators fall through every branch. -/
theorem processLine_dash (now : Nat) (acc : List Task) (t : Task) (b1 b2 : Bool) :
    processLine now ⟨acc, some t, none, b1, b2⟩ "---".data =
      .ok ⟨acc, some t, none, b1, b2⟩ := by
  unfold processLine
  simp only []
  rw [show goTrimSpace "---".data = "---".data from rfl]
  rw [if_neg (by decide), show matchTaskHeader "---".data = none from rfl]
  simp only []
  rw [if_neg (by decide)]
  rw [if_neg (by simp [show hasPre "Estimated hours:".data "---".data = false from rfl])]
  rw [if_neg (by simp [show hasPre "- Task ".data "---".data = false from rfl])]
  rw [if_neg (by simp [show hasPre "- [".data "---".data = false from rfl])]
  rw [if_neg (by simp [show hasPre "**Choice:**".data "---".data = false from rfl])]
  rw [if_neg (by simp)]
  rw [if_neg (by simp)]
  rw [if_neg (by simp [show hasPre "-".data "---".data = true from rfl])]

/-- `### Dependencies:` resets the section flags. -/
theorem processLine_deps_header (now : Nat) (acc : List Task) (t : Task) (b1 b2 : Bool) :
    processLine now ⟨acc, some t, none, b1, b2⟩ "### Dependencies:".data =
      .ok ⟨acc, some t, none, false, false⟩ := by
  unfold processLine
  simp only []
  rw [show goTrimSpace "### Dependencies:".data = "### Dependencies:".data from rfl]
  rw [if_neg (by decide), show matchTaskHeader "### Dependencies:".data = none from rfl]
  simp only []
  rw [if_pos (show hasPre "### ".data "### Dependencies:".data = true from rfl)]
  rw [show trimPre "### ".data "### Dependencies:".data = "Dependencies:".data from rfl]
  rw [if_neg (by decide)]
  rw [if_neg (by decide)]
  rw [if_neg (by decide)]

/-- `### Subtasks:` enters the subtask section. -/
theorem processLine_subs_header (now : Nat) (acc : List Task) (t : Task) (b1 b2 : Bool) :
    processLine now ⟨acc, some t, none, b1, b2⟩ "### Subtasks:".data =
      .ok ⟨acc, some t, none, true, false⟩ := by
  unfold processLine
  simp only []
  rw [show goTrimSpace "### Subtasks:".data = "### Subtasks:".data from rfl]
  rw [if_neg (by decide), show matchTaskHeader "### Subtasks:".data = none from rfl]
  simp only []
  rw [if_pos (show hasPre "### ".data "### Subtasks:".data = true from rfl)]
  rw [show trimPre "### ".data "### Subtasks:".data = "Subtasks:".data from rfl]
  rw [if_pos (show hasPre "Subtasks".data "Subtasks:".data = true from rfl)]

/-- `### Complexity: c` stores the trimmed text after the first colon. -/
theorem processLine_complexity (now : Nat) (acc : List Task) (t : Task) (b1 b2 : Bool)
    (cx : Str)
    (htrim : goTrimSpace ("### Complexity: ".data ++ cx) = "### Complexity: ".data ++ cx)
    (hm : matchTaskHeader ("### Complexity: ".data ++ cx) = none)
    (hsplit : splitN2Colon ("Complexity: ".data ++ cx) = some ("Complexity".data, ' ' :: cx))
    (hcxtrim : goTrimSpace (' ' :: cx) = cx) :
    processLine now ⟨acc, some t, none, b1, b2⟩ ("### Complexity: ".data ++ cx) =
      .ok ⟨acc, some { t with complexity := cx }, none, false, false⟩ := by
  unfold processLine
  simp only []
  rw [htrim]
  rw [if_neg (by simp), hm]
  simp only []
  rw [if_pos (show hasPre "### ".data ("### Complexity: ".data ++ cx) = true from rfl)]
  rw [show trimPre "### ".data ("### Complexity: ".data ++ cx) =
      "Complexity: ".data ++ cx by
    unfold trimPre
    rw [show hasPre "### ".data ("### Complexity: ".data ++ cx) = true from rfl]
    simp only [if_true]
    rfl]
  rw [if_neg (fun hcon => Bool.noConfusion hcon)]
  rw [if_neg (fun hcon => Bool.noConfusion hcon)]
  rw [if_pos (show hasPre "Complexity".data ("Complexity: ".data ++ cx) = true from rfl)]
  rw [hsplit]
  simp only []
  rw [hcxtrim]

/-- `Estimated hours: h` sets the open task's estimate. -/
theorem processLine_hours (now : Nat) (acc : List Task) (t : Task) (b1 b2 : Bool)
    (h : Int) (hlo : -(2 ^ 63) ≤ h) (hhi : h < 2 ^ 63) :
    processLine now ⟨acc, some t, none, b1, b2⟩ ("Estimated hours: ".data ++ intToStr h) =
      .ok ⟨acc, some { t with estimatedHours := h }, none, b1, b2⟩ := by
  have htrim := goTrimSpace_pre_int "Estimated hours: ".data h
    (fun c r hc => by injection hc with h1 _; subst h1; decide) (by decide)
  unfold processLine
  simp only []
  rw [htrim]
  rw [if_neg (by simp)]
  rw [matchTaskHeader_none_of_head _ (fun r hc => by
    injection hc with h1 _; exact absurd h1 (by decide))]
  simp only []
  rw [if_neg (fun hcon => Bool.noConfusion hcon)]
  rw [if_pos (show (hasPre "Estimated hours:".data ("Estimated hours: ".data ++
    intToStr h) && (some t).isSome) = true from rfl)]
  rw [show trimPre "Estimated hours:".data ("Estimated hours: ".data ++ intToStr h) =
      ' ' :: intToStr h from by
    unfold trimPre
    rw [if_pos (show hasPre "Estimated hours:".data ("Estimated hours: ".data ++
      intToStr h) = true from rfl)]
    rfl]
  rw [goTrimSpace_cons_space ' ' _ (by decide), goTrimSpace_intToStr,
      goAtoi_intToStr h hlo hhi]
  rfl

/-- `- Task d` appends a dependency to the open task. -/
theorem processLine_dep (now : Nat) (acc : List Task) (t : Task)
    (d : Int) (hlo : -(2 ^ 63) ≤ d) (hhi : d < 2 ^ 63) :
    processLine now ⟨acc, some t, none, false, false⟩ ("- Task ".data ++ intToStr d) =
      .ok ⟨acc, some { t with dependencies := t.dependencies ++ [d] }, none,
        false, false⟩ := by
  have htrim := goTrimSpace_pre_int "- Task ".data d
    (fun c r hc => by injection hc with h1 _; subst h1; decide) (by decide)
  unfold processLine
  simp only []
  rw [htrim]
  rw [if_neg (by simp)]
  rw [matchTaskHeader_none_of_head _ (fun r hc => by
    injection hc with h1 _; exact absurd h1 (by decide))]
  simp only []
  rw [if_neg (fun hcon => Bool.noConfusion hcon)]
  rw [if_neg (fun hcon => Bool.noConfusion hcon)]
  rw [if_pos (show (hasPre "- Task ".data ("- Task ".data ++ intToStr d) && !false &&
    !false && (some t).isSome) = true from rfl)]
  rw [show trimPre "- Task ".data ("- Task ".data ++ intToStr d) = intToStr d from by
    unfold trimPre
    rw [if_pos (show hasPre "- Task ".data ("- Task ".data ++ intToStr d) = true
      from rfl)]
    rfl]
  rw [goTrimSpace_intToStr, goAtoi_intToStr d hlo hhi]
  rfl

/-- Identity of trimming for a non-space-headed prefix followed by a
trimmed nonempty suffix. -/
theorem goTrimSpace_eq_self_append (a s : Str)
    (ha : ∀ c r, a = c :: r → goIsSpace c = false) (hane : a ≠ [])
    (hs : goTrimSpace s = s) (hsne : s ≠ []) :
    goTrimSpace (a ++ s) = a ++ s := by
  apply goTrimSpace_eq_self
  · intro c r hc
    cases hA : a with
    | nil => exact absurd hA hane
    | cons ac ar =>
      rw [hA, List.cons_append] at hc
      injection hc with h1 _
      subst h1
      exact ha ac ar hA
  · intro c hc
    rw [List.getLast?_append] at hc
    obtain ⟨d, hd⟩ : ∃ d, s.getLast? = some d := by
      cases hS : s with
      | nil => exact absurd hS hsne
      | cons x xs => exact ⟨(x :: xs).getLast (by simp), List.getLast?_eq_getLast _ _⟩
    rw [hd] at hc
    simp only [Option.or_some, Option.some.injEq] at hc
    subst hc
    exact trimmed_last s hs d hd

/-- A checkbox line in the subtask section appends a fresh subtask. -/
theorem processLine_checkbox (now : Nat) (acc : List Task) (t : Task) (b2 : Bool)
    (box : Char) (stitle : Str) (hbox : box = 'x' ∨ box = ' ')
    (hne : stitle ≠ []) (htr : goTrimSpace stitle = stitle) (hnl : '\n' ∉ stitle) :
    processLine now ⟨acc, some t, none, true, b2⟩
      ("- [".data ++ box :: "] ".data ++ stitle) =
      .ok ⟨acc, some { t with subtasks := t.subtasks ++
        [{ title := stitle, description := [],
           status := if box = 'x' then StatusDone else StatusTodo,
           estimatedHours := 0, complexity := [], choices := [],
           createdAt := now, updatedAt := now }] }, none, true, b2⟩ := by
  obtain ⟨sc, sr, hS⟩ : ∃ sc sr, stitle = sc :: sr := by
    cases hS : stitle with
    | nil => exact absurd hS hne
    | cons sc sr => exact ⟨sc, sr, rfl⟩
  have hscns : reIsSpace sc = false :=
    goIsSpace_false_re sc (trimmed_head stitle htr sc sr hS)
  have hbnl : ¬ box = '\n' := by rcases hbox with h | h <;> (subst h; decide)
  have htrim : goTrimSpace ("- [".data ++ box :: "] ".data ++ stitle) =
      "- [".data ++ box :: "] ".data ++ stitle := by
    apply goTrimSpace_eq_self_append
    · intro c r hc
      injection hc with h1 _
      subst h1
      decide
    · simp
    · exact htr
    · exact hne
  have hcb : matchCheckbox ("- [".data ++ box :: "] ".data ++ stitle) =
      some (box, stitle) := by
    rw [show "- [".data ++ box :: "] ".data ++ stitle =
      '-' :: ' ' :: '[' :: box :: ']' :: ' ' :: stitle from by simp]
    unfold matchCheckbox
    simp only []
    rw [show List.dropWhile reIsSpace (' ' :: '[' :: box :: ']' :: ' ' :: stitle) =
      '[' :: box :: ']' :: ' ' :: stitle from rfl]
    simp only []
    rw [if_neg hbnl]
    rw [containsCh_false '\n' (' ' :: stitle) (by
      intro hmem
      rcases List.mem_cons.1 hmem with hmem | hmem
      · exact absurd hmem (by decide)
      · exact hnl hmem)]
    rw [if_neg (by simp)]
    rw [if_neg (by simp)]
    rw [show (' ' :: stitle).dropWhile reIsSpace = stitle from by
      rw [List.dropWhile_cons_of_pos (by decide), hS,
          List.dropWhile_cons_of_neg (by simp [hscns])]]
    rw [if_neg hne]
  unfold processLine
  simp only []
  rw [htrim]
  rw [if_neg (by simp)]
  rw [matchTaskHeader_none_of_head _ (fun r hc => by
    injection hc with h1 _; exact absurd h1 (by decide))]
  simp only []
  rw [if_neg (fun hcon => Bool.noConfusion hcon)]
  rw [if_neg (fun hcon => Bool.noConfusion hcon)]
  rw [if_neg (fun hcon => Bool.noConfusion hcon)]
  rw [if_pos (show (true && hasPre "- [".data ("- [".data ++ box :: "] ".data ++
    stitle) && (some t).isSome) = true from rfl)]
  rw [hcb]
  simp only []
  rw [htr]
  rfl

/-- A free-text line under an open task is appended to its description. -/
theorem processLine_desc (now : Nat) (acc : List Task) (t : Task) (l : Str)
    (hgood : goodDescLine l = true) :
    processLine now ⟨acc, some t, none, false, false⟩ l =
      .ok ⟨acc, some { t with description := if t.description = [] then l
        else t.description ++ '\n' :: l }, none, false, false⟩ := by
  simp only [goodDescLine, Bool.and_eq_true, Bool.not_eq_true', beq_iff_eq,
    decide_eq_true_eq, Bool.not_eq_eq_eq_not, Bool.not_true] at hgood
  obtain ⟨⟨⟨⟨⟨hne', htr'⟩, hhash⟩, hdash⟩, hEst⟩, hCh⟩ := hgood
  have hne : l ≠ [] := by simpa using hne'
  have htr : goTrimSpace l = l := by simpa [trimmedStr] using htr'
  obtain ⟨c0, r0, hL⟩ : ∃ c0 r0, l = c0 :: r0 := by
    cases hL : l with
    | nil => exact absurd hL hne
    | cons c0 r0 => exact ⟨c0, r0, rfl⟩
  have hc0hash : c0 ≠ '#' := by
    intro h
    rw [hL, h] at hhash
    simp at hhash
  have hc0dash : c0 ≠ '-' := by
    intro h
    rw [hL, h] at hdash
    simp at hdash
  unfold processLine
  simp only []
  rw [htr]
  rw [if_neg hne]
  rw [matchTaskHeader_none_of_head _ (fun r hc => by
    rw [hL] at hc
    injection hc with h1 _
    exact absurd h1 hc0hash)]
  simp only []
  rw [if_neg (by
    rw [hL, hasPre_false_of_head c0 r0 '#' _ (fun h => hc0hash h.symm)]
    simp)]
  rw [if_neg (by rw [hEst]; simp)]
  rw [if_neg (by
    rw [hL, hasPre_false_of_head c0 r0 '-' _ (fun h => hc0dash h.symm)]
    simp)]
  rw [if_neg (by simp)]
  rw [if_neg (by rw [hCh]; simp)]
  rw [if_neg (by simp)]
  rw [if_neg (by simp)]
  rw [if_pos (by
    have h1 : hasPre ['#'] l = false := by
      rw [hL]
      exact hasPre_false_of_head c0 r0 '#' _ (fun h => hc0hash h.symm)
    have h2 : hasPre ['-'] l = false := by
      rw [hL]
      exact hasPre_false_of_head c0 r0 '-' _ (fun h => hc0dash h.symm)
    have h3 : l ≠ ['-', '-', '-'] := by
      intro h
      rw [h] at hL
      injection hL with h1 _
      exact hc0dash h1.symm
    simp [h1, h2, h3, hEst])]
  rfl

/-- With no open task and no open choice, a `#`-headed line that is not a
task heading and whose `### `-section is not Subtasks/Choices leaves the
flags-cleared state unchanged. -/
theorem processLine_hash_pre (now : Nat) (acc : List Task) (raw : Str)
    (hm : matchTaskHeader (goTrimSpace raw) = none)
    (hsub : hasPre "Subtasks".data (trimPre "### ".data (goTrimSpace raw)) = false)
    (hcho : hasPre "Choices".data (trimPre "### ".data (goTrimSpace raw)) = false) :
    processLine now ⟨acc, none, none, false, false⟩ raw =
      .ok ⟨acc, none, none, false, false⟩ := by
  unfold processLine
  simp only []
  by_cases h0 : goTrimSpace raw = []
  · rw [if_pos h0]
  · rw [if_neg h0, hm]
    simp only []
    by_cases hsec : hasPre "### ".data (goTrimSpace raw) = true
    · rw [if_pos hsec]
      rw [if_neg (by rw [hsub]; simp)]
      rw [if_neg (by rw [hcho]; simp)]
      by_cases hcx : hasPre "Complexity".data (trimPre "### ".data (goTrimSpace raw)) = true
      · rw [if_pos hcx]
      · rw [if_neg hcx]
    · rw [if_neg hsec]
      rw [if_neg (by simp)]
      rw [if_neg (by simp)]
      rw [if_neg (by simp)]
      rw [if_neg (by simp)]
      rw [if_neg (by simp)]
      rw [if_neg (by simp)]
      rw [if_neg (by simp)]

/-! ## Round-trip walk lemmas -/

theorem runLines_cons_ok (now : Nat) (st st' : PState) (l : Str) (ls : List Str)
    (hp : processLine now st l = .ok st') :
    runLines now st (l :: ls) = runLines now st' ls := by
  simp [runLines, hp]

theorem runLines_inert_list (now : Nat) (st : PState) (ls ys : List Str)
    (hall : ∀ l ∈ ls, processLine now st l = .ok st) :
    runLines now st (ls ++ ys) = runLines now st ys := by
  induction ls with
  | nil => rfl
  | cons l ls ih =>
    rw [List.cons_append, runLines_cons_ok now st st l _ (hall l (by simp))]
    exact ih (fun x hx => hall x (by simp [hx]))

/-- Consecutive good description lines accumulate with the parser's
newline-joining fold. -/
theorem runLines_descLines (now : Nat) (acc : List Task) (ys : List Str)
    (ls : List Str) (hall : ∀ l ∈ ls, goodDescLine l = true) :
    ∀ t : Task, runLines now ⟨acc, some t, none, false, false⟩ (ls ++ ys) =
      runLines now ⟨acc, some { t with description := ls.foldl (fun dacc l => if dacc = [] then l else dacc ++ '\n' :: l) t.description }, none, false, false⟩ ys := by
  induction ls with
  | nil => intro t; rfl
  | cons l ls ih =>
    intro t
    rw [List.cons_append,
        runLines_cons_ok now _ _ l _ (processLine_desc now acc t l (hall l (by simp)))]
    rw [ih (fun x hx => hall x (by simp [hx]))]
    rfl

theorem desc_foldl_ne_nil (f : Str → Str → Str)
    (hf : f = fun dacc l => if dacc = [] then l else dacc ++ '\n' :: l)
    (ls : List Str) : ∀ cur, cur ≠ [] →
    ls.foldl f cur = cur ++ (ls.map (fun l => '\n' :: l)).flatten := by
  induction ls with
  | nil => intro cur _; simp
  | cons l ls ih =>
    intro cur hcur
    rw [List.foldl_cons, hf]
    simp only []
    rw [if_neg hcur, ← hf]
    rw [ih (cur ++ '\n' :: l) (by simp)]
    simp

/-- `splitNl` decomposes any string as head piece plus newline-joined tail
pieces. -/
theorem splitNl_decomp (d : Str) : ∃ l ls, splitNl d = l :: ls ∧
    d = l ++ (ls.map (fun x => '\n' :: x)).flatten := by
  induction d with
  | nil => exact ⟨[], [], rfl, rfl⟩
  | cons c r ih =>
    obtain ⟨l, ls, h1, h2⟩ := ih
    by_cases hc : c = '\n'
    · subst hc
      refine ⟨[], l :: ls, by simp [splitNl, h1], ?_⟩
      simp only [List.map_cons, List.flatten_cons, List.nil_append]
      rw [List.cons_append, h2]
    · refine ⟨c :: l, ls, ?_, ?_⟩
      · unfold splitNl
        rw [if_neg hc, h1]
      · rw [List.cons_append, h2]

/-- The parser's fold over the split pieces reassembles the string. -/
theorem desc_foldl_splitNl (d : Str) (hne : ∀ l ∈ splitNl d, l ≠ []) :
    (splitNl d).foldl (fun dacc l => if dacc = [] then l else dacc ++ '\n' :: l) [] =
      d := by
  obtain ⟨l, ls, h1, h2⟩ := splitNl_decomp d
  rw [h1, List.foldl_cons, if_pos rfl]
  have hlne : l ≠ [] := hne l (by rw [h1]; simp)
  rw [desc_foldl_ne_nil _ rfl ls l hlne]
  exact h2.symm

theorem nl_eq : nl = ['\n'] := rfl

theorem no_nl_append (a b : Str) (ha : '\n' ∉ a) (hb : '\n' ∉ b) :
    '\n' ∉ a ++ b := by
  intro h
  rcases List.mem_append.1 h with h | h
  · exact ha h
  · exact hb h

theorem splitNl_line_cons (l rest : Str) (hl : '\n' ∉ l) :
    splitNl ((l ++ ['\n']) ++ rest) = l :: splitNl rest := by
  rw [List.append_assoc, List.cons_append, List.nil_append]
  rw [splitNl_append, splitNl_nonl _ hl, List.singleton_append]

/-- Generated dependency lines accumulate the dependency list in order. -/
theorem runLines_depLines (now : Nat) (acc : List Task) (deps : List Int)
    (hall : ∀ d ∈ deps, int64Range d = true) :
    ∀ (t : Task) (X : Str), runLines now ⟨acc, some t, none, false, false⟩
      (splitNl ((deps.map (fun d => "- Task ".data ++ intToStr d ++ nl)).flatten ++ X)) =
    runLines now ⟨acc, some { t with dependencies := t.dependencies ++ deps }, none, false, false⟩ (splitNl X) := by
  induction deps with
  | nil =>
    intro t X
    simp only [List.map_nil, List.flatten_nil, List.nil_append, List.append_nil]
  | cons d ds ih =>
    intro t X
    have hb : int64Range d = true := hall d (by simp)
    simp only [int64Range, Bool.and_eq_true, decide_eq_true_eq] at hb
    have hline : '\n' ∉ "- Task ".data ++ intToStr d :=
      no_nl_append _ _ (by decide) (intToStr_no_nl d)
    rw [List.map_cons, List.flatten_cons]
    rw [List.append_assoc]
    rw [show ("- Task ".data ++ intToStr d ++ nl) ++
        ((List.map (fun d => "- Task ".data ++ intToStr d ++ nl) ds).flatten ++ X) =
        ("- Task ".data ++ intToStr d) ++
        '\n' :: ((List.map (fun d => "- Task ".data ++ intToStr d ++ nl) ds).flatten ++ X)
        from by rw [List.append_assoc]; rfl]
    rw [splitNl_append, splitNl_nonl _ hline, List.singleton_append,
        runLines_cons_ok now _ _ _ _ (processLine_dep now acc t d hb.1 hb.2)]
    rw [ih (fun x hx => hall x (by simp [hx]))]
    rw [show ({ t with dependencies := t.dependencies ++ [d] } : Task).dependencies ++ ds =
      t.dependencies ++ d :: ds from by simp]

theorem containsCh_iff (c : Char) (l : Str) : containsCh c l = true ↔ c ∈ l := by
  induction l with
  | nil => simp [containsCh]
  | cons x xs ih =>
    unfold containsCh
    simp only [Bool.or_eq_true, decide_eq_true_eq, List.mem_cons, ih]
    constructor
    · rintro (h | h)
      · exact Or.inl h.symm
      · exact Or.inr h
    · rintro (h | h)
      · exact Or.inl h.symm
      · exact Or.inr h

/-- Generated subtask checkbox lines accumulate reclocked subtasks. -/
theorem runLines_subLines (now : Nat) (acc : List Task) (b2 : Bool)
    (subs : List Subtask) (hall : ∀ s ∈ subs, goodSubtask s = true) :
    ∀ (t : Task) (X : Str), runLines now ⟨acc, some t, none, true, b2⟩
      (splitNl ((subs.map (fun s => "- [".data ++
        (if s.status == StatusDone then "x".data else " ".data) ++ "] ".data ++
        s.title ++ nl ++
        ((s.choices.map (fun c => "  ".data ++ generateChoiceMarkdown c)).flatten))).flatten ++ X)) =
    runLines now ⟨acc, some { t with subtasks := t.subtasks ++ subs.map (reclockSubtask now) }, none, true, b2⟩ (splitNl X) := by
  induction subs with
  | nil =>
    intro t X
    simp only [List.map_nil, List.flatten_nil, List.nil_append, List.append_nil]
  | cons s ss ih =>
    intro t X
    have hg : goodSubtask s = true := hall s (by simp)
    simp only [goodSubtask, Bool.and_eq_true, Bool.not_eq_true',
      List.isEmpty_eq_false, Bool.or_eq_true, beq_iff_eq,
      List.isEmpty_iff] at hg
    obtain ⟨⟨⟨⟨⟨⟨⟨hne, htr'⟩, hnl'⟩, hst⟩, hdesc⟩, hhrs⟩, hcx⟩, hch⟩ := hg
    have htr : goTrimSpace s.title = s.title := by simpa [trimmedStr] using htr'
    have hnl : '\n' ∉ s.title := by
      intro hmem
      rw [(containsCh_iff '\n' s.title).2 hmem] at hnl'
      cases hnl'
    rw [List.map_cons, List.flatten_cons]
    rw [hch]
    simp only [List.map_nil, List.flatten_nil, List.append_nil]
    rw [List.append_assoc]
    rcases hst with hst | hst
    · rw [show (if s.status == StatusDone then "x".data else " ".data) =
        " ".data from by rw [hst]; rfl]
      rw [show ("- [".data ++ " ".data ++ "] ".data ++ s.title ++ nl) ++
          ((List.map (fun s => "- [".data ++
            (if s.status == StatusDone then "x".data else " ".data) ++ "] ".data ++
            s.title ++ nl ++
            ((s.choices.map (fun c => "  ".data ++ generateChoiceMarkdown c)).flatten)) ss).flatten ++ X) =
          ("- [".data ++ ' ' :: "] ".data ++ s.title) ++
          '\n' :: ((List.map (fun s => "- [".data ++
            (if s.status == StatusDone then "x".data else " ".data) ++ "] ".data ++
            s.title ++ nl ++
            ((s.choices.map (fun c => "  ".data ++ generateChoiceMarkdown c)).flatten)) ss).flatten ++ X)
          from by simp [nl_eq]]
      rw [splitNl_append, splitNl_nonl _ (by
        refine no_nl_append _ _ (by decide) hnl), List.singleton_append]
      rw [runLines_cons_ok now _ _ _ _
        (processLine_checkbox now acc t b2 ' ' s.title (Or.inr rfl) hne htr hnl)]
      rw [ih (fun x hx => hall x (by simp [hx]))]
      have hsub : (⟨s.title, [], if (' ' : Char) = 'x' then StatusDone else StatusTodo,
          0, [], [], now, now⟩ : Subtask) = reclockSubtask now s := by
        simp [reclockSubtask, hst, hdesc, hhrs, hcx, hch]
      rw [hsub]
      rw [show ({ t with subtasks := t.subtasks ++ [reclockSubtask now s] } : Task).subtasks ++
        ss.map (reclockSubtask now) = t.subtasks ++ (s :: ss).map (reclockSubtask now)
        from by simp]
    · rw [show (if s.status == StatusDone then "x".data else " ".data) =
        "x".data from by rw [hst]; rfl]
      rw [show ("- [".data ++ "x".data ++ "] ".data ++ s.title ++ nl) ++
          ((List.map (fun s => "- [".data ++
            (if s.status == StatusDone then "x".data else " ".data) ++ "] ".data ++
            s.title ++ nl ++
            ((s.choices.map (fun c => "  ".data ++ generateChoiceMarkdown c)).flatten)) ss).flatten ++ X) =
          ("- [".data ++ 'x' :: "] ".data ++ s.title) ++
          '\n' :: ((List.map (fun s => "- [".data ++
            (if s.status == StatusDone then "x".data else " ".data) ++ "] ".data ++
            s.title ++ nl ++
            ((s.choices.map (fun c => "  ".data ++ generateChoiceMarkdown c)).flatten)) ss).flatten ++ X)
          from by simp [nl_eq]]
      rw [splitNl_append, splitNl_nonl _ (by
        refine no_nl_append _ _ (by decide) hnl), List.singleton_append]
      rw [runLines_cons_ok now _ _ _ _
        (processLine_checkbox now acc t b2 'x' s.title (Or.inl rfl) hne htr hnl)]
      rw [ih (fun x hx => hall x (by simp [hx]))]
      have hsub : (⟨s.title, [], if ('x' : Char) = 'x' then StatusDone else StatusTodo,
          0, [], [], now, now⟩ : Subtask) = reclockSubtask now s := by
        simp [reclockSubtask, hst, hdesc, hhrs, hcx, hch]
      rw [hsub]
      rw [show ({ t with subtasks := t.subtasks ++ [reclockSubtask now s] } : Task).subtasks ++
        ss.map (reclockSubtask now) = t.subtasks ++ (s :: ss).map (reclockSubtask now)
        from by simp]

theorem splitNl_nl_cons (X : Str) : splitNl ('\n' :: X) = [] :: splitNl X := by
  simp [splitNl]

/-- The optional description block fills the fresh task's description. -/
theorem runLines_descBlock (now : Nat) (acc : List Task) (X : Str) (d : Str)
    (t0 : Task) (hgood : goodDesc d = true) (h0 : t0.description = []) :
    runLines now ⟨acc, some t0, none, false, false⟩
      (splitNl ((if d ≠ [] then d ++ nl ++ nl else []) ++ X)) =
    runLines now ⟨acc, some { t0 with description := d }, none, false, false⟩
      (splitNl X) := by
  rcases eq_or_ne d [] with hd | hd
  · subst hd
    rw [if_neg (by simp)]
    rw [List.nil_append]
    rw [show ({ t0 with description := ([] : Str) } : Task) = t0 from by rw [← h0]]
  · rw [if_pos hd]
    rw [show ((d ++ nl ++ nl) ++ X) = d ++ '\n' :: ('\n' :: X) from by simp [nl_eq]]
    rw [splitNl_append]
    have hall : ∀ l ∈ splitNl d, goodDescLine l = true := by
      unfold goodDesc at hgood
      simp only [Bool.or_eq_true, List.isEmpty_iff, List.all_eq_true] at hgood
      rcases hgood with hgood | hgood
      · exact absurd hgood hd
      · exact hgood
    rw [runLines_descLines now acc _ (splitNl d) hall t0]
    rw [h0, desc_foldl_splitNl d (fun l hl => by
      have := hall l hl
      simp only [goodDescLine, Bool.and_eq_true, Bool.not_eq_true',
        List.isEmpty_eq_false] at this
      exact this.1.1.1.1.1)]
    rw [splitNl_nl_cons]
    rw [runLines_cons_ok now _ _ _ _ (processLine_blank now _)]

/-- The optional dependencies block fills the fresh task's dependency list. -/
theorem runLines_depsBlock (now : Nat) (acc : List Task) (X : Str)
    (deps : List Int) (t0 : Task) (hall : ∀ d ∈ deps, int64Range d = true)
    (h0 : t0.dependencies = []) :
    runLines now ⟨acc, some t0, none, false, false⟩
      (splitNl ((if deps ≠ [] then "### Dependencies:".data ++ nl ++
          (deps.map (fun d => "- Task ".data ++ intToStr d ++ nl)).flatten ++ nl
        else []) ++ X)) =
    runLines now ⟨acc, some { t0 with dependencies := deps }, none, false, false⟩
      (splitNl X) := by
  rcases eq_or_ne deps [] with hd | hd
  · subst hd
    rw [if_neg (by simp)]
    rw [List.nil_append]
    rw [show ({ t0 with dependencies := ([] : List Int) } : Task) = t0 from by
      rw [← h0]]
  · rw [if_pos hd]
    rw [show (("### Dependencies:".data ++ nl ++
        (deps.map (fun d => "- Task ".data ++ intToStr d ++ nl)).flatten ++ nl) ++ X) =
        "### Dependencies:".data ++ '\n' ::
          ((deps.map (fun d => "- Task ".data ++ intToStr d ++ nl)).flatten ++
            ('\n' :: X)) from by simp [nl_eq]]
    rw [splitNl_append, splitNl_nonl _ (by decide), List.singleton_append]
    rw [runLines_cons_ok now _ _ _ _ (processLine_deps_header now acc t0 false false)]
    rw [runLines_depLines now acc deps hall t0 ('\n' :: X)]
    rw [h0, List.nil_append, splitNl_nl_cons]
    rw [runLines_cons_ok now _ _ _ _ (processLine_blank now _)]

/-- The optional complexity line sets the fresh task's complexity. -/
theorem runLines_cxLine (now : Nat) (acc : List Task) (X : Str) (cx : Str)
    (t0 : Task) (henum : enumComplexityOpt cx = true) (h0 : t0.complexity = []) :
    runLines now ⟨acc, some t0, none, false, false⟩
      (splitNl ((if cx ≠ [] then "### Complexity: ".data ++ cx ++ nl else []) ++ X)) =
    runLines now ⟨acc, some { t0 with complexity := cx }, none, false, false⟩
      (splitNl X) := by
  simp only [enumComplexityOpt, Bool.or_eq_true, beq_iff_eq, List.isEmpty_iff] at henum
  rcases henum with ((hcx | hcx) | hcx) | hcx
  · subst hcx
    rw [if_neg (by simp), List.nil_append]
    rw [show ({ t0 with complexity := ([] : Str) } : Task) = t0 from by rw [← h0]]
  · subst hcx
    rw [if_pos (by decide)]
    rw [show (("### Complexity: ".data ++ ComplexityLow ++ nl) ++ X) =
        ("### Complexity: ".data ++ ComplexityLow) ++ '\n' :: X from by simp [nl_eq]]
    rw [splitNl_append, splitNl_nonl _ (by decide), List.singleton_append]
    rw [runLines_cons_ok now _ _ _ _ (processLine_complexity now acc t0 false false
      ComplexityLow (by decide) (by decide) (by decide) (by decide))]
  · subst hcx
    rw [if_pos (by decide)]
    rw [show (("### Complexity: ".data ++ ComplexityMedium ++ nl) ++ X) =
        ("### Complexity: ".data ++ ComplexityMedium) ++ '\n' :: X from by simp [nl_eq]]
    rw [splitNl_append, splitNl_nonl _ (by decide), List.singleton_append]
    rw [runLines_cons_ok now _ _ _ _ (processLine_complexity now acc t0 false false
      ComplexityMedium (by decide) (by decide) (by decide) (by decide))]
  · subst hcx
    rw [if_pos (by decide)]
    rw [show (("### Complexity: ".data ++ ComplexityHigh ++ nl) ++ X) =
        ("### Complexity: ".data ++ ComplexityHigh) ++ '\n' :: X from by simp [nl_eq]]
    rw [splitNl_append, splitNl_nonl _ (by decide), List.singleton_append]
    rw [runLines_cons_ok now _ _ _ _ (processLine_complexity now acc t0 false false
      ComplexityHigh (by decide) (by decide) (by decide) (by decide))]

/-- The optional estimated-hours line sets the fresh task's estimate. -/
theorem runLines_hoursLine (now : Nat) (acc : List Task) (X : Str) (hrs : Int)
    (t0 : Task) (hh0 : 0 ≤ hrs) (hhlt : hrs < 2 ^ 63) (h0 : t0.estimatedHours = 0) :
    runLines now ⟨acc, some t0, none, false, false⟩
      (splitNl ((if hrs > 0 then "Estimated hours: ".data ++ intToStr hrs ++ nl
        else []) ++ X)) =
    runLines now ⟨acc, some { t0 with estimatedHours := hrs }, none, false, false⟩
      (splitNl X) := by
  by_cases hh : hrs > 0
  · rw [if_pos hh]
    rw [show (("Estimated hours: ".data ++ intToStr hrs ++ nl) ++ X) =
        ("Estimated hours: ".data ++ intToStr hrs) ++ '\n' :: X from by simp [nl_eq]]
    rw [splitNl_append, splitNl_nonl _ (no_nl_append _ _ (by decide) (intToStr_no_nl hrs)),
        List.singleton_append]
    rw [runLines_cons_ok now _ _ _ _
      (processLine_hours now acc t0 false false hrs (by omega) hhlt)]
  · rw [if_neg hh, List.nil_append]
    have : hrs = 0 := by omega
    subst this
    rw [show ({ t0 with estimatedHours := (0 : Int) } : Task) = t0 from by rw [← h0]]

/-- The optional complexity/hours section. -/
theorem runLines_cxBlock (now : Nat) (acc : List Task) (X : Str) (cx : Str)
    (hrs : Int) (t0 : Task) (henum : enumComplexityOpt cx = true)
    (hh0 : 0 ≤ hrs) (hhlt : hrs < 2 ^ 63)
    (h0cx : t0.complexity = []) (h0h : t0.estimatedHours = 0) :
    runLines now ⟨acc, some t0, none, false, false⟩
      (splitNl ((if cx ≠ [] ∨ hrs > 0 then
          (if cx ≠ [] then "### Complexity: ".data ++ cx ++ nl else []) ++
          (if hrs > 0 then "Estimated hours: ".data ++ intToStr hrs ++ nl else []) ++ nl
        else []) ++ X)) =
    runLines now ⟨acc, some { t0 with complexity := cx, estimatedHours := hrs }, none, false, false⟩ (splitNl X) := by
  by_cases hout : cx ≠ [] ∨ hrs > 0
  · rw [if_pos hout]
    rw [show (((if cx ≠ [] then "### Complexity: ".data ++ cx ++ nl else []) ++
        (if hrs > 0 then "Estimated hours: ".data ++ intToStr hrs ++ nl else []) ++ nl) ++ X) =
        ((if cx ≠ [] then "### Complexity: ".data ++ cx ++ nl else []) ++
        ((if hrs > 0 then "Estimated hours: ".data ++ intToStr hrs ++ nl else []) ++
          ('\n' :: X))) from by simp [nl_eq]]
    rw [runLines_cxLine now acc _ cx t0 henum h0cx]
    rw [runLines_hoursLine now acc ('\n' :: X) hrs { t0 with complexity := cx }
      hh0 hhlt (by simpa using h0h)]
    rw [splitNl_nl_cons]
    rw [runLines_cons_ok now _ _ _ _ (processLine_blank now _)]
  · rw [if_neg hout, List.nil_append]
    push_neg at hout
    obtain ⟨hcx, hh⟩ := hout
    have hh' : hrs = 0 := by omega
    subst hcx
    subst hh'
    rw [show ({ t0 with complexity := ([] : Str), estimatedHours := (0 : Int) } : Task) =
      t0 from by rw [← h0cx, ← h0h]]

/-- The optional subtasks section fills the fresh task's subtasks, leaving
the subtask flag set exactly when the section was present. -/
theorem runLines_subsBlock (now : Nat) (acc : List Task) (X : Str)
    (subs : List Subtask) (t0 : Task) (hall : ∀ s ∈ subs, goodSubtask s = true)
    (h0 : t0.subtasks = []) :
    runLines now ⟨acc, some t0, none, false, false⟩
      (splitNl ((if subs ≠ [] then "### Subtasks:".data ++ nl ++ nl ++
          (subs.map (fun s => "- [".data ++
            (if s.status == StatusDone then "x".data else " ".data) ++ "] ".data ++
            s.title ++ nl ++
            ((s.choices.map (fun c => "  ".data ++ generateChoiceMarkdown c)).flatten))).flatten ++ nl
        else []) ++ X)) =
    runLines now ⟨acc, some { t0 with subtasks := subs.map (reclockSubtask now) }, none, decide (subs ≠ []), false⟩ (splitNl X) := by
  rcases eq_or_ne subs [] with hs | hs
  · subst hs
    rw [if_neg (by simp)]
    rw [List.nil_append]
    rw [show ({ t0 with subtasks := List.map (reclockSubtask now) [] } : Task) = t0
      from by rw [show List.map (reclockSubtask now) [] = t0.subtasks from by
        rw [h0]; rfl]]
    rw [show decide (([] : List Subtask) ≠ []) = false from by decide]
  · rw [if_pos hs]
    rw [show (("### Subtasks:".data ++ nl ++ nl ++
        (subs.map (fun s => "- [".data ++
          (if s.status == StatusDone then "x".data else " ".data) ++ "] ".data ++
          s.title ++ nl ++
          ((s.choices.map (fun c => "  ".data ++ generateChoiceMarkdown c)).flatten))).flatten ++ nl) ++ X) =
        "### Subtasks:".data ++ '\n' :: ('\n' ::
          ((subs.map (fun s => "- [".data ++
            (if s.status == StatusDone then "x".data else " ".data) ++ "] ".data ++
            s.title ++ nl ++
            ((s.choices.map (fun c => "  ".data ++ generateChoiceMarkdown c)).flatten))).flatten ++
              ('\n' :: X))) from by simp [nl_eq]]
    rw [splitNl_append, splitNl_nonl _ (by decide), List.singleton_append]
    rw [runLines_cons_ok now _ _ _ _ (processLine_subs_header now acc t0 false false)]
    rw [splitNl_nl_cons]
    rw [runLines_cons_ok now _ _ _ _ (processLine_blank now _)]
    rw [runLines_subLines now acc false subs hall t0 ('\n' :: X)]
    rw [h0, List.nil_append, splitNl_nl_cons]
    rw [runLines_cons_ok now _ _ _ _ (processLine_blank now _)]
    rw [show decide (subs ≠ []) = true from by simp [hs]]

/-- One generated task chunk (heading through `---` separator): starting
from any open-task state, it finalises that task and leaves the decoded
task open. -/
theorem runLines_chunk_core (now : Nat) (acc : List Task) (cur : Option Task)
    (b1 b2 : Bool) (t : Task) (X : Str) (w : Str)
    (hid0 : 0 ≤ t.id) (hidlt : t.id < 2 ^ 63)
    (hcat : t.category = '[' :: (w ++ [']'])) (hw : w ≠ [])
    (hwall : ∀ c ∈ w, isWordCh c = true) (hcnl : '\n' ∉ t.category)
    (htne : t.title ≠ []) (htr : goTrimSpace t.title = t.title)
    (htnl : ∀ c ∈ t.title, c ≠ '\n') (htnp : ∀ c ∈ t.title, c ≠ '(')
    (hpne : t.priority ≠ []) (hpall : ∀ c ∈ t.priority, c ≠ ')')
    (hpnl : '\n' ∉ t.priority)
    (hsne : t.status ≠ []) (hsall : ∀ c ∈ t.status, c ≠ ']')
    (hsnl : '\n' ∉ t.status) (hvst : validateTaskStatus t.status = .ok t.status)
    (hdesc : goodDesc t.description = true)
    (hdeps : ∀ d ∈ t.dependencies, int64Range d = true)
    (hcxe : enumComplexityOpt t.complexity = true)
    (heh0 : 0 ≤ t.estimatedHours) (hehlt : t.estimatedHours < 2 ^ 63)
    (hsubs : ∀ s ∈ t.subtasks, goodSubtask s = true)
    (hch : t.choices = []) :
    runLines now ⟨acc, cur, none, b1, b2⟩
      (splitNl ((generateTaskMarkdown t ++ nl ++ "---".data ++ nl ++ nl) ++ X)) =
    runLines now ⟨acc ++ cur.toList, some (reclockTask now t), none,
      decide (t.subtasks ≠ []), false⟩ (splitNl X) := by
  have hcatne : ¬ t.category = [] := by rw [hcat]; simp
  have hpne' : ¬ t.priority = [] := hpne
  have hsne' : ¬ t.status = [] := hsne
  have hHnl : '\n' ∉ "## Task ".data ++ intToStr t.id ++ ": ".data ++ t.category ++
      " ".data ++ t.title ++ " (".data ++ t.priority ++ ") [".data ++ t.status ++
      "]".data := by
    intro hm
    simp only [List.mem_append] at hm
    rcases hm with (((((((((hm | hm) | hm) | hm) | hm) | hm) | hm) | hm) | hm) | hm) | hm
    · exact absurd hm (by decide)
    · exact intToStr_no_nl t.id hm
    · exact absurd hm (by decide)
    · exact hcnl hm
    · exact absurd hm (by decide)
    · exact htnl '\n' hm rfl
    · exact absurd hm (by decide)
    · exact hpnl hm
    · exact absurd hm (by decide)
    · exact hsnl hm
    · exact absurd hm (by decide)
  unfold generateTaskMarkdown
  simp only []
  rw [if_neg hcatne, if_neg hpne', if_neg hsne']
  rw [if_neg (show ¬ (t.choices ≠ []) from by simp [hch])]
  rw [show ((("## Task ".data ++ intToStr t.id ++ ": ".data ++ t.category ++
        " ".data ++ t.title ++ " (".data ++ t.priority ++ ") [".data ++ t.status ++
        "]".data ++ nl ++ nl ++
      (if t.description ≠ [] then t.description ++ nl ++ nl else []) ++
      (if t.dependencies ≠ [] then "### Dependencies:".data ++ nl ++
        (t.dependencies.map (fun d => "- Task ".data ++ intToStr d ++ nl)).flatten ++ nl
       else []) ++
      (if t.complexity ≠ [] ∨ t.estimatedHours > 0 then
        (if t.complexity ≠ [] then "### Complexity: ".data ++ t.complexity ++ nl else []) ++
        (if t.estimatedHours > 0 then
          "Estimated hours: ".data ++ intToStr t.estimatedHours ++ nl else []) ++ nl
       else []) ++ [] ++
      (if t.subtasks ≠ [] then "### Subtasks:".data ++ nl ++ nl ++
        (t.subtasks.map (fun s => "- [".data ++
          (if s.status == StatusDone then "x".data else " ".data) ++ "] ".data ++
          s.title ++ nl ++
          ((s.choices.map (fun c => "  ".data ++ generateChoiceMarkdown c)).flatten))).flatten ++ nl
       else [])) ++ nl ++ "---".data ++ nl ++ nl) ++ X) =
      ("## Task ".data ++ intToStr t.id ++ ": ".data ++ t.category ++
        " ".data ++ t.title ++ " (".data ++ t.priority ++ ") [".data ++ t.status ++
        "]".data) ++ '\n' :: ('\n' ::
      ((if t.description ≠ [] then t.description ++ nl ++ nl else []) ++
      ((if t.dependencies ≠ [] then "### Dependencies:".data ++ nl ++
        (t.dependencies.map (fun d => "- Task ".data ++ intToStr d ++ nl)).flatten ++ nl
       else []) ++
      ((if t.complexity ≠ [] ∨ t.estimatedHours > 0 then
        (if t.complexity ≠ [] then "### Complexity: ".data ++ t.complexity ++ nl else []) ++
        (if t.estimatedHours > 0 then
          "Estimated hours: ".data ++ intToStr t.estimatedHours ++ nl else []) ++ nl
       else []) ++
      ((if t.subtasks ≠ [] then "### Subtasks:".data ++ nl ++ nl ++
        (t.subtasks.map (fun s => "- [".data ++
          (if s.status == StatusDone then "x".data else " ".data) ++ "] ".data ++
          s.title ++ nl ++
          ((s.choices.map (fun c => "  ".data ++ generateChoiceMarkdown c)).flatten))).flatten ++ nl
       else []) ++
      ('\n' :: ("---".data ++ '\n' :: ('\n' :: X))))))))
      from by simp [nl_eq]]
  rw [hcat] at hHnl
  rw [hcat]
  rw [splitNl_append, splitNl_nonl _ hHnl, List.singleton_append]
  rw [runLines_cons_ok now _ _ _ _ (processLine_heading now acc cur b1 b2 t.id w
    t.title t.priority t.status hid0 hidlt hw hwall htne htr htnl htnp hpne hpall
    hsne hsall hvst)]
  rw [show pushCur ⟨acc, cur, none, b1, b2⟩ = acc ++ cur.toList from by
    cases cur <;> simp [pushCur]]
  rw [← hcat]
  rw [splitNl_nl_cons]
  rw [runLines_cons_ok now _ _ _ _ (processLine_blank now _)]
  rw [runLines_descBlock now (acc ++ cur.toList) _ t.description _ hdesc rfl]
  rw [runLines_depsBlock now (acc ++ cur.toList) _ t.dependencies _ hdeps rfl]
  rw [runLines_cxBlock now (acc ++ cur.toList) _ t.complexity t.estimatedHours _
    hcxe heh0 hehlt rfl rfl]
  rw [runLines_subsBlock now (acc ++ cur.toList) _ t.subtasks _ hsubs rfl]
  rw [splitNl_nl_cons]
  rw [runLines_cons_ok now _ _ _ _ (processLine_blank now _)]
  rw [splitNl_append, splitNl_nonl _ (by decide), List.singleton_append]
  rw [runLines_cons_ok now _ _ _ _ (processLine_dash now _ _ _ _)]
  rw [splitNl_nl_cons]
  rw [runLines_cons_ok now _ _ _ _ (processLine_blank now _)]
  rw [show (⟨t.id, t.title, t.description, t.category, t.priority, t.status,
      t.complexity, t.estimatedHours, t.dependencies,
      t.subtasks.map (reclockSubtask now), [], now, now⟩ : Task) =
      reclockTask now t from by simp [reclockTask, hch]]

/-- `runLines_chunk_core` driven by `goodTask`. -/
theorem runLines_chunk (now : Nat) (acc : List Task) (cur : Option Task)
    (b1 b2 : Bool) (t : Task) (X : Str) (ht : goodTask t = true) :
    runLines now ⟨acc, cur, none, b1, b2⟩
      (splitNl ((generateTaskMarkdown t ++ nl ++ "---".data ++ nl ++ nl) ++ X)) =
    runLines now ⟨acc ++ cur.toList, some (reclockTask now t), none,
      decide (t.subtasks ≠ []), false⟩ (splitNl X) := by
  simp only [goodTask, Bool.and_eq_true, decide_eq_true_eq, List.all_eq_true,
    List.isEmpty_iff] at ht
  obtain ⟨⟨⟨⟨⟨⟨⟨⟨⟨⟨⟨⟨hid0, hidlt⟩, htitle⟩, hdesc⟩, hcat⟩, hprio⟩, hstat⟩,
    hcxe⟩, heh0⟩, hehlt⟩, hdeps⟩, hsubs⟩, hch⟩ := ht
  simp only [goodTitle, Bool.and_eq_true, Bool.not_eq_true',
    List.isEmpty_eq_false, List.all_eq_true] at htitle
  obtain ⟨⟨htne, htr'⟩, htall⟩ := htitle
  have htr : goTrimSpace t.title = t.title := by simpa [trimmedStr] using htr'
  have htnl : ∀ c ∈ t.title, c ≠ '\n' := by
    intro c hc
    have := htall c hc
    simp only [Bool.and_eq_true, decide_eq_true_eq] at this
    exact this.2
  have htnp : ∀ c ∈ t.title, c ≠ '(' := by
    intro c hc
    have := htall c hc
    simp only [Bool.and_eq_true, decide_eq_true_eq] at this
    exact this.1.1
  have hprioP : t.priority ≠ [] ∧ (∀ c ∈ t.priority, c ≠ ')') ∧
      '\n' ∉ t.priority := by
    simp only [enumPriority, Bool.or_eq_true, beq_iff_eq] at hprio
    rcases hprio with ((h | h) | h) | h <;>
      (rw [h]; exact ⟨by decide, by decide, by decide⟩)
  have hstatP : t.status ≠ [] ∧ (∀ c ∈ t.status, c ≠ ']') ∧ '\n' ∉ t.status ∧
      validateTaskStatus t.status = .ok t.status := by
    simp only [enumStatus, Bool.or_eq_true, beq_iff_eq] at hstat
    rcases hstat with ((h | h) | h) | h <;>
      (rw [h]; exact ⟨by decide, by decide, by decide, by decide⟩)
  simp only [enumCategory, Bool.or_eq_true, beq_iff_eq] at hcat
  have hdeps' : ∀ d ∈ t.dependencies, int64Range d = true := fun d hd => hdeps d hd
  have hsubs' : ∀ s ∈ t.subtasks, goodSubtask s = true := fun x hx => hsubs x hx
  rcases hcat with ((h | h) | h) | h
  · exact runLines_chunk_core now acc cur b1 b2 t X "MVP".data hid0 hidlt
      (by rw [h]; rfl) (by decide) (by decide) (by rw [h]; decide)
      htne htr htnl htnp hprioP.1 hprioP.2.1 hprioP.2.2
      hstatP.1 hstatP.2.1 hstatP.2.2.1 hstatP.2.2.2
      hdesc hdeps' hcxe heh0 hehlt hsubs' hch
  · exact runLines_chunk_core now acc cur b1 b2 t X "AI".data hid0 hidlt
      (by rw [h]; rfl) (by decide) (by decide) (by rw [h]; decide)
      htne htr htnl htnp hprioP.1 hprioP.2.1 hprioP.2.2
      hstatP.1 hstatP.2.1 hstatP.2.2.1 hstatP.2.2.2
      hdesc hdeps' hcxe heh0 hehlt hsubs' hch
  · exact runLines_chunk_core now acc cur b1 b2 t X "UX".data hid0 hidlt
      (by rw [h]; rfl) (by decide) (by decide) (by rw [h]; decide)
      htne htr htnl htnp hprioP.1 hprioP.2.1 hprioP.2.2
      hstatP.1 hstatP.2.1 hstatP.2.2.1 hstatP.2.2.2
      hdesc hdeps' hcxe heh0 hehlt hsubs' hch
  · exact runLines_chunk_core now acc cur b1 b2 t X "INFRA".data hid0 hidlt
      (by rw [h]; rfl) (by decide) (by decide) (by rw [h]; decide)
      htne htr htnl htnp hprioP.1 hprioP.2.1 hprioP.2.2
      hstatP.1 hstatP.2.1 hstatP.2.2.1 hstatP.2.2.2
      hdesc hdeps' hcxe heh0 hehlt hsubs' hch

theorem goTrimSpace_natToStr (n : Nat) : goTrimSpace (natToStr n) = natToStr n := by
  obtain ⟨hne, hall, _⟩ := natToStr_spec n
  apply goTrimSpace_eq_self
  · intro c r hc
    exact (digit_not_special c (hall c (by rw [hc]; simp))).2.2.2.2.2.2.1
  · intro c hc
    exact (digit_not_special c (hall c (getLast?_mem' hc))).2.2.2.2.2.2.1

theorem pctStr_no_nl (a b : Nat) : '\n' ∉ pctStr a b := by
  unfold pctStr
  refine no_nl_append _ _ (no_nl_append _ _ (natToStr_no_nl _) (by decide))
    (natToStr_no_nl _)

theorem runLines_blank_stream (now : Nat) (st : PState) (X : Str) :
    runLines now st (splitNl ('\n' :: X)) = runLines now st (splitNl X) := by
  rw [splitNl_nl_cons]
  exact runLines_cons_ok now st st [] _ (processLine_blank now st)

/-- An optional generated line that the parser ignores. -/
theorem runLines_optLine (now : Nat) (st : PState) (c : Prop) [Decidable c]
    (row X : Str) (hnl : '\n' ∉ row) (hp : processLine now st row = .ok st) :
    runLines now st (splitNl ((if c then row ++ nl else []) ++ X)) =
    runLines now st (splitNl X) := by
  by_cases hc : c
  · rw [if_pos hc]
    rw [show (row ++ nl) ++ X = row ++ '\n' :: X from by simp [nl_eq]]
    exact runLines_line now row X st st hnl hp
  · rw [if_neg hc, List.nil_append]

theorem ne_hash_of_trim_head (l : Str) (c : Char) (r' : Str)
    (hl : goTrimSpace l = c :: r') (hc : c ≠ '#') :
    ∀ r, goTrimSpace l ≠ '#' :: r := by
  intro r hr
  rw [hl] at hr
  injection hr with h1 _
  exact hc h1

/-- A line whose first and last characters are non-space and whose head is
not `#` or `-` etc. is ignored when no task is open. -/
theorem processLine_inert_of_shape (now : Nat) (acc : List Task) (l : Str)
    (hhead : ∀ c r, l = c :: r → goIsSpace c = false ∧ c ≠ '#')
    (hlast : ∀ c, l.getLast? = some c → goIsSpace c = false) :
    processLine now ⟨acc, none, none, false, false⟩ l =
      .ok ⟨acc, none, none, false, false⟩ := by
  have htrim : goTrimSpace l = l :=
    goTrimSpace_eq_self l (fun c r hc => (hhead c r hc).1) hlast
  apply processLine_inert
  intro r hr
  rw [htrim] at hr
  exact (hhead '#' r hr).2 rfl

/-- The pie rows of the mermaid diagram are ignored. -/
theorem processLine_pieRow1 (now : Nat) (acc : List Task) (n : Nat) :
    processLine now ⟨acc, none, none, false, false⟩
      ("    \"Completed\" : ".data ++ natToStr n) =
      .ok ⟨acc, none, none, false, false⟩ := by
  apply processLine_inert
  apply ne_hash_of_trim_head _ '"' ("Completed\" : ".data ++ natToStr n) _ (by decide)
  rw [show "    \"Completed\" : ".data ++ natToStr n =
      ' ' :: ' ' :: ' ' :: ' ' :: ("\"Completed\" : ".data ++ natToStr n) from rfl]
  rw [goTrimSpace_cons_space _ _ (by decide), goTrimSpace_cons_space _ _ (by decide),
      goTrimSpace_cons_space _ _ (by decide), goTrimSpace_cons_space _ _ (by decide)]
  rw [goTrimSpace_eq_self_append _ _ (fun c r hc => by
        injection hc with h1 _; subst h1; decide) (by decide)
      (goTrimSpace_natToStr n) (natToStr_spec n).1]
  rfl

theorem processLine_pieRow2 (now : Nat) (acc : List Task) (n : Nat) :
    processLine now ⟨acc, none, none, false, false⟩
      ("    \"Remaining\" : ".data ++ natToStr n) =
      .ok ⟨acc, none, none, false, false⟩ := by
  apply processLine_inert
  apply ne_hash_of_trim_head _ '"' ("Remaining\" : ".data ++ natToStr n) _ (by decide)
  rw [show "    \"Remaining\" : ".data ++ natToStr n =
      ' ' :: ' ' :: ' ' :: ' ' :: ("\"Remaining\" : ".data ++ natToStr n) from rfl]
  rw [goTrimSpace_cons_space _ _ (by decide), goTrimSpace_cons_space _ _ (by decide),
      goTrimSpace_cons_space _ _ (by decide), goTrimSpace_cons_space _ _ (by decide)]
  rw [goTrimSpace_eq_self_append _ _ (fun c r hc => by
        injection hc with h1 _; subst h1; decide) (by decide)
      (goTrimSpace_natToStr n) (natToStr_spec n).1]
  rfl

/-- Rows of the progress table are ignored when no task is open. -/
theorem processLine_rowTasks (now : Nat) (acc : List Task) (n1 n2 pa pb : Nat) :
    processLine now ⟨acc, none, none, false, false⟩
      ("| Tasks Completed | ".data ++ natToStr n1 ++ "/".data ++ natToStr n2 ++
        " | ".data ++ pctStr pa pb ++ "% |".data) =
      .ok ⟨acc, none, none, false, false⟩ := by
  apply processLine_inert_of_shape now acc _ (fun c r hc => by
    injection hc with h1 _
    subst h1
    exact ⟨by decide, by decide⟩)
  intro c hc
  rw [List.getLast?_append, show ("% |".data).getLast? = some '|' from rfl] at hc
  simp only [Option.or_some, Option.some.injEq] at hc
  subst hc
  decide

theorem processLine_rowOverall (now : Nat) (acc : List Task) (n1 n2 pa pb : Nat) :
    processLine now ⟨acc, none, none, false, false⟩
      ("| Overall Progress | ".data ++ natToStr n1 ++ "/".data ++ natToStr n2 ++
        " | ".data ++ pctStr pa pb ++ "% |".data) =
      .ok ⟨acc, none, none, false, false⟩ := by
  apply processLine_inert_of_shape now acc _ (fun c r hc => by
    injection hc with h1 _
    subst h1
    exact ⟨by decide, by decide⟩)
  intro c hc
  rw [List.getLast?_append, show ("% |".data).getLast? = some '|' from rfl] at hc
  simp only [Option.or_some, Option.some.injEq] at hc
  subst hc
  decide

theorem processLine_rowInProg (now : Nat) (acc : List Task) (n : Nat) :
    processLine now ⟨acc, none, none, false, false⟩
      ("| In Progress | ".data ++ natToStr n ++ " | - |".data) =
      .ok ⟨acc, none, none, false, false⟩ := by
  apply processLine_inert_of_shape now acc _ (fun c r hc => by
    injection hc with h1 _
    subst h1
    exact ⟨by decide, by decide⟩)
  intro c hc
  rw [List.getLast?_append, show (" | - |".data).getLast? = some '|' from rfl] at hc
  simp only [Option.or_some, Option.some.injEq] at hc
  subst hc
  decide

theorem processLine_rowBlocked (now : Nat) (acc : List Task) (n : Nat) :
    processLine now ⟨acc, none, none, false, false⟩
      ("| Blocked | ".data ++ natToStr n ++ " | - |".data) =
      .ok ⟨acc, none, none, false, false⟩ := by
  apply processLine_inert_of_shape now acc _ (fun c r hc => by
    injection hc with h1 _
    subst h1
    exact ⟨by decide, by decide⟩)
  intro c hc
  rw [List.getLast?_append, show (" | - |".data).getLast? = some '|' from rfl] at hc
  simp only [Option.or_some, Option.some.injEq] at hc
  subst hc
  decide

/-- The generated mermaid/progress section is entirely ignored by the
parser when no task is open. -/
theorem runLines_mermaid (now : Nat) (acc : List Task) (p : Project) (X : Str) :
    runLines now ⟨acc, none, none, false, false⟩
      (splitNl (generateMermaidDiagram p ++ X)) =
    runLines now ⟨acc, none, none, false, false⟩ (splitNl X) := by
  unfold generateMermaidDiagram
  simp only []
  generalize (p.tasks.filter (fun t => t.status == StatusDone)).length = CT
  generalize (p.tasks.filter (fun t => t.status == StatusInProgress)).length = IP
  generalize (p.tasks.filter (fun t => t.status == StatusBlocked)).length = BL
  generalize hCI : (p.tasks.map (fun t =>
    (if t.status == StatusDone then 1 else 0) + t.completedSubtaskCount)).sum = CI
  generalize hTI : (p.tasks.map (fun t => 1 + t.subtasks.length)).sum = TI
  generalize hTT : p.tasks.length = TT
  rw [show (("```mermaid".data ++ nl ++
      "pie title Project Progress".data ++ nl ++
      (if CI > 0 then "    \"Completed\" : ".data ++ natToStr CI ++ nl else []) ++
      (if TI - CI > 0 then "    \"Remaining\" : ".data ++ natToStr (TI - CI) ++ nl
       else []) ++
      "```".data ++ nl ++ nl ++
      "### Progress Summary".data ++ nl ++ nl ++
      "| Metric | Count | Percentage |".data ++ nl ++
      "|--------|-------|------------|".data ++ nl ++
      (if TT > 0 then "| Tasks Completed | ".data ++ natToStr CT ++ "/".data ++
        natToStr TT ++ " | ".data ++ pctStr CT TT ++ "% |".data ++ nl else []) ++
      (if TI > 0 then "| Overall Progress | ".data ++ natToStr CI ++ "/".data ++
        natToStr TI ++ " | ".data ++ pctStr CI TI ++ "% |".data ++ nl else []) ++
      (if IP > 0 then "| In Progress | ".data ++ natToStr IP ++ " | - |".data ++ nl
       else []) ++
      (if BL > 0 then "| Blocked | ".data ++ natToStr BL ++ " | - |".data ++ nl
       else []) ++ nl) ++ X) =
      "```mermaid".data ++ '\n' :: ("pie title Project Progress".data ++ '\n' ::
      ((if CI > 0 then ("    \"Completed\" : ".data ++ natToStr CI) ++ nl else []) ++
      ((if TI - CI > 0 then ("    \"Remaining\" : ".data ++ natToStr (TI - CI)) ++ nl
        else []) ++
      ("```".data ++ '\n' :: ('\n' ::
      ("### Progress Summary".data ++ '\n' :: ('\n' ::
      ("| Metric | Count | Percentage |".data ++ '\n' ::
      ("|--------|-------|------------|".data ++ '\n' ::
      ((if TT > 0 then ("| Tasks Completed | ".data ++ natToStr CT ++ "/".data ++
         natToStr TT ++ " | ".data ++ pctStr CT TT ++ "% |".data) ++ nl else []) ++
      ((if TI > 0 then ("| Overall Progress | ".data ++ natToStr CI ++ "/".data ++
         natToStr TI ++ " | ".data ++ pctStr CI TI ++ "% |".data) ++ nl else []) ++
      ((if IP > 0 then ("| In Progress | ".data ++ natToStr IP ++ " | - |".data) ++ nl
        else []) ++
      ((if BL > 0 then ("| Blocked | ".data ++ natToStr BL ++ " | - |".data) ++ nl
        else []) ++
      ('\n' :: X))))))))))))))
      from by simp [nl_eq]]
  rw [runLines_line now _ _ _ _ (by decide) (processLine_inert now acc false false
    "```mermaid".data (ne_hash_of_trim_head "```mermaid".data '`' _ rfl (by decide)))]
  rw [runLines_line now _ _ _ _ (by decide) (processLine_inert now acc false false
    "pie title Project Progress".data
    (ne_hash_of_trim_head "pie title Project Progress".data 'p' _ rfl (by decide)))]
  rw [runLines_optLine now _ _ _ _
    (no_nl_append _ _ (by decide) (natToStr_no_nl CI)) (processLine_pieRow1 now acc CI)]
  rw [runLines_optLine now _ _ _ _
    (no_nl_append _ _ (by decide) (natToStr_no_nl (TI - CI)))
    (processLine_pieRow2 now acc (TI - CI))]
  rw [runLines_line now _ _ _ _ (by decide) (processLine_inert now acc false false
    "```".data (ne_hash_of_trim_head "```".data '`' _ rfl (by decide)))]
  rw [runLines_blank_stream]
  rw [runLines_line now _ _ _ _ (by decide)
    (processLine_hash_pre now acc "### Progress Summary".data (by decide) (by decide)
      (by decide))]
  rw [runLines_blank_stream]
  rw [runLines_line now _ _ _ _ (by decide) (processLine_inert now acc false false
    "| Metric | Count | Percentage |".data
    (ne_hash_of_trim_head "| Metric | Count | Percentage |".data '|' _ rfl (by decide)))]
  rw [runLines_line now _ _ _ _ (by decide) (processLine_inert now acc false false
    "|--------|-------|------------|".data
    (ne_hash_of_trim_head "|--------|-------|------------|".data '|' _ rfl (by decide)))]
  rw [runLines_optLine now _ _ _ _
    (no_nl_append _ _ (no_nl_append _ _ (no_nl_append _ _ (no_nl_append _ _
      (no_nl_append _ _ (no_nl_append _ _ (by decide) (natToStr_no_nl CT))
        (by decide)) (natToStr_no_nl TT)) (by decide)) (pctStr_no_nl CT TT))
      (by decide))
    (processLine_rowTasks now acc CT TT CT TT)]
  rw [runLines_optLine now _ _ _ _
    (no_nl_append _ _ (no_nl_append _ _ (no_nl_append _ _ (no_nl_append _ _
      (no_nl_append _ _ (no_nl_append _ _ (by decide) (natToStr_no_nl CI))
        (by decide)) (natToStr_no_nl TI)) (by decide)) (pctStr_no_nl CI TI))
      (by decide))
    (processLine_rowOverall now acc CI TI CI TI)]
  rw [runLines_optLine now _ _ _ _
    (no_nl_append _ _ (no_nl_append _ _ (by decide) (natToStr_no_nl IP)) (by decide))
    (processLine_rowInProg now acc IP)]
  rw [runLines_optLine now _ _ _ _
    (no_nl_append _ _ (no_nl_append _ _ (by decide) (natToStr_no_nl BL)) (by decide))
    (processLine_rowBlocked now acc BL)]
  rw [runLines_blank_stream]

/-- The project-description block is ignored by the parser. -/
theorem runLines_projDesc (now : Nat) (acc : List Task) (d X : Str)
    (hg : goodProjDesc d = true) :
    runLines now ⟨acc, none, none, false, false⟩
      (splitNl ((if d ≠ [] then d ++ nl ++ nl else []) ++ X)) =
    runLines now ⟨acc, none, none, false, false⟩ (splitNl X) := by
  rcases eq_or_ne d [] with hd | hd
  · subst hd
    rw [if_neg (by simp), List.nil_append]
  · rw [if_pos hd]
    rw [show (d ++ nl ++ nl) ++ X = d ++ '\n' :: ('\n' :: X) from by simp [nl_eq]]
    rw [splitNl_append]
    rw [runLines_inert_list now _ (splitNl d) _ (by
      intro l hl
      apply processLine_inert
      intro r hr
      unfold goodProjDesc at hg
      rw [List.all_eq_true] at hg
      have := hg l hl
      rw [hr] at this
      simp at this)]
    exact runLines_blank_stream now _ X

/-- The optional diagram section is ignored by the parser. -/
theorem runLines_diagram (now : Nat) (acc : List Task) (p : Project) (X : Str) :
    runLines now ⟨acc, none, none, false, false⟩
      (splitNl ((if shouldGenerateDiagram p then "## Project Overview".data ++ nl ++
        nl ++ generateMermaidDiagram p ++ nl else []) ++ X)) =
    runLines now ⟨acc, none, none, false, false⟩ (splitNl X) := by
  by_cases hc : shouldGenerateDiagram p
  · rw [if_pos hc]
    rw [show ("## Project Overview".data ++ nl ++ nl ++ generateMermaidDiagram p ++
        nl) ++ X = "## Project Overview".data ++ '\n' :: ('\n' ::
        (generateMermaidDiagram p ++ ('\n' :: X))) from by simp [nl_eq]]
    rw [runLines_line now _ _ _ _ (by decide)
      (processLine_hash_pre now acc "## Project Overview".data (by decide) (by decide)
        (by decide))]
    rw [runLines_blank_stream]
    rw [runLines_mermaid now acc p ('\n' :: X)]
    exact runLines_blank_stream now _ X
  · rw [if_neg hc, List.nil_append]

/-- The chunk list finalised: the resulting state's `pushCur` is the
reclocked task list. -/
theorem runLines_tasks (now : Nat) (tasks : List Task)
    (hall : ∀ t ∈ tasks, goodTask t = true) :
    ∀ (acc : List Task) (cur : Option Task) (b1 b2 : Bool),
    ∃ stf : PState, runLines now ⟨acc, cur, none, b1, b2⟩
      (splitNl (tasks.map (fun t =>
        generateTaskMarkdown t ++ nl ++ "---".data ++ nl ++ nl)).flatten) = .ok stf ∧
      pushCur stf = acc ++ cur.toList ++ tasks.map (reclockTask now) := by
  induction tasks with
  | nil =>
    intro acc cur b1 b2
    refine ⟨⟨acc, cur, none, b1, b2⟩, ?_, ?_⟩
    · rfl
    · cases cur <;> simp [pushCur, Option.toList]
  | cons t ts ih =>
    intro acc cur b1 b2
    obtain ⟨stf, h1, h2⟩ := ih (fun x hx => hall x (by simp [hx]))
      (acc ++ cur.toList) (some (reclockTask now t)) (decide (t.subtasks ≠ [])) false
    refine ⟨stf, ?_, ?_⟩
    · simp only [List.map_cons, List.flatten_cons]
      rw [runLines_chunk now acc cur b1 b2 t _ (hall t (by simp))]
      exact h1
    · rw [h2]
      simp [List.append_assoc, Option.toList]

set_option maxHeartbeats 1000000 in
set_option maxRecDepth 8192 in
/-- C1 (amended): on the class of projects whose field values the markdown
format can carry (`goodProject`: enum-valued category/priority/status,
heading-safe trimmed titles, description lines no parser branch treats as
structure, checkbox-expressible subtasks, no choices, 64-bit numeric
fields), decoding the encoded document reproduces the task list exactly,
up to the decoder's re-stamping of every timestamp with the decode time;
the project name and description are not expressed by the format and come
back empty. -/
theorem markdown_round_trip_good (p : Project) (now : Nat) (hp : goodProject p = true) :
    parseMarkdown (generateMarkdown p) now =
      .ok { name := [], description := [], tasks := p.tasks.map (reclockTask now),
            createdAt := now, updatedAt := now } := by
  simp only [goodProject, Bool.and_eq_true, List.all_eq_true] at hp
  obtain ⟨hdesc, htasks⟩ := hp
  obtain ⟨stf, h1, h2⟩ := runLines_tasks now p.tasks (fun x hx => htasks x hx)
    [] none false false
  unfold parseMarkdown initPState generateMarkdown
  rw [show ("# Project Tasks".data ++ nl ++ nl ++
      (if p.description ≠ [] then p.description ++ nl ++ nl else []) ++
      (if shouldGenerateDiagram p then "## Project Overview".data ++ nl ++ nl ++
        generateMermaidDiagram p ++ nl else []) ++
      "## Categories".data ++ nl ++
      "- [MVP] Core functionality tasks".data ++ nl ++
      "- [AI] AI-related features".data ++ nl ++
      "- [UX] User experience improvements".data ++ nl ++
      "- [INFRA] Infrastructure and setup".data ++ nl ++ nl ++
      "## Priority Levels".data ++ nl ++
      "- P0: Blocker/Critical".data ++ nl ++
      "- P1: High Priority".data ++ nl ++
      "- P2: Medium Priority".data ++ nl ++
      "- P3: Low Priority".data ++ nl ++ nl ++
      (p.tasks.map (fun t =>
        generateTaskMarkdown t ++ nl ++ "---".data ++ nl ++ nl)).flatten) =
      "# Project Tasks".data ++ '\n' :: ('\n' ::
      ((if p.description ≠ [] then p.description ++ nl ++ nl else []) ++
      ((if shouldGenerateDiagram p then "## Project Overview".data ++ nl ++ nl ++
         generateMermaidDiagram p ++ nl else []) ++
      ("## Categories".data ++ '\n' ::
      ("- [MVP] Core functionality tasks".data ++ '\n' ::
      ("- [AI] AI-related features".data ++ '\n' ::
      ("- [UX] User experience improvements".data ++ '\n' ::
      ("- [INFRA] Infrastructure and setup".data ++ '\n' :: ('\n' ::
      ("## Priority Levels".data ++ '\n' ::
      ("- P0: Blocker/Critical".data ++ '\n' ::
      ("- P1: High Priority".data ++ '\n' ::
      ("- P2: Medium Priority".data ++ '\n' ::
      ("- P3: Low Priority".data ++ '\n' :: ('\n' ::
      (p.tasks.map (fun t =>
        generateTaskMarkdown t ++ nl ++ "---".data ++ nl ++ nl)).flatten)))))))))))))))
      from by simp only [nl_eq, List.append_assoc, List.cons_append, List.nil_append]]
  rw [runLines_line now _ _ _ _ (by decide)
    (processLine_hash_pre now [] "# Project Tasks".data (by decide) (by decide)
      (by decide))]
  rw [runLines_blank_stream]
  rw [runLines_projDesc now [] p.description _ hdesc]
  rw [runLines_diagram now [] p _]
  rw [runLines_line now _ _ _ _ (by decide)
    (processLine_hash_pre now [] "## Categories".data (by decide) (by decide)
      (by decide))]
  rw [runLines_line now _ _ _ _ (by decide) (processLine_inert now [] false false
    "- [MVP] Core functionality tasks".data
    (ne_hash_of_trim_head "- [MVP] Core functionality tasks".data '-' _ rfl
      (by decide)))]
  rw [runLines_line now _ _ _ _ (by decide) (processLine_inert now [] false false
    "- [AI] AI-related features".data
    (ne_hash_of_trim_head "- [AI] AI-related features".data '-' _ rfl (by decide)))]
  rw [runLines_line now _ _ _ _ (by decide) (processLine_inert now [] false false
    "- [UX] User experience improvements".data
    (ne_hash_of_trim_head "- [UX] User experience improvements".data '-' _ rfl
      (by decide)))]
  rw [runLines_line now _ _ _ _ (by decide) (processLine_inert now [] false false
    "- [INFRA] Infrastructure and setup".data
    (ne_hash_of_trim_head "- [INFRA] Infrastructure and setup".data '-' _ rfl
      (by decide)))]
  rw [runLines_blank_stream]
  rw [runLines_line now _ _ _ _ (by decide)
    (processLine_hash_pre now [] "## Priority Levels".data (by decide) (by decide)
      (by decide))]
  rw [runLines_line now _ _ _ _ (by decide) (processLine_inert now [] false false
    "- P0: Blocker/Critical".data
    (ne_hash_of_trim_head "- P0: Blocker/Critical".data '-' _ rfl (by decide)))]
  rw [runLines_line now _ _ _ _ (by decide) (processLine_inert now [] false false
    "- P1: High Priority".data
    (ne_hash_of_trim_head "- P1: High Priority".data '-' _ rfl (by decide)))]
  rw [runLines_line now _ _ _ _ (by decide) (processLine_inert now [] false false
    "- P2: Medium Priority".data
    (ne_hash_of_trim_head "- P2: Medium Priority".data '-' _ rfl (by decide)))]
  rw [runLines_line now _ _ _ _ (by decide) (processLine_inert now [] false false
    "- P3: Low Priority".data
    (ne_hash_of_trim_head "- P3: Low Priority".data '-' _ rfl (by decide)))]
  rw [runLines_blank_stream]
  rw [h1]
  simp only [Except.map]
  rw [h2]
  simp

/-- C1, counterexample to the claim as stated: `lossyProject` is a
well-typed `Project`, yet an encode/decode trip loses its name, its
description, its task's empty category (rewritten to `[GENERAL]`), its
subtask's `in_progress` status (collapsed to `todo`) and every
timestamp. -/
theorem markdown_round_trip_counterexample :
    parseMarkdown (generateMarkdown lossyProject) 0 = .ok lossyDecoded ∧
    lossyDecoded.name ≠ lossyProject.name ∧
    lossyDecoded.description ≠ lossyProject.description ∧
    lossyDecoded.tasks.map Task.category ≠ lossyProject.tasks.map Task.category ∧
    lossyDecoded.tasks.map (fun t => t.subtasks.map Subtask.status) ≠
      lossyProject.tasks.map (fun t => t.subtasks.map Subtask.status) := by
  refine ⟨by decide, by decide, by decide, by decide, by decide⟩

/-- C1, witness: the round trip applied to the concrete good project
`rtProject` at decode time 7. -/
theorem markdown_round_trip_good_witness :
    goodProject rtProject = true ∧
    parseMarkdown (generateMarkdown rtProject) 7 =
      .ok { name := [], description := [],
            tasks := rtProject.tasks.map (reclockTask 7),
            createdAt := 7, updatedAt := 7 } :=
  ⟨by decide, markdown_round_trip_good rtProject 7 (by decide)⟩


/-- C2 (amended): `detectCircularDependencies` reports only titles of tasks
from which the dependency DFS can reach trouble: either a dependency cycle
through existing tasks, or a nonexistent dependency ID (the Go `hasCycle`
marks an ID on the recursion stack before looking it up and the `!exists`
early return skips the cleanup, so a leaked missing ID can later fire the
stack check).  Consequently a graph that is acyclic AND names only existing
tasks in its dependency lists reports nothing, and in the three-task cycle
A→B→C→A all three titles are reported while the acyclic chain A→B→C
reports none.  (The original claim's converse directions fail: see the
counterexample.) -/
theorem cycle_detection_characterization :
    (∀ (p : Project) (title : Str), title ∈ detectCircularDependencies p →
      ∃ t ∈ p.tasks, t.title = title ∧
        ((∃ c, Relation.ReflTransGen (DepEdge p) t.id c ∧
            Relation.TransGen (DepEdge p) c c) ∨
         (∃ m, tmFind p.tasks m = none ∧
            Relation.ReflTransGen (DepEdge p) t.id m))) ∧
    (∀ p : Project, (∀ c, ¬ Relation.TransGen (DepEdge p) c c) →
      (∀ t ∈ p.tasks, ∀ d ∈ t.dependencies, (tmFind p.tasks d).isSome = true) →
      detectCircularDependencies p = []) ∧
    detectCircularDependencies cyc3Project = ["A".data, "B".data, "C".data] ∧
    detectCircularDependencies chain3Project = [] := by
  have hsound : ∀ (p : Project) (title : Str), title ∈ detectCircularDependencies p →
      ∃ t ∈ p.tasks, t.title = title ∧
        ((∃ c, Relation.ReflTransGen (DepEdge p) t.id c ∧
            Relation.TransGen (DepEdge p) c c) ∨
         (∃ m, tmFind p.tasks m = none ∧
            Relation.ReflTransGen (DepEdge p) t.id m)) := by
    intro p title h
    unfold detectCircularDependencies at h
    rw [List.mem_filterMap] at h
    obtain ⟨t, hmem, hft⟩ := h
    by_cases hc : (hasCycleAux p.tasks (p.tasks.length + 1) t.id [] []).1 = true
    · rw [if_pos hc] at hft
      have hG := (hasCycleAux_sound p (p.tasks.length + 1) t.id [] [] t.id
        Relation.ReflTransGen.refl (fun r hr => absurd hr (List.not_mem_nil r))).1 hc
      exact ⟨t, hmem, Option.some.inj hft, hG⟩
    · rw [if_neg hc] at hft; cases hft
  refine ⟨hsound, ?_, by decide, by decide⟩
  intro p hacyc hdeps
  rw [List.eq_nil_iff_forall_not_mem]
  intro title hmem
  obtain ⟨t, htmem, -, hG⟩ := hsound p title hmem
  rcases hG with ⟨c, -, htg⟩ | ⟨m, hmnone, hmreach⟩
  · exact hacyc c htg
  · rcases Relation.reflTransGen_iff_eq_or_transGen.1 hmreach with heq | htg
    · have hsome := tmFind_isSome_of_mem htmem
      rw [← heq, hmnone] at hsome
      cases hsome
    · obtain ⟨u, hru, hu⟩ := Relation.TransGen.tail'_iff.1 htg
      obtain ⟨tu, hfindu, hdepu⟩ := hu
      have hsome := hdeps tu (tmFind_mem hfindu).1 m hdepu
      rw [hmnone] at hsome
      cases hsome
/-- C2, counterexample to the claim as stated, in both directions it can
fail: in `danglingProject` (A ↔ B, D → A) the title "D" is reported even
though no dependency cycle passes through task D (id 4); and in
`leakProject` (a single task A whose dependency list is `[3, 3]` with no
task 3) the title "A" is reported even though the dependency graph is
entirely acyclic — the first probe of the missing ID 3 leaks a recursion
stack entry which the duplicate edge then hits. -/
theorem cycle_report_counterexample :
    ("D".data ∈ detectCircularDependencies danglingProject ∧
      ¬ Relation.TransGen (DepEdge danglingProject) 4 4) ∧
    (detectCircularDependencies leakProject = ["A".data] ∧
      ∀ c, ¬ Relation.TransGen (DepEdge leakProject) c c) := by
  refine ⟨⟨by decide, ?_⟩, by decide, ?_⟩
  · intro h
    obtain ⟨b, -, hb⟩ := Relation.TransGen.tail'_iff.1 h
    obtain ⟨t, hfind, hdep⟩ := hb
    have hmem := (tmFind_mem hfind).1
    simp only [danglingProject, List.mem_cons, List.not_mem_nil, or_false] at hmem
    rcases hmem with rfl | rfl | rfl <;> simp [depTask] at hdep
  · have hedge : ∀ a b, DepEdge leakProject a b → a = 1 ∧ b = 3 := by
      intro a b hab
      obtain ⟨t, hfind, hdep⟩ := hab
      have hmem := tmFind_mem hfind
      have ht : t = depTask 1 "A".data [3, 3] := by
        have hmm := hmem.1
        simp only [leakProject, List.mem_cons, List.not_mem_nil, or_false] at hmm
        exact hmm
      subst ht
      refine ⟨by simpa [depTask] using hmem.2.symm, ?_⟩
      have hd := hdep
      simp only [depTask, List.mem_cons, List.not_mem_nil, or_false] at hd
      rcases hd with rfl | rfl <;> rfl
    intro c h
    obtain ⟨b, hrt, hb⟩ := Relation.TransGen.tail'_iff.1 h
    obtain ⟨hb1, hc3⟩ := hedge b c hb
    subst hb1
    subst hc3
    rcases Relation.reflTransGen_iff_eq_or_transGen.1 hrt with heq | htg
    · cases heq
    · obtain ⟨x, hx, -⟩ := Relation.TransGen.head'_iff.1 htg
      have h31 := (hedge 3 x hx).1
      cases h31
/-- C2, witness: the characterization applied to the 3-cycle project. -/
theorem cycle_detection_characterization_witness :
    (∃ t ∈ cyc3Project.tasks, t.title = "A".data ∧
      ((∃ c, Relation.ReflTransGen (DepEdge cyc3Project) t.id c ∧
          Relation.TransGen (DepEdge cyc3Project) c c) ∨
       (∃ m, tmFind cyc3Project.tasks m = none ∧
          Relation.ReflTransGen (DepEdge cyc3Project) t.id m))) ∧
    detectCircularDependencies cyc3Project = ["A".data, "B".data, "C".data] :=
  ⟨cycle_detection_characterization.1 cyc3Project "A".data (by decide),
   cycle_detection_characterization.2.2.1⟩

/-- C3: when the task located by title has exactly one non-done subtask and
that subtask is the one named, a successful `UpdateTaskStatus` to done
leaves the task done; when another subtask (of a different title) is still
not done, the task's own status is unchanged. -/
theorem cascade_up_on_last_subtask (p : Project) (T S : Str) (now : Nat)
    (tk : Task) (st : Subtask) (hS : ¬ S = [])
    (hfind : p.tasks.find? (fun t => t.title == T) = some tk)
    (hsub : tk.subtasks.find? (fun s => s.title == S) = some st) :
    ((tk.subtasks.filter (fun s => !(s.status == StatusDone)) = [st]) →
      ∀ p', updateTaskStatus p T S StatusDone now = .ok p' →
        ∃ tk', p'.tasks.find? (fun t => t.title == T) = some tk' ∧
          tk'.status = StatusDone)
    ∧
    ((∃ s2 ∈ tk.subtasks, ¬ s2.status = StatusDone ∧ ¬ s2.title = S) →
      ∀ p', updateTaskStatus p T S StatusDone now = .ok p' →
        ∃ tk', p'.tasks.find? (fun t => t.title == T) = some tk' ∧
          tk'.status = tk.status) := by
  have htk : tk.title = T := by
    have := List.find?_some hfind
    simpa [beq_iff_eq] using this
  have hstS : st.title = S := by
    have := List.find?_some hsub
    simpa [beq_iff_eq] using this
  obtain ⟨pre, post, heq, hallp⟩ := find?_decomp hfind
  have hallp' : ∀ x ∈ pre, ¬ x.title = T := by
    intro x hx; have := hallp x hx; simpa [beq_iff_eq] using this
  obtain ⟨spre, spost, hseq, halls⟩ := find?_decomp hsub
  have halls' : ∀ x ∈ spre, ¬ x.title = S := by
    intro x hx; have := halls x hx; simpa [beq_iff_eq] using this
  have hstep := processTaskUpdate_sub now S StatusDone tk hS spre spost st hseq halls' hstS
  simp only [] at hstep
  constructor
  · intro hfilter p' hok
    have hstnd : ¬ st.status = StatusDone := by
      have hmem : st ∈ tk.subtasks.filter (fun s => !(s.status == StatusDone)) := by
        rw [hfilter]; exact List.mem_singleton.2 rfl
      have := (List.mem_filter.1 hmem).2
      simpa using this
    rw [hseq, List.filter_append,
        List.filter_cons_of_pos (by simpa using hstnd)] at hfilter
    have hlen : (List.filter (fun s => !(s.status == StatusDone)) spre).length +
        ((List.filter (fun s => !(s.status == StatusDone)) spost).length + 1) = 1 := by
      simpa using congrArg List.length hfilter
    have hpredone : ∀ x ∈ spre, x.status = StatusDone := by
      intro x hx
      have h0 : List.filter (fun s => !(s.status == StatusDone)) spre = [] :=
        List.length_eq_zero.1 (by omega)
      have := List.filter_eq_nil_iff.1 h0 x hx
      simpa using this
    have hpostdone : ∀ x ∈ spost, x.status = StatusDone := by
      intro x hx
      have h0 : List.filter (fun s => !(s.status == StatusDone)) spost = [] :=
        List.length_eq_zero.1 (by omega)
      have := List.filter_eq_nil_iff.1 h0 x hx
      simpa using this
    have hcbm : (Task.canBeMarkedComplete { tk with
        subtasks := spre ++ { st with status := StatusDone, updatedAt := now } :: spost,
        updatedAt := now }) = true := by
      unfold Task.canBeMarkedComplete
      rw [List.all_eq_true]
      intro s hs
      simp only [List.mem_append, List.mem_cons] at hs
      rcases hs with hs | hs | hs
      · simp [hpredone s hs]
      · subst hs; simp
      · simp [hpostdone s hs]
    by_cases ht1 : tk.status = StatusDone
    · have hproc : processTaskUpdate now S StatusDone tk = .ok { tk with
          subtasks := spre ++ { st with status := StatusDone, updatedAt := now } :: spost,
          updatedAt := now } := by
        rw [hstep, if_neg (by simp [ht1])]
      have hp' := updateTaskStatus_ok_decomp p T S StatusDone now pre post tk _ heq hallp'
        htk hproc p' hok
      subst hp'
      exact ⟨_, find?_append_cons
        (fun x hx => by simp [beq_iff_eq, hallp' x hx])
        (by simp [beq_iff_eq, htk]), ht1⟩
    · have hproc : processTaskUpdate now S StatusDone tk = .ok { tk with
          subtasks := spre ++ { st with status := StatusDone, updatedAt := now } :: spost,
          status := StatusDone, updatedAt := now } := by
        rw [hstep]
        rw [if_pos ?hc]
        case hc => exact ⟨trivial, by simpa using ht1, hcbm⟩
      have hp' := updateTaskStatus_ok_decomp p T S StatusDone now pre post tk _ heq hallp'
        htk hproc p' hok
      subst hp'
      exact ⟨_, find?_append_cons
        (fun x hx => by simp [beq_iff_eq, hallp' x hx])
        (by simp [beq_iff_eq, htk]), rfl⟩
  · rintro ⟨s2, hs2mem, hs2nd, hs2title⟩ p' hok
    have hs2ne : s2 ∈ spre ∨ s2 ∈ spost := by
      rw [hseq] at hs2mem
      simp only [List.mem_append, List.mem_cons] at hs2mem
      rcases hs2mem with h | h | h
      · exact Or.inl h
      · exact absurd (h ▸ hstS) hs2title
      · exact Or.inr h
    have hcbm : (Task.canBeMarkedComplete { tk with
        subtasks := spre ++ { st with status := StatusDone, updatedAt := now } :: spost,
        updatedAt := now }) = false := by
      unfold Task.canBeMarkedComplete
      rw [Bool.eq_false_iff]
      intro hall
      rw [List.all_eq_true] at hall
      have hmem2 : s2 ∈ spre ++ { st with status := StatusDone, updatedAt := now } :: spost := by
        rcases hs2ne with h | h
        · exact List.mem_append.2 (Or.inl h)
        · exact List.mem_append.2 (Or.inr (List.mem_cons.2 (Or.inr h)))
      have := hall s2 hmem2
      simp at this
      exact hs2nd this
    have hproc : processTaskUpdate now S StatusDone tk = .ok { tk with
        subtasks := spre ++ { st with status := StatusDone, updatedAt := now } :: spost,
        updatedAt := now } := by
      rw [hstep, if_neg (by simp [hcbm])]
    have hp' := updateTaskStatus_ok_decomp p T S StatusDone now pre post tk _ heq hallp'
      htk hproc p' hok
    subst hp'
    exact ⟨_, find?_append_cons
      (fun x hx => by simp [beq_iff_eq, hallp' x hx])
      (by simp [beq_iff_eq, htk]), rfl⟩

/-- C3, witness: marking the last todo subtask of `upProject`'s task done
promotes the task; marking one of two todo subtasks leaves it in progress. -/
theorem cascade_up_on_last_subtask_witness :
    (∃ tk', (updateTaskStatusStore upProject "T".data "b".data StatusDone 5).tasks.find?
        (fun t => t.title == "T".data) = some tk' ∧ tk'.status = StatusDone) ∧
    (∃ tk', (updateTaskStatusStore twoTodoProject "T".data "b".data StatusDone 5).tasks.find?
        (fun t => t.title == "T".data) = some tk' ∧ tk'.status = twoTodoTask.status) :=
  ⟨(cascade_up_on_last_subtask upProject "T".data "b".data 5 upTask
      (plainSub "b".data StatusTodo) (by decide) (by decide) (by decide)).1
    (by decide) _ (by decide),
   (cascade_up_on_last_subtask twoTodoProject "T".data "b".data 5 twoTodoTask
      (plainSub "b".data StatusTodo) (by decide) (by decide) (by decide)).2
    ⟨plainSub "a".data StatusTodo, by decide, by decide, by decide⟩ _ (by decide)⟩

/-- C4: a successful `UpdateTaskStatus` with no subtask title and status
done leaves the located task done with every subtask done. -/
theorem cascade_down_on_done (p : Project) (T : Str) (now : Nat) (tk : Task)
    (hfind : p.tasks.find? (fun t => t.title == T) = some tk) (p' : Project)
    (hok : updateTaskStatus p T [] StatusDone now = .ok p') :
    ∃ tk', p'.tasks.find? (fun t => t.title == T) = some tk' ∧
      tk'.status = StatusDone ∧ ∀ s ∈ tk'.subtasks, s.status = StatusDone := by
  have htk : tk.title = T := by
    have := List.find?_some hfind
    simpa [beq_iff_eq] using this
  obtain ⟨pre, post, heq, hallp⟩ := find?_decomp hfind
  have hallp' : ∀ x ∈ pre, ¬ x.title = T := by
    intro x hx; have := hallp x hx; simpa [beq_iff_eq] using this
  have hp' := updateTaskStatus_ok_decomp p T [] StatusDone now pre post tk _ heq hallp'
    htk (processTaskUpdate_main_done now tk) p' hok
  subst hp'
  refine ⟨_, find?_append_cons
    (fun x hx => by simp [beq_iff_eq, hallp' x hx])
    (by simp [beq_iff_eq, htk]), rfl, ?_⟩
  intro s hs
  simp only [List.mem_map] at hs
  obtain ⟨s0, _, rfl⟩ := hs
  by_cases hd : s0.status = StatusDone <;> simp [hd]

/-- C4, witness: marking `mixedProject`'s task done cascades to both
subtasks. -/
theorem cascade_down_on_done_witness :
    ∃ tk', (updateTaskStatusStore mixedProject "T".data [] StatusDone 5).tasks.find?
        (fun t => t.title == "T".data) = some tk' ∧
      tk'.status = StatusDone ∧ ∀ s ∈ tk'.subtasks, s.status = StatusDone :=
  cascade_down_on_done mixedProject "T".data 5 mixedTask (by decide) _ (by decide)

/-- C5: `GetNextTask` returns, for the first task that is not fully
completed, that task paired with its first non-done subtask when one
exists and with no subtask otherwise; it fails (with "all tasks completed")
exactly when the project has no tasks or every task is fully completed. -/
theorem next_task_selection_spec (p : Project) :
    getNextTask p = (match p.tasks.find? (fun t => !t.isFullyCompleted) with
      | none => .error "all tasks completed".data
      | some t => .ok (t, t.subtasks.find? (fun s => !(s.status == StatusDone)))) ∧
    ((∃ e, getNextTask p = .error e) ↔ ∀ t ∈ p.tasks, t.isFullyCompleted = true) := by
  have h := getNextTaskGo_spec p.tasks
  refine ⟨h, ?_⟩
  unfold getNextTask at h ⊢
  rw [h]
  cases hf : p.tasks.find? (fun t => !t.isFullyCompleted) with
  | none =>
    rw [List.find?_eq_none] at hf
    simp only []
    constructor
    · intro _ t ht
      have := hf t ht
      simpa using this
    · intro _; exact ⟨_, rfl⟩
  | some t =>
    have hmem := List.mem_of_find?_eq_some hf
    have hp := List.find?_some hf
    simp only []
    constructor
    · rintro ⟨e, he⟩; cases he
    · intro hall
      have := hall t hmem
      simp [this] at hp

/-- C6: decoding fails exactly when some line is a recognised task heading
whose ID does not parse as an integer; every other document decodes
successfully. -/
theorem parse_fails_iff_bad_task_id (content : Str) (now : Nat) :
    (parseMarkdown content now).isOk =
      (splitNl content).all (fun l => !badLine l) := by
  unfold parseMarkdown
  cases hr : runLines now initPState (splitNl content) with
  | error e =>
    have h := runLines_isOk now (splitNl content) initPState
    rw [hr] at h
    simpa [Except.map, Except.isOk, Except.toBool] using h
  | ok st =>
    have h := runLines_isOk now (splitNl content) initPState
    rw [hr] at h
    simpa [Except.map, Except.isOk, Except.toBool] using h

/-- C7: after one `AutoUpdateTaskStatuses` sweep every task satisfies the
completion-propagation invariant: a done task has only done subtasks, and
a task with subtasks that are all done is done. -/
theorem auto_update_restores_invariant (p : Project) (now : Nat) :
    ∀ t ∈ ((autoUpdateTaskStatuses p now).1).tasks,
      (t.status = StatusDone → ∀ s ∈ t.subtasks, s.status = StatusDone) ∧
      (t.subtasks ≠ [] → (∀ s ∈ t.subtasks, s.status = StatusDone) →
        t.status = StatusDone) := by
  intro t ht
  simp only [autoUpdateTaskStatuses, List.map_map, List.mem_map] at ht
  obtain ⟨t0, _, rfl⟩ := ht
  exact autoUpdateOneTask_invariant t0 now

/-- C7, witness: the invariant holds of the first task the sweep produces
on the invariant-violating `sweepProject`. -/
theorem auto_update_restores_invariant_witness :
    (sweptT1.status = StatusDone → ∀ s ∈ sweptT1.subtasks, s.status = StatusDone) ∧
    (sweptT1.subtasks ≠ [] → (∀ s ∈ sweptT1.subtasks, s.status = StatusDone) →
      sweptT1.status = StatusDone) :=
  auto_update_restores_invariant sweepProject 5 sweptT1 (by decide)

/-- C8: an `evaluateProject` call finding a memoized result younger than
the TTL returns that result marked as a cache hit without reading the
store or touching the cache; a call finding no sufficiently young entry
reads the store and returns a result with cache-hit false stamped at the
call time. -/
theorem evaluate_project_cache_ttl (cfg : AutoEvaluationConfig) (cache : Cache)
    (store : Option Project) (name : Str) (now : Nat) :
    (∀ r, cacheLookup cache name = some r → now - r.evaluationTime < cfg.cacheTimeout →
      evaluateProject cfg cache store name now =
        .ok ({ r with cacheHit := true }, cache, store, false))
    ∧
    ((∀ r, cacheLookup cache name = some r → ¬ now - r.evaluationTime < cfg.cacheTimeout) →
      ∀ p, store = some p → validateProjectName p.name = .ok () →
        ∃ res store', evaluateProject cfg cache store name now =
          .ok (res, cacheInsert cache name res, store', true) ∧
          res.cacheHit = false ∧ res.evaluationTime = now) := by
  constructor
  · intro r hr httl
    have hcached : getCachedResult cache name cfg.cacheTimeout now =
        some { r with cacheHit := true } := by
      unfold getCachedResult
      rw [hr]
      simp only []
      rw [if_pos httl]
    unfold evaluateProject
    rw [hcached]
  · intro hstale p hp hname
    have hmiss : getCachedResult cache name cfg.cacheTimeout now = none := by
      unfold getCachedResult
      cases hr : cacheLookup cache name with
      | none => rfl
      | some r =>
        simp only []
        rw [if_neg (hstale r hr)]
    subst hp
    have hsave : saveProject (autoUpdateTaskStatuses p now).1 now =
        .ok { (autoUpdateTaskStatuses p now).1 with updatedAt := now } := by
      unfold saveProject
      have hn : validateProjectName ((autoUpdateTaskStatuses p now).1).name = .ok () := hname
      rw [hn]
    unfold evaluateProject
    rw [hmiss]
    simp only []
    by_cases hch : (autoUpdateTaskStatuses p now).2.2 = true
    · rw [if_pos hch, hsave]
      exact ⟨_, _, rfl, rfl, rfl⟩
    · rw [if_neg hch]
      exact ⟨_, _, rfl, rfl, rfl⟩

/-- C8, witness: a hit on a 50ns-old entry under the default 5-minute TTL,
and a fresh evaluation on an empty cache. -/
theorem evaluate_project_cache_ttl_witness :
    (evaluateProject defaultAutoEvaluationConfig [("w".data, cachedDemo)]
        (some upProject) "w".data 150 =
      .ok ({ cachedDemo with cacheHit := true }, [("w".data, cachedDemo)],
        some upProject, false)) ∧
    (∃ res store', evaluateProject defaultAutoEvaluationConfig [] (some upProject)
        "w".data 150 =
      .ok (res, cacheInsert [] "w".data res, store', true) ∧
      res.cacheHit = false ∧ res.evaluationTime = 150) :=
  ⟨(evaluate_project_cache_ttl defaultAutoEvaluationConfig [("w".data, cachedDemo)]
      (some upProject) "w".data 150).1 cachedDemo (by decide) (by decide),
   (evaluate_project_cache_ttl defaultAutoEvaluationConfig [] (some upProject)
      "w".data 150).2 (fun r hr => by simp [cacheLookup] at hr) upProject rfl (by decide)⟩

/-- C9: when the named task, or the named subtask within the located task,
does not exist, `UpdateTaskStatus` returns the not-found error and the
stored document is exactly what it was before the call. -/
theorem update_error_leaves_store (p : Project) (T S : Str) (status : TaskStatus)
    (now : Nat) :
    (p.tasks.find? (fun t => t.title == T) = none →
      updateTaskStatus p T S status now = .error ("task not found: ".data ++ T) ∧
      updateTaskStatusStore p T S status now = p)
    ∧
    (∀ tk, p.tasks.find? (fun t => t.title == T) = some tk → ¬ S = [] →
      tk.subtasks.find? (fun s => s.title == S) = none →
      updateTaskStatus p T S status now = .error ("subtask not found: ".data ++ S) ∧
      updateTaskStatusStore p T S status now = p) := by
  constructor
  · intro hnone
    have hall : ∀ x ∈ p.tasks, ¬ x.title = T := by
      intro x hx
      have := List.find?_eq_none.1 hnone x hx
      simpa [beq_iff_eq] using this
    have herr : updateTaskStatus p T S status now =
        .error ("task not found: ".data ++ T) := by
      unfold updateTaskStatus
      rw [updateTasksGo_notfound now T S status p.tasks hall]
    exact ⟨herr, by unfold updateTaskStatusStore; rw [herr]⟩
  · intro tk hfind hS hsubnone
    have htk : tk.title = T := by
      have := List.find?_some hfind
      simpa [beq_iff_eq] using this
    obtain ⟨pre, post, heq, hallp⟩ := find?_decomp hfind
    have hallp' : ∀ x ∈ pre, ¬ x.title = T := by
      intro x hx; have := hallp x hx; simpa [beq_iff_eq] using this
    have hsall : ∀ x ∈ tk.subtasks, ¬ x.title = S := by
      intro x hx
      have := List.find?_eq_none.1 hsubnone x hx
      simpa [beq_iff_eq] using this
    have hproc : processTaskUpdate now S status tk =
        .error ("subtask not found: ".data ++ S) := by
      unfold processTaskUpdate
      rw [if_neg hS, updateSubtasksGo_notfound now S status tk.subtasks hsall]
    have herr : updateTaskStatus p T S status now =
        .error ("subtask not found: ".data ++ S) := by
      unfold updateTaskStatus
      rw [heq, updateTasksGo_append now T S status pre post tk hallp' htk, hproc]
      rfl
    exact ⟨herr, by unfold updateTaskStatusStore; rw [herr]⟩

/-- C9, witness: a missing task title and a missing subtask title both
error and leave `upProject` stored unchanged. -/
theorem update_error_leaves_store_witness :
    (updateTaskStatus upProject "X".data "b".data StatusDone 5 =
        .error ("task not found: ".data ++ "X".data) ∧
      updateTaskStatusStore upProject "X".data "b".data StatusDone 5 = upProject) ∧
    (updateTaskStatus upProject "T".data "zz".data StatusDone 5 =
        .error ("subtask not found: ".data ++ "zz".data) ∧
      updateTaskStatusStore upProject "T".data "zz".data StatusDone 5 = upProject) :=
  ⟨(update_error_leaves_store upProject "X".data "b".data StatusDone 5).1 (by decide),
   (update_error_leaves_store upProject "T".data "zz".data StatusDone 5).2 upTask
     (by decide) (by decide) (by decide)⟩

/-- C10: a successful `UpdateTaskStatus` naming a task, a subtask, and a
non-done status changes exactly that subtask's status and the updated
timestamps: the resulting document is the original with the located
subtask's status and timestamp replaced, the owning task and project
timestamps restamped, and everything else — in particular the parent
task's status — unchanged. -/
theorem subtask_update_frame (p : Project) (T S : Str) (status : TaskStatus) (now : Nat)
    (tk : Task) (st : Subtask) (hS : ¬ S = []) (hstatus : ¬ status = StatusDone)
    (hfind : p.tasks.find? (fun t => t.title == T) = some tk)
    (hsub : tk.subtasks.find? (fun s => s.title == S) = some st)
    (p' : Project) (hok : updateTaskStatus p T S status now = .ok p') :
    ∃ pre post spre spost,
      p.tasks = pre ++ tk :: post ∧ tk.subtasks = spre ++ st :: spost ∧
      p' = { p with
        tasks := pre ++ { tk with
          subtasks := spre ++ { st with status := status, updatedAt := now } :: spost,
          updatedAt := now } :: post,
        updatedAt := now } := by
  have htk : tk.title = T := by
    have := List.find?_some hfind
    simpa [beq_iff_eq] using this
  have hstS : st.title = S := by
    have := List.find?_some hsub
    simpa [beq_iff_eq] using this
  obtain ⟨pre, post, heq, hallp⟩ := find?_decomp hfind
  have hallp' : ∀ x ∈ pre, ¬ x.title = T := by
    intro x hx; have := hallp x hx; simpa [beq_iff_eq] using this
  obtain ⟨spre, spost, hseq, halls⟩ := find?_decomp hsub
  have halls' : ∀ x ∈ spre, ¬ x.title = S := by
    intro x hx; have := halls x hx; simpa [beq_iff_eq] using this
  have hstep := processTaskUpdate_sub now S status tk hS spre spost st hseq halls' hstS
  simp only [] at hstep
  have hproc : processTaskUpdate now S status tk = .ok { tk with
      subtasks := spre ++ { st with status := status, updatedAt := now } :: spost,
      updatedAt := now } := by
    rw [hstep, if_neg ?hc]
    case hc => rintro ⟨h, -, -⟩; exact hstatus h
  exact ⟨pre, post, spre, spost, heq, hseq,
    updateTaskStatus_ok_decomp p T S status now pre post tk _ heq hallp' htk hproc p' hok⟩

/-- C10, witness: setting subtask "a" of the all-done task back to todo
changes only that subtask (and timestamps); the parent stays done. -/
theorem subtask_update_frame_witness :
    ∃ pre post spre spost,
      allDoneProject.tasks = pre ++ allDoneTask :: post ∧
      allDoneTask.subtasks = spre ++ plainSub "a".data StatusDone :: spost ∧
      updateTaskStatusStore allDoneProject "T".data "a".data StatusTodo 5 =
        { allDoneProject with
          tasks := pre ++ { allDoneTask with
            subtasks := spre ++
              { plainSub "a".data StatusDone with status := StatusTodo, updatedAt := 5 } :: spost,
            updatedAt := 5 } :: post,
          updatedAt := 5 } :=
  subtask_update_frame allDoneProject "T".data "a".data StatusTodo 5 allDoneTask
    (plainSub "a".data StatusDone) (by decide) (by decide) (by decide) (by decide)
    _ (by decide)

end TaskMd
